import Mathlib

/-! fintrack-app: the aggregation engine of the Dashboard, Reports and Transactions screens,
the recurring-definitions screen and the transaction service.

A shallow embedding of the client-side arithmetic of `src/app/dashboard.js`,
`src/app/reports.js` and `src/app/transactions.js`, of the handlers of
`src/app/RecurringTransactions.js` and `src/app/AddTransaction.js`, and of
`src/services/transactionService.js`.

Conventions of the embedding.

* A JavaScript number is a `JSNum`: an exact rational, `Infinity`, `-Infinity` or `NaN`.
  Arithmetic on finite values is exact (the rounding of IEEE doubles and the sign of zero
  are not represented); `NaN` and the infinities follow the JavaScript rules.
* Where the result depends on the rounding of sums (which totals tie, which is largest),
  the reducers are taken on doubles: `binary64` rounds an exact result to the nearest
  double, and the functions of the namespace `Rounded` round every operation with it.
* A plain object used as an accumulator is an `Obj`: its own enumerable string-keyed
  properties in creation order. Reads fall back to `Object.prototype`, `Object.entries`
  lists array-index keys first, and `Array.prototype.sort` is a stable sort.
* A `Date` is its time value in milliseconds, `none` for an invalid date. The local
  calendar of the device and `toLowerCase` are parameters (`Runtime`).
* A handler of a screen is a function of the state it closes over, the store, the signed-in
  user, the clock readings and the outcome of its store call; it returns the new state, the
  new store and what it showed (`Outcome`).
* Firestore is the documented behaviour of the calls the code makes (`setDoc` replaces a
  document, `addDoc` creates one, `updateDoc` writes fields over an existing one,
  `deleteDoc` removes one, a `where` query selects by field value); whether the store
  carries out a call is an input of each function.
-/

namespace Fintrack

/-! ## JavaScript numbers -/

/-- A JavaScript number: finite (exact rational), an infinity, or NaN. -/
inductive JSNum where
  | fin (q : ℚ)
  | posInf
  | negInf
  | nan
  deriving DecidableEq

namespace JSNum

instance : Zero JSNum := ⟨fin 0⟩
instance : One JSNum := ⟨fin 1⟩
instance : Inhabited JSNum := ⟨fin 0⟩

/-- JavaScript `x + y` on numbers. -/
def add : JSNum → JSNum → JSNum
  | nan, _ => nan
  | _, nan => nan
  | fin a, fin b => fin (a + b)
  | posInf, negInf => nan
  | negInf, posInf => nan
  | posInf, _ => posInf
  | _, posInf => posInf
  | negInf, _ => negInf
  | _, negInf => negInf

/-- JavaScript unary minus. -/
def neg : JSNum → JSNum
  | fin a => fin (-a)
  | posInf => negInf
  | negInf => posInf
  | nan => nan

/-- JavaScript `x - y` on numbers. -/
def sub (x y : JSNum) : JSNum := add x (neg y)

/-- JavaScript `x * y` on numbers. -/
def mul : JSNum → JSNum → JSNum
  | nan, _ => nan
  | _, nan => nan
  | fin a, fin b => fin (a * b)
  | posInf, fin b => if b = 0 then nan else if 0 < b then posInf else negInf
  | negInf, fin b => if b = 0 then nan else if 0 < b then negInf else posInf
  | fin a, posInf => if a = 0 then nan else if 0 < a then posInf else negInf
  | fin a, negInf => if a = 0 then nan else if 0 < a then negInf else posInf
  | posInf, posInf => posInf
  | negInf, negInf => posInf
  | posInf, negInf => negInf
  | negInf, posInf => negInf

/-- JavaScript `x / y` on numbers (a zero divisor is `+0`). -/
def div : JSNum → JSNum → JSNum
  | nan, _ => nan
  | _, nan => nan
  | fin a, fin b =>
      if b = 0 then (if a = 0 then nan else if 0 < a then posInf else negInf)
      else fin (a / b)
  | fin _, posInf => fin 0
  | fin _, negInf => fin 0
  | posInf, fin b => if b < 0 then negInf else posInf
  | negInf, fin b => if b < 0 then posInf else negInf
  | posInf, posInf => nan
  | posInf, negInf => nan
  | negInf, posInf => nan
  | negInf, negInf => nan

instance : Add JSNum := ⟨add⟩
instance : Neg JSNum := ⟨neg⟩
instance : Sub JSNum := ⟨sub⟩
instance : Mul JSNum := ⟨mul⟩
instance : Div JSNum := ⟨div⟩

/-- JavaScript `x > y`. -/
def gt : JSNum → JSNum → Bool
  | fin a, fin b => decide (b < a)
  | posInf, fin _ => true
  | posInf, negInf => true
  | fin _, negInf => true
  | _, _ => false

/-- JavaScript `x >= y`. -/
def ge : JSNum → JSNum → Bool
  | fin a, fin b => decide (b ≤ a)
  | posInf, fin _ => true
  | posInf, negInf => true
  | fin _, negInf => true
  | posInf, posInf => true
  | negInf, negInf => true
  | _, _ => false

/-- JavaScript truthiness of a number: everything but `0` and `NaN`. -/
def truthy : JSNum → Bool
  | fin a => decide (a ≠ 0)
  | nan => false
  | _ => true

end JSNum

/-- Addition of JavaScript numbers is associative and commutative with unit `0` (exact
arithmetic on the finite values; NaN and the infinities absorb). -/
instance : AddCommMonoid JSNum where
  add_assoc := by
    intro x y z
    show JSNum.add (JSNum.add x y) z = JSNum.add x (JSNum.add y z)
    cases x <;> cases y <;> cases z <;> simp [JSNum.add, Rat.add_assoc]
  zero_add := by
    intro x
    show JSNum.add (JSNum.fin 0) x = x
    cases x <;> simp [JSNum.add]
  add_zero := by
    intro x
    show JSNum.add x (JSNum.fin 0) = x
    cases x <;> simp [JSNum.add]
  add_comm := by
    intro x y
    show JSNum.add x y = JSNum.add y x
    cases x <;> cases y <;> simp [JSNum.add, Rat.add_comm]
  nsmul := nsmulRec

/-! ## `parseFloat` -/

/-- The characters `parseFloat` skips at the start of its argument
(`StrWhiteSpaceChar`: white space and line terminators). -/
def isStrWhiteSpaceChar (c : Char) : Bool :=
  let n := c.toNat
  n = 9 || n = 10 || n = 11 || n = 12 || n = 13 || n = 32 || n = 160 || n = 5760 ||
  (8192 ≤ n && n ≤ 8202) || n = 8232 || n = 8233 || n = 8239 || n = 8287 ||
  n = 12288 || n = 65279

/-- Value of a run of decimal digits. -/
def digitsValue (ds : List Char) : Nat :=
  ds.foldl (fun acc c => acc * 10 + (c.toNat - 48)) 0

/-- An exponent part `e[+-]?digits` at the head of the input, when well formed. -/
def parseExponent : List Char → Option Int
  | c :: rest =>
      if c = 'e' ∨ c = 'E' then
        match rest with
        | '+' :: ds =>
            if (ds.takeWhile Char.isDigit).isEmpty then none
            else some (digitsValue (ds.takeWhile Char.isDigit) : Int)
        | '-' :: ds =>
            if (ds.takeWhile Char.isDigit).isEmpty then none
            else some (-(digitsValue (ds.takeWhile Char.isDigit) : Int))
        | ds =>
            if (ds.takeWhile Char.isDigit).isEmpty then none
            else some (digitsValue (ds.takeWhile Char.isDigit) : Int)
      else none
  | [] => none

/-- The unsigned part of a `StrDecimalLiteral`: the longest leading decimal literal. -/
def parseUnsigned (cs : List Char) : Option ℚ :=
  let intDigits := cs.takeWhile Char.isDigit
  let rest := cs.dropWhile Char.isDigit
  let fracDigits : List Char :=
    match rest with
    | '.' :: r => r.takeWhile Char.isDigit
    | _ => []
  let afterMantissa : List Char :=
    match rest with
    | '.' :: r => r.dropWhile Char.isDigit
    | _ => rest
  if intDigits.isEmpty && fracDigits.isEmpty then none
  else
    let mantissa : ℚ :=
      (digitsValue intDigits : ℚ) + (digitsValue fracDigits : ℚ) / (10 : ℚ) ^ fracDigits.length
    match parseExponent afterMantissa with
    | some e => some (mantissa * (10 : ℚ) ^ e)
    | none => some mantissa

/-- The literal `Infinity` at the head of the input. -/
def startsWithInfinity (cs : List Char) : Bool :=
  cs.take 8 == "Infinity".toList

/-- JavaScript `parseFloat` on a string. -/
def parseFloatString (s : String) : JSNum :=
  let cs := s.toList.dropWhile isStrWhiteSpaceChar
  match cs with
  | '-' :: r =>
      if startsWithInfinity r then JSNum.negInf
      else match parseUnsigned r with
        | some q => JSNum.fin (-q)
        | none => JSNum.nan
  | '+' :: r =>
      if startsWithInfinity r then JSNum.posInf
      else match parseUnsigned r with
        | some q => JSNum.fin q
        | none => JSNum.nan
  | r =>
      if startsWithInfinity r then JSNum.posInf
      else match parseUnsigned r with
        | some q => JSNum.fin q
        | none => JSNum.nan

/-- A stored field that the screens pass to `parseFloat`: absent, a number or a string. -/
inductive JSVal where
  | undefined
  | num (x : JSNum)
  | str (s : String)
  deriving DecidableEq

/-- JavaScript `parseFloat(v)`: the argument is converted to a string and parsed; a number
converts to a string that parses back to itself, `undefined` to one that does not parse. -/
def parseFloat : JSVal → JSNum
  | JSVal.undefined => JSNum.nan
  | JSVal.num x => x
  | JSVal.str s => parseFloatString s

/-! ## Plain objects used as accumulators -/

/-- The own enumerable string-keyed properties of a plain object, in creation order. -/
abbrev Obj (α : Type) := List (String × α)

/-- The property names every plain object inherits from `Object.prototype`. -/
def objectPrototypeKeys : List String :=
  ["constructor", "__defineGetter__", "__defineSetter__", "hasOwnProperty",
   "__lookupGetter__", "__lookupSetter__", "isPrototypeOf", "propertyIsEnumerable",
   "toString", "valueOf", "__proto__", "toLocaleString"]

/-- The result of reading `o[k]`: an own property, a built-in function or object found on
`Object.prototype`, or `undefined`. -/
inductive Lookup (α : Type) where
  | own (v : α)
  | inherited
  | undefined
  deriving DecidableEq

/-- The own property `k` of `o`, when there is one. -/
def Obj.getOwn {α : Type} : Obj α → String → Option α
  | [], _ => none
  | (k', v) :: o, k => if k' = k then some v else Obj.getOwn o k

/-- JavaScript `o[k]` on a plain object. -/
def Obj.get {α : Type} (o : Obj α) (k : String) : Lookup α :=
  match o.getOwn k with
  | some v => Lookup.own v
  | none => if k ∈ objectPrototypeKeys then Lookup.inherited else Lookup.undefined

/-- Replace the value of the own property `k`. -/
def Obj.replace {α : Type} : Obj α → String → α → Obj α
  | [], _, _ => []
  | (k', v') :: o, k, v => if k' = k then (k', v) :: o else (k', v') :: Obj.replace o k v

/-- JavaScript `o[k] = v` on a plain object. An own property keeps its place, a new one is
created last. The key `__proto__` is the accessor of `Object.prototype`: its setter creates
no own property (and ignores a value that is not an object). -/
def Obj.set {α : Type} (o : Obj α) (k : String) (v : α) : Obj α :=
  if k = "__proto__" then o
  else match o.getOwn k with
    | some _ => o.replace k v
    | none => o ++ [(k, v)]

/-- The array index a property name denotes: a canonical decimal numeral (no leading
zero) below `2^32 - 1`. -/
def arrayIndex (k : String) : Option Nat :=
  let cs := k.toList
  if cs.isEmpty then none
  else if !cs.all Char.isDigit then none
  else if cs.head? = some '0' && cs.length ≠ 1 then none
  else if digitsValue cs < 4294967295 then some (digitsValue cs) else none

/-- Insert an entry with index `i` into entries sorted by ascending array index. -/
def insertByIndex {α : Type} (i : Nat) (e : String × α) : List (String × α) → List (String × α)
  | [] => [e]
  | e' :: l =>
      if i ≤ (arrayIndex e'.1).getD 0 then e :: e' :: l
      else e' :: insertByIndex i e l

/-- The array-index properties of `o`, in ascending index order. -/
def indexEntries {α : Type} : Obj α → List (String × α)
  | [] => []
  | e :: o =>
      match arrayIndex e.1 with
      | some i => insertByIndex i e (indexEntries o)
      | none => indexEntries o

/-- JavaScript `Object.entries(o)`: array-index keys in ascending order, then the other
keys in creation order. -/
def Object.entries {α : Type} (o : Obj α) : List (String × α) :=
  indexEntries o ++ o.filter (fun e => (arrayIndex e.1).isNone)

/-! ## `Array.prototype.sort` -/

/-- Insert `a` into a sorted list: `a` goes before the first element that the comparator
does not put ahead of it (a comparator result that is not `> 0`, `NaN` included). -/
def sortedInsert {α : Type} (cmp : α → α → JSNum) (a : α) : List α → List α
  | [] => [a]
  | b :: l => if JSNum.gt (cmp a b) 0 then b :: sortedInsert cmp a l else a :: b :: l

/-- JavaScript `xs.sort(cmp)`: a stable sort. -/
def arraySort {α : Type} (cmp : α → α → JSNum) : List α → List α
  | [] => []
  | a :: l => sortedInsert cmp a (arraySort cmp l)

/-! ## Transactions and the runtime -/

/-- A transaction record as the screens read it. `date` is the time value, in
milliseconds, of `new Date(t.date)`; `none` is an invalid date. -/
structure Transaction where
  id : String := ""
  amount : JSVal
  description : Option String
  category : Option String
  type : Option String
  date : Option Int
  deriving DecidableEq

/-- The property name a category is used as: a missing category is the key `undefined`. -/
def propertyKey : Option String → String
  | some c => c
  | none => "undefined"

/-- The test `t.type === 'expense'`. -/
def isExpense (t : Transaction) : Bool := decide (t.type = some "expense")

/-- What the JavaScript runtime supplies: the local calendar of a time value and
`String.prototype.toLowerCase`. -/
structure Runtime where
  getFullYear : Int → Int
  getMonth : Int → Nat
  getDate : Int → Nat
  getDay : Int → Nat
  toLowerCase : String → String

/-- The content of `toDateString()`: weekday, month, day of the month and year. -/
def Runtime.toDateString (rt : Runtime) (t : Int) : Nat × Nat × Nat × Int :=
  (rt.getDay t, rt.getMonth t, rt.getDate t, rt.getFullYear t)

/-- Does the text `s` start with `q`? -/
def startsWith : List Char → List Char → Bool
  | _, [] => true
  | [], _ :: _ => false
  | c :: s, d :: q => c = d && startsWith s q

/-- Does `q` occur in `s` as a contiguous run? -/
def includesChars : List Char → List Char → Bool
  | [], q => q.isEmpty
  | c :: s, q => startsWith (c :: s) q || includesChars s q

/-- JavaScript `s.includes(q)`. -/
def includes (s q : String) : Bool := includesChars s.toList q.toList

/-! ## `src/app/reports.js` -/

namespace Reports

/-- `totalExpense`: `transactions.filter(t => t.type === 'expense')
.reduce((acc, t) => acc + parseFloat(t.amount), 0)`. -/
def totalExpense (transactions : List Transaction) : JSNum :=
  (transactions.filter isExpense).foldl (fun acc t => acc + parseFloat t.amount) 0

/-- `remaining = monthlyBudget - totalExpense`. -/
def remaining (monthlyBudget : JSNum) (transactions : List Transaction) : JSNum :=
  monthlyBudget - totalExpense transactions

/-- A value held by the `categoryBreakdown` accumulator: a number, or the text that `+=`
builds when the key was first read from `Object.prototype` (the built-in converted to a
string with the amount appended; it is not empty and does not convert to a number). -/
inductive Amount where
  | num (x : JSNum)
  | text
  deriving DecidableEq

/-- Truthiness of `acc[k]`. -/
def truthy : Lookup Amount → Bool
  | Lookup.own (Amount.num x) => x.truthy
  | Lookup.own Amount.text => true
  | Lookup.inherited => true
  | Lookup.undefined => false

/-- The value of `acc[k] + x` for a number `x`. -/
def plus : Lookup Amount → JSNum → Amount
  | Lookup.own (Amount.num a), x => Amount.num (a + x)
  | Lookup.own Amount.text, _ => Amount.text
  | Lookup.inherited, _ => Amount.text
  | Lookup.undefined, _ => Amount.num JSNum.nan

/-- The body of the `categoryBreakdown` reducer:
`if (!acc[t.category]) acc[t.category] = 0; acc[t.category] += parseFloat(t.amount)`. -/
def categoryStep (acc : Obj Amount) (t : Transaction) : Obj Amount :=
  let k := propertyKey t.category
  let acc1 := if !truthy (acc.get k) then acc.set k (Amount.num 0) else acc
  acc1.set k (plus (acc1.get k) (parseFloat t.amount))

/-- `categoryBreakdown`: the expense entries reduced into an object keyed by category. -/
def categoryBreakdown (transactions : List Transaction) : Obj Amount :=
  (transactions.filter isExpense).foldl categoryStep []

/-- The number an accumulator value converts to in arithmetic. -/
def Amount.toNumber : Amount → JSNum
  | Amount.num x => x
  | Amount.text => JSNum.nan

/-- The `percentage` field: the number `0`, or the string `x.toFixed(1)` of a number `x`. -/
inductive Percentage where
  | zero
  | toFixed1 (x : JSNum)
  deriving DecidableEq

/-- An entry of `categoryData`. -/
structure CategoryDatum where
  category : String
  amount : Amount
  percentage : Percentage
  deriving DecidableEq

/-- `categoryData`: the entries of `categoryBreakdown` with their percentage, sorted by
`(a, b) => b.amount - a.amount`. -/
def categoryData (transactions : List Transaction) : List CategoryDatum :=
  arraySort (fun a b => b.amount.toNumber - a.amount.toNumber)
    ((Object.entries (categoryBreakdown transactions)).map (fun e =>
      { category := e.1
        amount := e.2
        percentage :=
          if JSNum.gt (totalExpense transactions) 0 then
            Percentage.toFixed1 (e.2.toNumber / totalExpense transactions * JSNum.fin 100)
          else Percentage.zero }))

end Reports

/-! ## `src/app/dashboard.js` -/

namespace Dashboard

/-- `getFilteredByDate`: the date filter of the Dashboard, evaluated at the instant `now`. -/
def getFilteredByDate (rt : Runtime) (now : Int) (dateFilter : String)
    (trans : Transaction) : Bool :=
  match dateFilter with
  | "today" =>
      match trans.date with
      | some transDate => decide (rt.toDateString transDate = rt.toDateString now)
      | none => false
  | "week" =>
      match trans.date with
      | some transDate => decide (now - 7 * 24 * 60 * 60 * 1000 ≤ transDate)
      | none => false
  | "month" =>
      match trans.date with
      | some transDate =>
          decide (rt.getMonth transDate = rt.getMonth now) &&
          decide (rt.getFullYear transDate = rt.getFullYear now)
      | none => false
  | _ => true

/-- The search test of `filteredTransactions`: with optional chaining a missing field
yields `undefined`, which is falsy. -/
def matchesSearch (rt : Runtime) (searchQuery : String) (t : Transaction) : Bool :=
  if searchQuery = "" then true
  else
    (match t.description with
      | some d => includes (rt.toLowerCase d) (rt.toLowerCase searchQuery)
      | none => false) ||
    (match t.category with
      | some c => includes (rt.toLowerCase c) (rt.toLowerCase searchQuery)
      | none => false)

/-- `filteredTransactions`: the date filter, then the search filter. -/
def filteredTransactions (rt : Runtime) (now : Int) (dateFilter searchQuery : String)
    (transactions : List Transaction) : List Transaction :=
  (transactions.filter (getFilteredByDate rt now dateFilter)).filter
    (matchesSearch rt searchQuery)

/-- `totalExpense` of the Dashboard, over `filteredTransactions`. -/
def totalExpense (filteredTransactions : List Transaction) : JSNum :=
  (filteredTransactions.filter isExpense).foldl (fun acc t => acc + parseFloat t.amount) 0

/-- `safeToSpend = monthlyBudget - totalExpense`. -/
def safeToSpend (monthlyBudget : JSNum) (filteredTransactions : List Transaction) : JSNum :=
  monthlyBudget - totalExpense filteredTransactions

/-- The `icon` of a category cell: a string, or a built-in read from `Object.prototype`. -/
inductive Icon where
  | emoji (s : String)
  | builtin
  deriving DecidableEq

/-- The `icons` table of `getCategoryIcon`. -/
def icons : Obj String :=
  [("Shopping", "🛍️"), ("Food", "🍔"), ("Groceries", "🛒"), ("Gas", "⛽"),
   ("Transport", "🚗"), ("Eating out", "🍕"), ("Bills", "📄"), ("Entertainment", "🎬"),
   ("Other", "💰")]

/-- `getCategoryIcon`: `icons[category] || '💰'`. -/
def getCategoryIcon (category : Option String) : Icon :=
  match icons.get (propertyKey category) with
  | Lookup.own s => if s.isEmpty then Icon.emoji "💰" else Icon.emoji s
  | Lookup.inherited => Icon.builtin
  | Lookup.undefined => Icon.emoji "💰"

/-- A value of the `categorySpending` accumulator: `{ total, count, icon }`. -/
structure Cell where
  total : JSNum
  count : JSNum
  icon : Icon
  deriving DecidableEq

/-- The body of the `categorySpending` reducer. `acc[t.category]` is falsy only when it is
`undefined`; when it is a built-in inherited from `Object.prototype` the two `+=` write
`total` and `count` on that built-in and the accumulator keeps its own properties. -/
def categoryStep (acc : Obj Cell) (t : Transaction) : Obj Cell :=
  let k := propertyKey t.category
  let acc1 :=
    match acc.get k with
    | Lookup.undefined => acc.set k { total := 0, count := 0, icon := getCategoryIcon t.category }
    | _ => acc
  match acc1.get k with
  | Lookup.own c =>
      acc1.set k { total := c.total + parseFloat t.amount, count := c.count + 1, icon := c.icon }
  | _ => acc1

/-- `categorySpending`: the filtered expense entries reduced into an object keyed by
category. -/
def categorySpending (filteredTransactions : List Transaction) : Obj Cell :=
  (filteredTransactions.filter isExpense).foldl categoryStep []

/-- An entry of `categoryList`. -/
structure CategoryItem where
  name : String
  total : JSNum
  average : JSNum
  icon : Icon
  deriving DecidableEq

/-- The entries of `categorySpending` mapped and sorted by `(a, b) => b.total - a.total`,
before `.slice(0, 4)`. -/
def sortedCategories (filteredTransactions : List Transaction) : List CategoryItem :=
  arraySort (fun a b => b.total - a.total)
    ((Object.entries (categorySpending filteredTransactions)).map (fun e =>
      { name := e.1, total := e.2.total, average := e.2.total / e.2.count, icon := e.2.icon }))

/-- `categoryList`: the four largest categories. -/
def categoryList (filteredTransactions : List Transaction) : List CategoryItem :=
  (sortedCategories filteredTransactions).take 4

end Dashboard

/-! ## `src/app/transactions.js` -/

namespace Transactions

/-- `getFilteredTransactions`: the expense entries, then the date filter of the screen. -/
def getFilteredTransactions (rt : Runtime) (now : Int) (filter : String)
    (transactions : List Transaction) : List Transaction :=
  let filtered := transactions.filter isExpense
  if filter = "all" then filtered
  else filtered.filter (fun t =>
    match t.date with
    | some transactionDate =>
        if filter = "today" then
          decide (rt.toDateString transactionDate = rt.toDateString now)
        else if filter = "week" then
          decide (now - 7 * 24 * 60 * 60 * 1000 ≤ transactionDate)
        else if filter = "month" then
          decide (rt.getMonth transactionDate = rt.getMonth now) &&
          decide (rt.getFullYear transactionDate = rt.getFullYear now)
        else true
    | none =>
        if filter = "today" then false
        else if filter = "week" then false
        else if filter = "month" then false
        else true)

/-- `totalAmount` of the Transactions screen. -/
def totalAmount (filteredTransactions : List Transaction) : JSNum :=
  filteredTransactions.foldl (fun sum t => sum + parseFloat t.amount) 0

end Transactions

/-! ## A concrete runtime: the UTC calendar and ASCII lower-casing -/

/-- Year, month (0-11) and day of the month of a day number counted from 1970-01-01. -/
def civilFromDays (days : Int) : Int × Nat × Nat :=
  let z := days + 719468
  let era := z / 146097
  let doe := z - era * 146097
  let yoe := (doe - doe / 1460 + doe / 36524 - doe / 146096) / 365
  let doy := doe - (365 * yoe + yoe / 4 - yoe / 100)
  let mp := (5 * doy + 2) / 153
  let d := doy - (153 * mp + 2) / 5 + 1
  let m := if mp < 10 then mp + 3 else mp - 9
  (if m ≤ 2 then yoe + era * 400 + 1 else yoe + era * 400, (m - 1).toNat, d.toNat)

/-- The runtime of a device whose local time is UTC; `toLowerCase` is exact on ASCII text. -/
def utcRuntime : Runtime where
  getFullYear := fun t => (civilFromDays (t / 86400000)).1
  getMonth := fun t => (civilFromDays (t / 86400000)).2.1
  getDate := fun t => (civilFromDays (t / 86400000)).2.2
  getDay := fun t => ((t / 86400000 + 4) % 7).toNat
  toLowerCase := String.toLower

/-! ## Definitions used to state the properties -/

/-- The rolling window of the filter `week`: the date is valid and at or after
`now - 7 × 24 h`. -/
def inRollingWeek (now : Int) (t : Transaction) : Prop :=
  ∃ d, t.date = some d ∧ now - 7 * 24 * 60 * 60 * 1000 ≤ d

instance (now : Int) (t : Transaction) : Decidable (inRollingWeek now t) :=
  match h : t.date with
  | some d =>
      if hd : now - 7 * 24 * 60 * 60 * 1000 ≤ d then isTrue ⟨d, h, hd⟩
      else isFalse (fun ⟨d', h', hd'⟩ => hd (by rw [h] at h'; cases h'; exact hd'))
  | none => isFalse (fun ⟨d', h', _⟩ => by rw [h] at h'; cases h')

/-- The text `q` occurs in the text `s` as a contiguous run of characters. -/
def occursIn (q s : String) : Prop := q.toList <:+: s.toList

/-- The own property names of an object, in creation order. -/
def keysOf {α : Type} (o : Obj α) : List String := o.map Prod.fst

/-- How one reducer step changes the list of own keys: a key that is not yet own is
created last when the step creates it at all. -/
def keyStep (creates : String → Bool) (ks : List String) (k : String) : List String :=
  if k ∈ ks then ks else if creates k then ks ++ [k] else ks

/-- What the two `+=` of the Dashboard reducer do to a cell. -/
def Dashboard.bump (c : Dashboard.Cell) (t : Transaction) : Dashboard.Cell :=
  { total := c.total + parseFloat t.amount, count := c.count + 1, icon := c.icon }

/-- The cell the Dashboard reducer creates for a new category. -/
def Dashboard.fresh (t : Transaction) : Dashboard.Cell :=
  { total := 0, count := 0, icon := Dashboard.getCategoryIcon t.category }

/-! ## Records used in the examples -/

/-- The record `{ amount, category, type: 'expense' }`, with no description and no date. -/
def expenseOf (amount : JSVal) (category : String) : Transaction :=
  { amount := amount, description := none, category := some category,
    type := some "expense", date := none }

/-- The three records of the scenario: 500 and 300 on Food, 200 on Transport. -/
def scenario : List Transaction :=
  [expenseOf (JSVal.num (JSNum.fin 500)) "Food", expenseOf (JSVal.num (JSNum.fin 300)) "Food",
   expenseOf (JSVal.num (JSNum.fin 200)) "Transport"]

/-- An income record dated at the epoch. -/
def incomeAtEpoch : Transaction :=
  { amount := JSVal.num (JSNum.fin 70), description := some "Salary", category := some "Pay",
    type := some "income", date := some 0 }

/-- An expense described as `Seafood`, with no category. -/
def seafood : Transaction :=
  { amount := JSVal.num (JSNum.fin 5), description := some "Seafood", category := none,
    type := some "expense", date := none }

/-- An expense with neither a description nor a category. -/
def unlabelled : Transaction :=
  { amount := JSVal.num (JSNum.fin 6), description := none, category := none,
    type := some "expense", date := none }

/-- Two categories, the first with an amount that does not parse. -/
def foodUnparsable : List Transaction :=
  [expenseOf (JSVal.str "abc") "Food", expenseOf (JSVal.num (JSNum.fin 5)) "Transport"]

/-- Food with an amount that does not parse, then Food with 5. -/
def foodAbcThenFive : List Transaction :=
  [expenseOf (JSVal.str "abc") "Food", expenseOf (JSVal.num (JSNum.fin 5)) "Food"]

/-- Two categories with the total 1, met in the order `10`, `2`. -/
def tenThenTwo : List Transaction :=
  [expenseOf (JSVal.num (JSNum.fin 1)) "10", expenseOf (JSVal.num (JSNum.fin 1)) "2"]

/-- Two categories with the total 1, met in the order `Gas`, `Food`, and a larger one. -/
def gasThenFood : List Transaction :=
  [expenseOf (JSVal.num (JSNum.fin 1)) "Gas", expenseOf (JSVal.num (JSNum.fin 3)) "Bills",
   expenseOf (JSVal.num (JSNum.fin 1)) "Food"]

/-- One expense of 5 in the category `constructor`. -/
def fiveOnConstructor : List Transaction :=
  [expenseOf (JSVal.num (JSNum.fin 5)) "constructor"]

/-- One expense of 5 in the category `__proto__`. -/
def fiveOnProto : List Transaction :=
  [expenseOf (JSVal.num (JSNum.fin 5)) "__proto__"]

/-- Two expenses, 5 and 7, in the category `toString`. -/
def twiceOnToString : List Transaction :=
  [expenseOf (JSVal.num (JSNum.fin 5)) "toString", expenseOf (JSVal.num (JSNum.fin 7)) "toString"]

/-! ## `src/app/reports.js`: the last seven days and the top spending day -/

/-- JavaScript `x < y`. -/
def JSNum.lt (x y : JSNum) : Bool := JSNum.gt y x

/-- JavaScript `Math.floor`. -/
def JSNum.floor : JSNum → JSNum
  | JSNum.fin q => JSNum.fin (⌊q⌋ : ℤ)
  | x => x

/-- The number `new Date() - transDate`: the difference of the time values, NaN when the
date is invalid. -/
def dateDifference (now : Int) (date : Option Int) : JSNum :=
  match date with
  | some d => JSNum.fin ((now - d : Int) : ℚ)
  | none => JSNum.nan

namespace Reports

/-- `daysDiff`: `Math.floor((new Date() - transDate) / (1000 * 60 * 60 * 24))`. -/
def daysDiff (now : Int) (t : Transaction) : JSNum :=
  JSNum.floor (dateDifference now t.date / JSNum.fin (1000 * 60 * 60 * 24))

/-- `last7Days`: the entries with `daysDiff >= 0 && daysDiff < 7 && t.type === 'expense'`. -/
def last7Days (now : Int) (transactions : List Transaction) : List Transaction :=
  transactions.filter (fun t =>
    JSNum.ge (daysDiff now t) 0 && JSNum.lt (daysDiff now t) (JSNum.fin 7) && isExpense t)

/-- `last7DaysSpending`: `last7Days.reduce((acc, t) => acc + parseFloat(t.amount), 0)`. -/
def last7DaysSpending (now : Int) (transactions : List Transaction) : JSNum :=
  (last7Days now transactions).foldl (fun acc t => acc + parseFloat t.amount) 0

/-- `weeklyAverage = last7DaysSpending / 7`. -/
def weeklyAverage (now : Int) (transactions : List Transaction) : JSNum :=
  last7DaysSpending now transactions / JSNum.fin 7

/-- The text `new Date(t.date).toLocaleDateString('en-US', { weekday: 'long' })`: the name
of the local weekday, or `Invalid Date` for an invalid date. -/
def weekdayLong (rt : Runtime) (date : Option Int) : String :=
  match date with
  | none => "Invalid Date"
  | some d =>
      match rt.getDay d % 7 with
      | 0 => "Sunday"
      | 1 => "Monday"
      | 2 => "Tuesday"
      | 3 => "Wednesday"
      | 4 => "Thursday"
      | 5 => "Friday"
      | _ => "Saturday"

/-- The body of the `spendingByDay` reducer:
`if (!acc[day]) acc[day] = 0; acc[day] += parseFloat(t.amount)`. -/
def spendingStep (rt : Runtime) (acc : Obj Amount) (t : Transaction) : Obj Amount :=
  let day := weekdayLong rt t.date
  let acc1 := if !truthy (acc.get day) then acc.set day (Amount.num 0) else acc
  acc1.set day (plus (acc1.get day) (parseFloat t.amount))

/-- `spendingByDay`: the expense entries reduced into an object keyed by weekday name. -/
def spendingByDay (rt : Runtime) (transactions : List Transaction) : Obj Amount :=
  (transactions.filter isExpense).foldl (spendingStep rt) []

/-- `topSpendingDay`: the first entry of `spendingByDay` sorted by
`(a, b) => b[1] - a[1]`, or `null` when there is no entry. -/
def topSpendingDay (rt : Runtime) (transactions : List Transaction) : Option (String × Amount) :=
  if (Object.entries (spendingByDay rt transactions)).length > 0 then
    (arraySort (fun a b => b.2.toNumber - a.2.toNumber)
      (Object.entries (spendingByDay rt transactions))).head?
  else none

/-- The number denoted by the string `x.toFixed(1)`: the multiple of one tenth nearest to
`x`, the one of larger magnitude on a tie; `x` itself from `1e21` on and for NaN and the
infinities. -/
def toFixed1Value : JSNum → JSNum
  | JSNum.fin q =>
      if (10 : ℚ) ^ 21 ≤ |q| then JSNum.fin q
      else if q < 0 then JSNum.fin (-((⌊(-q) * 10 + 1 / 2⌋ : ℤ) : ℚ) / 10)
      else JSNum.fin (((⌊q * 10 + 1 / 2⌋ : ℤ) : ℚ) / 10)
  | x => x

/-- The number a `percentage` field converts to. -/
def Percentage.toNumber : Percentage → JSNum
  | Percentage.zero => 0
  | Percentage.toFixed1 x => toFixed1Value x

end Reports

/-! ## `parseInt` -/

/-- The value of a character as a digit of radix 16, when it is one. -/
def hexDigitValue (c : Char) : Option Nat :=
  if c.isDigit then some (c.toNat - 48)
  else if 'a'.toNat ≤ c.toNat ∧ c.toNat ≤ 'f'.toNat then some (c.toNat - 'a'.toNat + 10)
  else if 'A'.toNat ≤ c.toNat ∧ c.toNat ≤ 'F'.toNat then some (c.toNat - 'A'.toNat + 10)
  else none

/-- The value of the longest leading run of digits of the radix, `none` when the run is
empty. -/
def parseDigits (radix : Nat) (cs : List Char) : Option Nat :=
  let isDigitOfRadix : Char → Bool := fun c =>
    match hexDigitValue c with
    | some v => decide (v < radix)
    | none => false
  let run := cs.takeWhile isDigitOfRadix
  if run.isEmpty then none
  else some (run.foldl (fun acc c => acc * radix + (hexDigitValue c).getD 0) 0)

/-- The unsigned part of `parseInt` without a radix argument: radix 16 after a `0x` or `0X`
mark, radix 10 otherwise. -/
def parseIntUnsigned : List Char → Option Nat
  | '0' :: 'x' :: r => parseDigits 16 r
  | '0' :: 'X' :: r => parseDigits 16 r
  | r => parseDigits 10 r

/-- JavaScript `parseInt` on a string, without a radix argument. -/
def parseIntString (s : String) : JSNum :=
  let cs := s.toList.dropWhile isStrWhiteSpaceChar
  match cs with
  | '-' :: r =>
      match parseIntUnsigned r with
      | some n => JSNum.fin (-(n : ℚ))
      | none => JSNum.nan
  | '+' :: r =>
      match parseIntUnsigned r with
      | some n => JSNum.fin (n : ℚ)
      | none => JSNum.nan
  | r =>
      match parseIntUnsigned r with
      | some n => JSNum.fin (n : ℚ)
      | none => JSNum.nan

/-! ## `src/app/RecurringTransactions.js` -/

namespace RecurringTransactions

/-- A recurring definition as `handleAddRecurring` builds it. `createdAt` is the time
value whose ISO text is stored; `dayOfMonth` is `none` for `null`. -/
structure Recurring where
  id : String
  amount : JSNum
  description : String
  category : String
  frequency : String
  dayOfMonth : Option JSNum
  isActive : Bool
  createdAt : Int
  deriving DecidableEq

/-- The state of the screen: the form fields, the `loading` flag and the in-memory
collection, with the initial values of the `useState` calls. -/
structure Screen where
  amount : String := ""
  description : String := ""
  category : String := ""
  frequency : String := "monthly"
  dayOfMonth : String := "1"
  loading : Bool := false
  recurringTransactions : List Recurring := []
  deriving DecidableEq

/-- The document `recurringTransactions/{userId}`; the field `transactions` may be
missing. -/
structure Document where
  transactions : Option (List Recurring)
  updatedAt : Int
  deriving DecidableEq

/-- The collection `recurringTransactions` of the store, by user id. -/
abbrev Store := String → Option Document

/-- The clock readings of one call of `handleAddRecurring`: `Date.now()` for the id,
`new Date()` for `createdAt` and `new Date()` for `updatedAt`. -/
structure Clock where
  idNow : Int
  createdAt : Int
  updatedAt : Int
  deriving DecidableEq

/-- What a handler leaves behind: the screen state, the store, the alerts shown, the
number of `setDoc` calls made and whether the `onSuccess` callback, when one is given, was
called. -/
structure Outcome where
  screen : Screen
  store : Store
  alerts : List (String × String)
  setDocCalls : Nat
  onSuccessCalled : Bool

/-- `loadRecurringTransactions`: with a signed-in user and a read that succeeds, the
in-memory collection becomes `docSnap.data().transactions || []` when the document
exists; in every other case the state is left as it is (a failed read is only logged). -/
def loadRecurringTransactions (currentUser : Option String) (readSucceeds : Bool)
    (store : Store) (screen : Screen) : Screen :=
  match currentUser with
  | none => screen
  | some userId =>
      if readSucceeds then
        match store userId with
        | some document =>
            { screen with recurringTransactions := document.transactions.getD [] }
        | none => screen
      else screen

/-- The object `recurring` built by `handleAddRecurring` from the form and the clock. -/
def newRecurring (clock : Clock) (screen : Screen) : Recurring :=
  { id := toString clock.idNow
    amount := parseFloatString screen.amount
    description := screen.description
    category := screen.category
    frequency := screen.frequency
    dayOfMonth := if screen.frequency = "monthly" then some (parseIntString screen.dayOfMonth)
                  else none
    isActive := true
    createdAt := clock.createdAt }

/-- `handleAddRecurring`. `writeSucceeds` is the outcome of `setDoc`; `screen` is the state
the handler closes over. -/
def handleAddRecurring (clock : Clock) (currentUser : Option String) (writeSucceeds : Bool)
    (store : Store) (screen : Screen) : Outcome :=
  if screen.amount = "" ∨ screen.description = "" ∨ screen.category = "" then
    { screen := screen, store := store,
      alerts := [("Error", "Please fill in all fields")],
      setDocCalls := 0, onSuccessCalled := false }
  else
    match currentUser with
    | none =>
        { screen := { screen with loading := false }, store := store,
          alerts := [("Error", "Failed to add recurring transaction")],
          setDocCalls := 0, onSuccessCalled := false }
    | some userId =>
        let updatedRecurring := screen.recurringTransactions ++ [newRecurring clock screen]
        if writeSucceeds then
          { screen :=
              { amount := "", description := "", category := "",
                frequency := screen.frequency, dayOfMonth := "1", loading := false,
                recurringTransactions := updatedRecurring }
            store := Function.update store userId
              (some { transactions := some updatedRecurring, updatedAt := clock.updatedAt })
            alerts := [("Success", "Recurring transaction added")],
            setDocCalls := 1, onSuccessCalled := true }
        else
          { screen := { screen with loading := false }, store := store,
            alerts := [("Error", "Failed to add recurring transaction")],
            setDocCalls := 1, onSuccessCalled := false }

/-- `toggleRecurring(id, isActive)`. -/
def toggleRecurring (clockUpdatedAt : Int) (currentUser : Option String)
    (writeSucceeds : Bool) (id : String) (isActive : Bool) (store : Store)
    (screen : Screen) : Outcome :=
  let updatedRecurring := screen.recurringTransactions.map (fun r =>
    if r.id = id then { r with isActive := !isActive } else r)
  match currentUser with
  | none =>
      { screen := screen, store := store, alerts := [], setDocCalls := 0,
        onSuccessCalled := false }
  | some userId =>
      if writeSucceeds then
        { screen := { screen with recurringTransactions := updatedRecurring }
          store := Function.update store userId
            (some { transactions := some updatedRecurring, updatedAt := clockUpdatedAt })
          alerts := [], setDocCalls := 1, onSuccessCalled := false }
      else
        { screen := screen, store := store,
          alerts := [("Error", "Failed to update recurring transaction")],
          setDocCalls := 1, onSuccessCalled := false }

/-- The `onPress` of the `Delete` button of `deleteRecurring(id)`, once the user has
confirmed. -/
def deleteRecurring (clockUpdatedAt : Int) (currentUser : Option String)
    (writeSucceeds : Bool) (id : String) (store : Store) (screen : Screen) : Outcome :=
  let updatedRecurring := screen.recurringTransactions.filter (fun r => decide (r.id ≠ id))
  match currentUser with
  | none =>
      { screen := screen, store := store, alerts := [], setDocCalls := 0,
        onSuccessCalled := false }
  | some userId =>
      if writeSucceeds then
        { screen := { screen with recurringTransactions := updatedRecurring }
          store := Function.update store userId
            (some { transactions := some updatedRecurring, updatedAt := clockUpdatedAt })
          alerts := [("Success", "Recurring transaction deleted")],
          setDocCalls := 1, onSuccessCalled := false }
      else
        { screen := screen, store := store,
          alerts := [("Error", "Failed to delete recurring transaction")],
          setDocCalls := 1, onSuccessCalled := false }

end RecurringTransactions

/-! ## Definitions used to state the properties of the last seven days -/

/-- The whole-day difference `floor((now - date) / 24 h)` of an entry with a valid date. -/
def wholeDaysBefore (now : Int) (t : Transaction) : Option Int :=
  t.date.map (fun d => ⌊((now - d : Int) : ℚ) / (24 * 60 * 60 * 1000)⌋)

/-- An expense entry whose whole-day difference `d` satisfies `0 ≤ d < 7`. -/
def inLast7Days (now : Int) (t : Transaction) : Prop :=
  t.type = some "expense" ∧ ∃ k, wholeDaysBefore now t = some k ∧ 0 ≤ k ∧ k < 7

instance (now : Int) (t : Transaction) : Decidable (inLast7Days now t) :=
  match h : wholeDaysBefore now t with
  | some k =>
      if hk : t.type = some "expense" ∧ 0 ≤ k ∧ k < 7 then isTrue ⟨hk.1, k, h, hk.2⟩
      else isFalse (fun ⟨he, k', h', hk'⟩ => hk (by rw [h] at h'; cases h'; exact ⟨he, hk'⟩))
  | none => isFalse (fun ⟨_, k', h', _⟩ => by rw [h] at h'; cases h')

/-! ## Definitions used to state the properties of the Reports accumulators -/

/-- The two statements shared by the reducers of Reports, for a key and a number:
`if (!acc[k]) acc[k] = 0; acc[k] += x`. -/
def Reports.addTo (acc : Obj Reports.Amount) (k : String) (x : JSNum) : Obj Reports.Amount :=
  let acc1 := if !Reports.truthy (acc.get k) then acc.set k (Reports.Amount.num 0) else acc
  acc1.set k (Reports.plus (acc1.get k) x)

/-- The number held under the own key `k`, `0` when there is none. -/
def Reports.current (acc : Obj Reports.Amount) (k : String) : JSNum :=
  match acc.getOwn k with
  | some (Reports.Amount.num v) => v
  | _ => 0

/-- The own key `k` is absent or holds a finite number. -/
def Reports.FiniteAt (acc : Obj Reports.Amount) (k : String) : Prop :=
  acc.getOwn k = none ∨ ∃ a : ℚ, acc.getOwn k = some (Reports.Amount.num (JSNum.fin a))

/-- The expense entries of a list that fall on the weekday named `w`. -/
def expensesOn (rt : Runtime) (w : String) (transactions : List Transaction) :
    List Transaction :=
  (transactions.filter isExpense).filter (fun t => decide (Reports.weekdayLong rt t.date = w))

/-- The sum of the parsed amounts of the expense entries on the weekday named `w`. -/
def spentOn (rt : Runtime) (w : String) (transactions : List Transaction) : JSNum :=
  ((expensesOn rt w transactions).map (fun t => parseFloat t.amount)).sum

/-- In the list `l`, `x` occurs and its first occurrence comes before any occurrence of
`y`. -/
def FirstBefore {α : Type} (x y : α) (l : List α) : Prop :=
  ∃ before after, l = before ++ x :: after ∧ x ∉ before ∧ y ∉ before

/-- The seven names `toLocaleDateString('en-US', { weekday: 'long' })` can produce for a
valid date. -/
def weekdayNames : List String :=
  ["Sunday", "Monday", "Tuesday", "Wednesday", "Thursday", "Friday", "Saturday"]

/-- Expenses of 1 on a Thursday, 2 on the next day and 1 a week after the first. -/
def thursdayFridayThursday : List Transaction :=
  [{ amount := JSVal.num (JSNum.fin 1), description := none, category := some "Food",
     type := some "expense", date := some 0 },
   { amount := JSVal.num (JSNum.fin 2), description := none, category := some "Food",
     type := some "expense", date := some 86400000 },
   { amount := JSVal.num (JSNum.fin 1), description := none, category := some "Food",
     type := some "expense", date := some 604800000 }]

/-- An amount that does not parse on a Thursday, then 5 on the next day. -/
def thursdayUnparsable : List Transaction :=
  [{ amount := JSVal.str "abc", description := none, category := some "Food",
     type := some "expense", date := some 0 },
   { amount := JSVal.num (JSNum.fin 5), description := none, category := some "Food",
     type := some "expense", date := some 86400000 }]

/-- One expense with the negative amount -5. -/
def minusFiveOnFood : List Transaction :=
  [expenseOf (JSVal.num (JSNum.fin (-5))) "Food"]

/-- 1 on Food and 2 on Gas. -/
def oneFoodTwoGas : List Transaction :=
  [expenseOf (JSVal.num (JSNum.fin 1)) "Food", expenseOf (JSVal.num (JSNum.fin 2)) "Gas"]

/-! ## States of the recurring screen used in the examples -/

namespace RecurringTransactions

/-- A store with no document. -/
def emptyStore : Store := fun _ => none

/-- The clock readings used in the examples. -/
def sampleClock : Clock := { idNow := 1700000000000, createdAt := 1700000000000, updatedAt := 1700000000001 }

/-- The form filled with the given amount and day of month, for a monthly rent. -/
def rentForm (amount dayOfMonth : String) : Screen :=
  { amount := amount, description := "Rent", category := "Rent", dayOfMonth := dayOfMonth }

/-- The form filled for a weekly subscription of 9.99. -/
def weeklyForm : Screen :=
  { amount := "9.99", description := "Music", category := "Subscriptions", frequency := "weekly" }

/-- A form with an amount and a category and no description. -/
def formWithoutDescription : Screen :=
  { amount := "100", category := "Rent" }

/-- A definition already held by the store. -/
def storedRent : Recurring :=
  { id := "1600000000000", amount := JSNum.fin 500, description := "Rent", category := "Rent",
    frequency := "monthly", dayOfMonth := some (JSNum.fin 1), isActive := true,
    createdAt := 1600000000000 }

/-- A store that holds the one definition `storedRent` for the user `u1`. -/
def storeWithRent : Store :=
  Function.update emptyStore "u1"
    (some { transactions := some [storedRent], updatedAt := 1600000000000 })

end RecurringTransactions

/-! ## More states of the recurring screen used in the examples -/

namespace RecurringTransactions

/-- A second definition held in the examples: a weekly subscription that is switched
off. -/
def storedMusic : Recurring :=
  { id := "1600000000001", amount := JSNum.fin 10, description := "Music",
    category := "Subscriptions", frequency := "weekly", dayOfMonth := none, isActive := false,
    createdAt := 1600000000001 }

/-- A store that holds `storedRent` and `storedMusic` for the user `u1`. -/
def storeWithBoth : Store :=
  Function.update emptyStore "u1"
    (some { transactions := some [storedRent, storedMusic], updatedAt := 1600000000001 })

/-- The screen after it has loaded the two definitions of `storeWithBoth`. -/
def screenWithBoth : Screen :=
  { recurringTransactions := [storedRent, storedMusic] }

end RecurringTransactions

/-! ## `getDaySuffix` of `src/app/RecurringTransactions.js` -/

/-- JavaScript `x <= y`. -/
def JSNum.le (x y : JSNum) : Bool := JSNum.ge y x

/-- JavaScript `x % y`: the remainder `x - y * trunc(x / y)`, with the sign of the
dividend; NaN when the dividend is not finite or the divisor is zero or NaN; the dividend
itself when the divisor is infinite. -/
def JSNum.rem : JSNum → JSNum → JSNum
  | JSNum.fin a, JSNum.fin b =>
      if b = 0 then JSNum.nan
      else if 0 ≤ a / b then JSNum.fin (a - b * ((⌊a / b⌋ : ℤ) : ℚ))
      else JSNum.fin (a - b * ((⌈a / b⌉ : ℤ) : ℚ))
  | JSNum.fin a, JSNum.posInf => JSNum.fin a
  | JSNum.fin a, JSNum.negInf => JSNum.fin a
  | _, _ => JSNum.nan

namespace RecurringTransactions

/-- `getDaySuffix(day)`: `th` for `day >= 11 && day <= 13`, otherwise by `day % 10`. -/
def getDaySuffix (day : JSNum) : String :=
  if JSNum.ge day (JSNum.fin 11) && JSNum.le day (JSNum.fin 13) then "th"
  else if JSNum.rem day (JSNum.fin 10) = JSNum.fin 1 then "st"
  else if JSNum.rem day (JSNum.fin 10) = JSNum.fin 2 then "nd"
  else if JSNum.rem day (JSNum.fin 10) = JSNum.fin 3 then "rd"
  else "th"

end RecurringTransactions

/-- The ordinal suffix of English for a day of the month: `st` for 1, 21 and 31, `nd` for 2
and 22, `rd` for 3 and 23, `th` for every other day. -/
def ordinalSuffix (day : Nat) : String :=
  if day = 1 ∨ day = 21 ∨ day = 31 then "st"
  else if day = 2 ∨ day = 22 then "nd"
  else if day = 3 ∨ day = 23 then "rd"
  else "th"

/-! ## `src/services/transactionService.js` -/

namespace TransactionService

/-- A field value of a document of the collection `transactions`, or of an object passed
to the service. `iso t` is the text `new Date(t).toISOString()`. -/
inductive Field where
  | str (s : String)
  | num (x : JSNum)
  | iso (t : Int)
  deriving DecidableEq

/-- JavaScript truthiness of a field value. -/
def Field.truthy : Field → Bool
  | Field.str s => decide (s ≠ "")
  | Field.num x => x.truthy
  | Field.iso _ => true

/-- The data of a document, or an object literal: its own properties in creation order. -/
abbrev Data := Obj Field

/-- The property definition `k: v` of an object literal or of a spread: an own property
keeps its place and takes the value, a new one is created last. -/
def define (o : Data) (k : String) (v : Field) : Data :=
  match o.getOwn k with
  | some _ => o.replace k v
  | none => o ++ [(k, v)]

/-- The object `{ ...a, ...b }`. -/
def spread (a b : Data) : Data :=
  b.foldl (fun o e => define o e.1 e.2) a

/-- The collection `transactions` of the store: the documents by id. -/
abbrev Collection := List (String × Data)

/-- The calls the service makes on Firestore. -/
inductive Call where
  | addDoc (data : Data)
  | getDocs (userId : String)
  | updateDoc (id : String) (fields : Data)
  | deleteDoc (id : String)
  deriving DecidableEq

/-- What a function of the service throws: the `Error('User not authenticated')` it
creates itself, or the error of a Firestore call, which it logs and throws again. -/
inductive Failure where
  | userNotAuthenticated
  | firestore
  deriving DecidableEq

instance {α : Type} [DecidableEq α] : DecidableEq (Except Failure α)
  | Except.ok a, Except.ok b =>
      if h : a = b then isTrue (congrArg Except.ok h)
      else isFalse (fun h' => h (Except.ok.inj h'))
  | Except.error a, Except.error b =>
      if h : a = b then isTrue (congrArg Except.error h)
      else isFalse (fun h' => h (Except.error.inj h'))
  | Except.ok _, Except.error _ => isFalse (fun h => Except.noConfusion h)
  | Except.error _, Except.ok _ => isFalse (fun h => Except.noConfusion h)

/-- What the service finds around it when called: `auth.currentUser?.uid` (`none` when no
user is signed in), the reading of `new Date()`, whether Firestore carries out the call it
receives, and the id Firestore gives to a document created by `addDoc`. -/
structure Env where
  currentUser : Option String
  now : Int
  storeAccepts : Bool
  autoId : String
  deriving DecidableEq

/-- The outcome of a call of the service: the value returned or the error thrown, the
collection afterwards and the Firestore calls made. -/
structure Result (α : Type) where
  value : Except Failure α
  collection : Collection
  calls : List Call

/-- The `userId` that passes the test `!userId`: the uid of the signed-in user, when it is
not the empty text. -/
def Env.userId (env : Env) : Option String :=
  match env.currentUser with
  | some uid => if uid = "" then none else some uid
  | none => none

/-- Firestore `addDoc`: a new document under the generated id. -/
def addDoc (autoId : String) (data : Data) (c : Collection) : Collection :=
  c ++ [(autoId, data)]

/-- Firestore `getDocs(query(transactionsCollection, where('userId', '==', userId)))`. -/
def queryByUser (userId : String) (c : Collection) : Collection :=
  c.filter (fun d => decide (d.2.getOwn "userId" = some (Field.str userId)))

/-- Firestore `updateDoc`: the given fields are written over the data of the document; the
call fails when there is no document with the id. -/
def updateDoc (id : String) (fields : Data) : Collection → Option Collection
  | [] => none
  | (id', data) :: c =>
      if id' = id then some ((id', spread data fields) :: c)
      else (updateDoc id fields c).map (fun c' => (id', data) :: c')

/-- Firestore `deleteDoc`: the document with the id is gone afterwards. -/
def deleteDoc (id : String) (c : Collection) : Collection :=
  c.filter (fun d => decide (d.1 ≠ id))

/-- `addTransaction(transaction)`. -/
def addTransaction (env : Env) (transaction : Data) (c : Collection) : Result Unit :=
  match env.userId with
  | none => { value := Except.error Failure.userNotAuthenticated, collection := c, calls := [] }
  | some userId =>
      let data := define (define (spread [] transaction) "userId" (Field.str userId))
        "createdAt" (Field.iso env.now)
      if env.storeAccepts then
        { value := Except.ok (), collection := addDoc env.autoId data c,
          calls := [Call.addDoc data] }
      else
        { value := Except.error Failure.firestore, collection := c,
          calls := [Call.addDoc data] }

/-- `getTransactions()`: each document of the query as `{ id: doc.id, ...doc.data() }`. -/
def getTransactions (env : Env) (c : Collection) : Result (List Data) :=
  match env.userId with
  | none => { value := Except.ok [], collection := c, calls := [] }
  | some userId =>
      if env.storeAccepts then
        { value := Except.ok ((queryByUser userId c).map
            (fun d => spread [("id", Field.str d.1)] d.2)),
          collection := c, calls := [Call.getDocs userId] }
      else
        { value := Except.error Failure.firestore, collection := c,
          calls := [Call.getDocs userId] }

/-- `updateTransaction(id, updates)`. -/
def updateTransaction (env : Env) (id : String) (updates : Data) (c : Collection) :
    Result Unit :=
  match env.userId with
  | none => { value := Except.error Failure.userNotAuthenticated, collection := c, calls := [] }
  | some _ =>
      let fields := define (spread [] updates) "updatedAt" (Field.iso env.now)
      if env.storeAccepts then
        match updateDoc id fields c with
        | some c' =>
            { value := Except.ok (), collection := c', calls := [Call.updateDoc id fields] }
        | none =>
            { value := Except.error Failure.firestore, collection := c,
              calls := [Call.updateDoc id fields] }
      else
        { value := Except.error Failure.firestore, collection := c,
          calls := [Call.updateDoc id fields] }

/-- `deleteTransaction(id)`. -/
def deleteTransaction (env : Env) (id : String) (c : Collection) : Result Unit :=
  if env.storeAccepts then
    { value := Except.ok (), collection := deleteDoc id c, calls := [Call.deleteDoc id] }
  else
    { value := Except.error Failure.firestore, collection := c, calls := [Call.deleteDoc id] }

/-- The owner of the document with the given id: its field `userId`. -/
def ownerOf (id : String) (c : Collection) : Option Field :=
  match c.find? (fun d => decide (d.1 = id)) with
  | some d => d.2.getOwn "userId"
  | none => none

end TransactionService

/-! ## `src/app/AddTransaction.js` -/

namespace AddTransaction

open TransactionService

/-- The form fields and the `loading` flag of the screen. -/
structure Form where
  amount : String := ""
  description : String := ""
  category : String := ""
  loading : Bool := false
  deriving DecidableEq

/-- What `handleSubmit` reads of the `transaction` prop of a record being edited:
`transaction.id` and `transaction.date`, each `none` when undefined. -/
structure Editing where
  id : Option String
  date : Option Field
  deriving DecidableEq

/-- A call of `handleSubmit` into the transaction service. -/
inductive ServiceCall where
  | addTransaction (transactionData : Data)
  | updateTransaction (id : String) (transactionData : Data)
  deriving DecidableEq

/-- What `handleSubmit` leaves behind: the form, the collection, the alerts shown, the
calls made into the service and on Firestore, and whether `onSuccess`, when given, was
called. -/
structure Outcome where
  form : Form
  collection : Collection
  alerts : List (String × String)
  serviceCalls : List ServiceCall
  calls : List Call
  onSuccessCalled : Bool

/-- The id `transaction?.id` when it is truthy. -/
def editedId (transaction : Option Editing) : Option String :=
  match transaction with
  | some e =>
      match e.id with
      | some id => if id = "" then none else some id
      | none => none
  | none => none

/-- The value `transaction?.date || new Date().toISOString()`. -/
def dateOf (submittedAt : Int) (transaction : Option Editing) : Field :=
  match transaction with
  | some e =>
      match e.date with
      | some d => if d.truthy then d else Field.iso submittedAt
      | none => Field.iso submittedAt
  | none => Field.iso submittedAt

/-- The object `transactionData` built by `handleSubmit`. -/
def transactionData (submittedAt : Int) (form : Form) (transaction : Option Editing) : Data :=
  [("amount", Field.num (parseFloatString form.amount)),
   ("description", Field.str form.description),
   ("category", Field.str form.category),
   ("type", Field.str "expense"),
   ("date", dateOf submittedAt transaction)]

/-- The part of `handleSubmit` after the service call: the success alert and the reset of
the form, or the failure alert. -/
def afterCall (form : Form) (editing : Bool) (call : ServiceCall) (r : Result Unit) :
    Outcome :=
  match r.value with
  | Except.ok _ =>
      { form := { amount := "", description := "", category := "", loading := false },
        collection := r.collection,
        alerts := [("Success", if editing then "Transaction updated successfully"
                               else "Expense added successfully")],
        serviceCalls := [call], calls := r.calls, onSuccessCalled := true }
  | Except.error _ =>
      { form := { form with loading := false }, collection := r.collection,
        alerts := [("Error", if editing then "Failed to update transaction"
                             else "Failed to add expense")],
        serviceCalls := [call], calls := r.calls, onSuccessCalled := false }

/-- `handleSubmit`. `submittedAt` is the reading of `new Date()` in the handler, `env`
what the service finds when called. -/
def handleSubmit (submittedAt : Int) (env : Env) (transaction : Option Editing)
    (form : Form) (c : Collection) : Outcome :=
  if form.amount = "" ∨ form.description = "" ∨ form.category = "" then
    { form := form, collection := c, alerts := [("Error", "Please fill in all fields")],
      serviceCalls := [], calls := [], onSuccessCalled := false }
  else
    let data := transactionData submittedAt form transaction
    match editedId transaction with
    | some id =>
        afterCall form true (ServiceCall.updateTransaction id data)
          (updateTransaction env id data c)
    | none =>
        afterCall form false (ServiceCall.addTransaction data) (addTransaction env data c)

/-- The amount a call into the service carries. -/
def ServiceCall.amount : ServiceCall → Option Field
  | ServiceCall.addTransaction d => d.getOwn "amount"
  | ServiceCall.updateTransaction _ d => d.getOwn "amount"

end AddTransaction

/-! ## The recurring screen next to the collection of transactions -/

namespace RecurringTransactions

/-- What happens on the recurring screen: its mount effect, typing into the form, and its
three handlers. -/
inductive Event where
  | mount (readSucceeds : Bool)
  | fill (amount description category frequency dayOfMonth : String)
  | add (clock : Clock) (writeSucceeds : Bool)
  | toggle (clockUpdatedAt : Int) (writeSucceeds : Bool) (id : String) (isActive : Bool)
  | delete (clockUpdatedAt : Int) (writeSucceeds : Bool) (id : String)

/-- The store and the screen while the recurring screen is open: the collection
`transactions`, the collection `recurringTransactions`, and the state of the screen. -/
structure Session where
  transactions : TransactionService.Collection
  recurring : Store
  screen : Screen

/-- One event of the recurring screen. The handlers of the screen reach the store through
`doc(db, 'recurringTransactions', userId)` only. -/
def step (currentUser : Option String) (s : Session) : Event → Session
  | Event.mount readSucceeds =>
      { s with screen := loadRecurringTransactions currentUser readSucceeds s.recurring s.screen }
  | Event.fill amount description category frequency dayOfMonth =>
      { s with screen := { s.screen with amount := amount, description := description,
                                         category := category, frequency := frequency,
                                         dayOfMonth := dayOfMonth } }
  | Event.add clock writeSucceeds =>
      { s with
        recurring := (handleAddRecurring clock currentUser writeSucceeds s.recurring s.screen).store
        screen := (handleAddRecurring clock currentUser writeSucceeds s.recurring s.screen).screen }
  | Event.toggle clockUpdatedAt writeSucceeds id isActive =>
      { s with
        recurring := (toggleRecurring clockUpdatedAt currentUser writeSucceeds id isActive
          s.recurring s.screen).store
        screen := (toggleRecurring clockUpdatedAt currentUser writeSucceeds id isActive
          s.recurring s.screen).screen }
  | Event.delete clockUpdatedAt writeSucceeds id =>
      { s with
        recurring := (deleteRecurring clockUpdatedAt currentUser writeSucceeds id s.recurring
          s.screen).store
        screen := (deleteRecurring clockUpdatedAt currentUser writeSucceeds id s.recurring
          s.screen).screen }

/-- A sequence of events of the recurring screen. -/
def run (currentUser : Option String) (s : Session) (events : List Event) : Session :=
  events.foldl (step currentUser) s

/-- A session of the user `u1` whose store holds the active monthly rent due on day 1 and
no transaction. -/
def sessionWithRent : Session :=
  { transactions := [], recurring := storeWithRent, screen := {} }

end RecurringTransactions

/-! ## Documents and callers of the transaction service used in the examples -/

namespace TransactionService

/-- A lunch of 120 recorded by the user `alice`. -/
def aliceLunch : Data :=
  [("amount", Field.num (JSNum.fin 120)), ("description", Field.str "Lunch"),
   ("category", Field.str "Food"), ("type", Field.str "expense"),
   ("date", Field.iso 1700000000000), ("userId", Field.str "alice"),
   ("createdAt", Field.iso 1700000000000)]

/-- A collection that holds the one document `aliceLunch` under the id `t1`. -/
def aliceCollection : Collection := [("t1", aliceLunch)]

/-- No user is signed in; Firestore carries out what it receives. -/
def signedOut : Env :=
  { currentUser := none, now := 1700000500000, storeAccepts := true, autoId := "t2" }

/-- The user `bob` is signed in; Firestore carries out what it receives. -/
def bobSignedIn : Env :=
  { currentUser := some "bob", now := 1700000500000, storeAccepts := true, autoId := "t2" }

end TransactionService

namespace AddTransaction

/-- The form of a new expense with the given amount text. -/
def lunchForm (amount : String) : Form :=
  { amount := amount, description := "Lunch", category := "Food" }

/-- The record `t1` of `alice` opened for editing by its owner. -/
def editingLunch : Editing :=
  { id := some "t1", date := some (TransactionService.Field.iso 1700000000000) }

/-- The user `alice` is signed in; Firestore carries out what it receives. -/
def aliceSignedIn : TransactionService.Env :=
  { currentUser := some "alice", now := 1700000500000, storeAccepts := true, autoId := "t2" }

end AddTransaction

/-! ## Entries used in the examples of the two seven-day windows -/

/-- An expense dated one millisecond after the epoch. -/
def expenseJustAfterEpoch : Transaction :=
  { amount := JSVal.num (JSNum.fin 5), description := none, category := some "Food",
    type := some "expense", date := some 1 }

/-! ## The arithmetic of IEEE 754 doubles -/

/-- The integer nearest to `x`, the even one of the two when `x` lies halfway. -/
def roundHalfEven (x : ℚ) : ℤ :=
  if x - ⌊x⌋ < 1 / 2 then ⌊x⌋
  else if 1 / 2 < x - ⌊x⌋ then ⌊x⌋ + 1
  else if ⌊x⌋ % 2 = 0 then ⌊x⌋ else ⌊x⌋ + 1

/-- The number of binary digits of `n` after the first, for `n ≥ 1`, counted by halving
at most `fuel` times. -/
def log2Fuel : ℕ → ℕ → ℕ
  | 0, _ => 0
  | fuel + 1, n => if n < 2 then 0 else log2Fuel fuel (n / 2) + 1

/-- The integer `e` with `2 ^ e ≤ n < 2 ^ (e + 1)`, for `n ≥ 1`. -/
def log2Floor (n : ℕ) : ℕ := log2Fuel n n

/-- The binary exponent of a rational `q ≠ 0`: the integer `e` with
`2 ^ e ≤ |q| < 2 ^ (e + 1)`, found from the exponents of numerator and denominator. -/
def binade (q : ℚ) : ℤ :=
  if (2 : ℚ) ^ ((log2Floor q.num.natAbs : ℤ) - (log2Floor q.den : ℤ)) ≤ |q| then
    (log2Floor q.num.natAbs : ℤ) - (log2Floor q.den : ℤ)
  else (log2Floor q.num.natAbs : ℤ) - (log2Floor q.den : ℤ) - 1

/-- The unit in the last place of the doubles around `q ≠ 0`: 53 significant binary
digits, and never below `2 ^ (-1074)`, the spacing of the subnormal doubles. -/
def ulp (q : ℚ) : ℚ := (2 : ℚ) ^ max (binade q - 52) (-1074)

/-- The double nearest to the rational `q` (IEEE 754 binary64, round to nearest, ties to
even): the multiple of `ulp q` nearest to `q`, and an infinity when that multiple reaches
`2 ^ 1024`. The sign of a zero is not represented. -/
def binary64 (q : ℚ) : JSNum :=
  if q = 0 then JSNum.fin 0
  else if (2 : ℚ) ^ (1024 : ℕ) ≤ |(roundHalfEven (q / ulp q) : ℚ) * ulp q| then
    (if 0 < q then JSNum.posInf else JSNum.negInf)
  else JSNum.fin ((roundHalfEven (q / ulp q) : ℚ) * ulp q)

/-- JavaScript `x + y` with the rounding `rnd` of the exact sum of two finite numbers. -/
def JSNum.addR (rnd : ℚ → JSNum) : JSNum → JSNum → JSNum
  | JSNum.fin a, JSNum.fin b => rnd (a + b)
  | x, y => JSNum.add x y

/-- JavaScript `x - y` with the rounding `rnd` of the exact difference of two finite
numbers. -/
def JSNum.subR (rnd : ℚ → JSNum) : JSNum → JSNum → JSNum
  | JSNum.fin a, JSNum.fin b => rnd (a - b)
  | x, y => JSNum.sub x y

/-- JavaScript `x * y` with the rounding `rnd` of the exact product of two finite
numbers. -/
def JSNum.mulR (rnd : ℚ → JSNum) : JSNum → JSNum → JSNum
  | JSNum.fin a, JSNum.fin b => rnd (a * b)
  | x, y => JSNum.mul x y

/-- JavaScript `x / y` with the rounding `rnd` of the exact quotient of two finite numbers,
the divisor not zero. -/
def JSNum.divR (rnd : ℚ → JSNum) : JSNum → JSNum → JSNum
  | JSNum.fin a, JSNum.fin b => if b = 0 then JSNum.div (JSNum.fin a) (JSNum.fin b) else rnd (a / b)
  | x, y => JSNum.div x y

/-- JavaScript `parseFloat(v)` with the rounding `rnd` of the value read: the number
nearest to the decimal text, and for a stored number the number nearest to the one
written. -/
def parseFloatR (rnd : ℚ → JSNum) (v : JSVal) : JSNum :=
  match parseFloat v with
  | JSNum.fin q => rnd q
  | x => x

/-! ## The reducers of `src/app/reports.js` and `src/app/dashboard.js` on rounded numbers

The functions of this section are the reducers and sorted lists above with every
arithmetic operation rounded by `rnd`; with `rnd := binary64` they compute on doubles as
the engine does, with `rnd := JSNum.fin` they are the exact functions above. -/

namespace Rounded

namespace Reports

/-- `totalExpense`, on rounded numbers. -/
def totalExpense (rnd : ℚ → JSNum) (transactions : List Transaction) : JSNum :=
  (transactions.filter isExpense).foldl
    (fun acc t => JSNum.addR rnd acc (parseFloatR rnd t.amount)) 0

/-- The value of `acc[k] + x` for a number `x`, on rounded numbers. -/
def plus (rnd : ℚ → JSNum) : Lookup Fintrack.Reports.Amount → JSNum → Fintrack.Reports.Amount
  | Lookup.own (Fintrack.Reports.Amount.num a), x => Fintrack.Reports.Amount.num (JSNum.addR rnd a x)
  | Lookup.own Fintrack.Reports.Amount.text, _ => Fintrack.Reports.Amount.text
  | Lookup.inherited, _ => Fintrack.Reports.Amount.text
  | Lookup.undefined, _ => Fintrack.Reports.Amount.num JSNum.nan

/-- The body of the `categoryBreakdown` reducer, on rounded numbers:
`if (!acc[t.category]) acc[t.category] = 0; acc[t.category] += parseFloat(t.amount)`. -/
def categoryStep (rnd : ℚ → JSNum) (acc : Obj Fintrack.Reports.Amount) (t : Transaction) :
    Obj Fintrack.Reports.Amount :=
  let k := propertyKey t.category
  let acc1 :=
    if !Fintrack.Reports.truthy (acc.get k) then acc.set k (Fintrack.Reports.Amount.num 0)
    else acc
  acc1.set k (plus rnd (acc1.get k) (parseFloatR rnd t.amount))

/-- `categoryBreakdown`, on rounded numbers. -/
def categoryBreakdown (rnd : ℚ → JSNum) (transactions : List Transaction) :
    Obj Fintrack.Reports.Amount :=
  (transactions.filter isExpense).foldl (categoryStep rnd) []

/-- `categoryData`, on rounded numbers: the entries of `categoryBreakdown` with their
percentage, sorted by `(a, b) => b.amount - a.amount`. -/
def categoryData (rnd : ℚ → JSNum) (transactions : List Transaction) :
    List Fintrack.Reports.CategoryDatum :=
  arraySort (fun a b => JSNum.subR rnd b.amount.toNumber a.amount.toNumber)
    ((Object.entries (categoryBreakdown rnd transactions)).map (fun e =>
      { category := e.1
        amount := e.2
        percentage :=
          if JSNum.gt (totalExpense rnd transactions) 0 then
            Fintrack.Reports.Percentage.toFixed1
              (JSNum.mulR rnd (JSNum.divR rnd e.2.toNumber (totalExpense rnd transactions))
                (JSNum.fin 100))
          else Fintrack.Reports.Percentage.zero }))

/-- The body of the `spendingByDay` reducer, on rounded numbers:
`if (!acc[day]) acc[day] = 0; acc[day] += parseFloat(t.amount)`. -/
def spendingStep (rnd : ℚ → JSNum) (rt : Runtime) (acc : Obj Fintrack.Reports.Amount)
    (t : Transaction) : Obj Fintrack.Reports.Amount :=
  let day := Fintrack.Reports.weekdayLong rt t.date
  let acc1 :=
    if !Fintrack.Reports.truthy (acc.get day) then acc.set day (Fintrack.Reports.Amount.num 0)
    else acc
  acc1.set day (plus rnd (acc1.get day) (parseFloatR rnd t.amount))

/-- `spendingByDay`, on rounded numbers. -/
def spendingByDay (rnd : ℚ → JSNum) (rt : Runtime) (transactions : List Transaction) :
    Obj Fintrack.Reports.Amount :=
  (transactions.filter isExpense).foldl (spendingStep rnd rt) []

/-- `topSpendingDay`, on rounded numbers: the first entry of `spendingByDay` sorted by
`(a, b) => b[1] - a[1]`, or `null` when there is no entry. -/
def topSpendingDay (rnd : ℚ → JSNum) (rt : Runtime) (transactions : List Transaction) :
    Option (String × Fintrack.Reports.Amount) :=
  if (Object.entries (spendingByDay rnd rt transactions)).length > 0 then
    (arraySort (fun a b => JSNum.subR rnd b.2.toNumber a.2.toNumber)
      (Object.entries (spendingByDay rnd rt transactions))).head?
  else none

end Reports

namespace Dashboard

/-- The body of the `categorySpending` reducer, on rounded numbers. -/
def categoryStep (rnd : ℚ → JSNum) (acc : Obj Fintrack.Dashboard.Cell) (t : Transaction) :
    Obj Fintrack.Dashboard.Cell :=
  let k := propertyKey t.category
  let acc1 :=
    match acc.get k with
    | Lookup.undefined =>
        acc.set k { total := 0, count := 0, icon := Fintrack.Dashboard.getCategoryIcon t.category }
    | _ => acc
  match acc1.get k with
  | Lookup.own c =>
      acc1.set k { total := JSNum.addR rnd c.total (parseFloatR rnd t.amount),
                   count := JSNum.addR rnd c.count 1, icon := c.icon }
  | _ => acc1

/-- `categorySpending`, on rounded numbers. -/
def categorySpending (rnd : ℚ → JSNum) (filteredTransactions : List Transaction) :
    Obj Fintrack.Dashboard.Cell :=
  (filteredTransactions.filter isExpense).foldl (categoryStep rnd) []

/-- The entries of `categorySpending` mapped and sorted by `(a, b) => b.total - a.total`,
on rounded numbers, before `.slice(0, 4)`. -/
def sortedCategories (rnd : ℚ → JSNum) (filteredTransactions : List Transaction) :
    List Fintrack.Dashboard.CategoryItem :=
  arraySort (fun a b => JSNum.subR rnd b.total a.total)
    ((Object.entries (categorySpending rnd filteredTransactions)).map (fun e =>
      { name := e.1, total := e.2.total, average := JSNum.divR rnd e.2.total e.2.count,
        icon := e.2.icon }))

/-- `categoryList`, on rounded numbers: the four largest categories. -/
def categoryList (rnd : ℚ → JSNum) (filteredTransactions : List Transaction) :
    List Fintrack.Dashboard.CategoryItem :=
  (sortedCategories rnd filteredTransactions).take 4

end Dashboard

end Rounded

/-! ## Definitions used to state the properties on doubles -/

/-- A number that is a double as far as its place on the grid goes: NaN, an infinity, or a
multiple of `2 ^ (-1074)`. -/
def OnGrid (x : JSNum) : Prop :=
  ∀ q : ℚ, x = JSNum.fin q → ∃ n : ℤ, q = (n : ℚ) * (2 : ℚ) ^ (-1074 : ℤ)

/-- The two statements shared by the reducers of Reports, for a key and a number, on
rounded numbers: `if (!acc[k]) acc[k] = 0; acc[k] += x`. -/
def Rounded.Reports.addTo (rnd : ℚ → JSNum) (acc : Obj Reports.Amount) (k : String)
    (x : JSNum) : Obj Reports.Amount :=
  let acc1 := if !Reports.truthy (acc.get k) then acc.set k (Reports.Amount.num 0) else acc
  acc1.set k (Rounded.Reports.plus rnd (acc1.get k) x)

/-- The own key `k` is absent or holds a number (not NaN, not a text). -/
def Reports.NumberAt (acc : Obj Reports.Amount) (k : String) : Prop :=
  acc.getOwn k = none ∨ ∃ v : JSNum, v ≠ JSNum.nan ∧ acc.getOwn k = some (Reports.Amount.num v)

/-- The amount spent on the weekday named `w` as the reducer of `spendingByDay` adds it
up: the parsed amounts of the expense entries of that weekday added one by one, in the
order of the list, starting from 0, each sum rounded. -/
def Rounded.spentOn (rnd : ℚ → JSNum) (rt : Runtime) (w : String)
    (transactions : List Transaction) : JSNum :=
  (expensesOn rt w transactions).foldl
    (fun s t => JSNum.addR rnd s (parseFloatR rnd t.amount)) 0

/-- Expenses of 0.3 on Gas, then 0.1 and 0.2 on Food. -/
def gasThenTwoFood : List Transaction :=
  [expenseOf (JSVal.str "0.3") "Gas", expenseOf (JSVal.str "0.1") "Food",
   expenseOf (JSVal.str "0.2") "Food"]

/-- Expenses of 0.3 on a Friday, then 0.1 and 0.2 on the Thursday after. -/
def fridayThenTwoThursdays : List Transaction :=
  [{ amount := JSVal.str "0.3", description := none, category := some "Food",
     type := some "expense", date := some 86400000 },
   { amount := JSVal.str "0.1", description := none, category := some "Food",
     type := some "expense", date := some 604800000 },
   { amount := JSVal.str "0.2", description := none, category := some "Food",
     type := some "expense", date := some 604800000 }]

/-- Expenses of 0.75 on Gas, 3 on Bills, then 0.5 and 0.25 on Food: Gas and Food have the
same total, and Gas is met first. -/
def gasThenFoodQuarters : List Transaction :=
  [expenseOf (JSVal.str "0.75") "Gas", expenseOf (JSVal.num (JSNum.fin 3)) "Bills",
   expenseOf (JSVal.str "0.5") "Food", expenseOf (JSVal.str "0.25") "Food"]

/-! ## Arithmetic of `JSNum` -/

theorem JSNum.add_def (x y : JSNum) : x + y = JSNum.add x y := rfl

theorem JSNum.sub_def (x y : JSNum) : x - y = JSNum.add x (JSNum.neg y) := rfl

theorem JSNum.zero_def : (0 : JSNum) = JSNum.fin 0 := rfl

theorem JSNum.one_def : (1 : JSNum) = JSNum.fin 1 := rfl

/-- NaN absorbs every sum it takes part in. -/
theorem JSNum.nan_plus (x : JSNum) : JSNum.nan + x = JSNum.nan := by
  cases x <;> rfl

theorem JSNum.plus_nan (x : JSNum) : x + JSNum.nan = JSNum.nan := by
  cases x <;> rfl

/-- The `reduce` of the screens is the sum of the parsed amounts. -/
theorem foldl_add_eq_sum (f : Transaction → JSNum) (l : List Transaction) :
    l.foldl (fun acc t => acc + f t) 0 = (l.map f).sum := by
  rw [List.sum_eq_foldl, List.foldl_map]

/-- A sum with a NaN term is NaN. -/
theorem sum_eq_nan_of_mem {l : List JSNum} (h : JSNum.nan ∈ l) : l.sum = JSNum.nan := by
  induction l with
  | nil => simp at h
  | cons a l ih =>
    rw [List.sum_cons]
    rcases List.mem_cons.1 h with h | h
    · rw [← h, JSNum.nan_plus]
    · rw [ih h, JSNum.plus_nan]

/-! ## The expense total (C2) -/

/-- C2: on the Dashboard (whatever the date filter and the search) and in Reports,
`totalExpense` is the sum of the parsed amounts of exactly the entries of type `expense`
of the list it is computed from, and an entry of another type, or of no type, placed
anywhere in that list leaves it unchanged. -/
theorem totalExpense_eq_sum_of_expenses (rt : Runtime) (now : Int)
    (dateFilter searchQuery : String) (transactions before after : List Transaction)
    (t : Transaction) (ht : t.type ≠ some "expense") :
    Reports.totalExpense transactions =
        ((transactions.filter (fun t => decide (t.type = some "expense"))).map
          (fun t => parseFloat t.amount)).sum ∧
    Dashboard.totalExpense
        (Dashboard.filteredTransactions rt now dateFilter searchQuery transactions) =
        (((Dashboard.filteredTransactions rt now dateFilter searchQuery transactions).filter
          (fun t => decide (t.type = some "expense"))).map (fun t => parseFloat t.amount)).sum ∧
    Reports.totalExpense (before ++ t :: after) = Reports.totalExpense (before ++ after) ∧
    Dashboard.totalExpense (before ++ t :: after) = Dashboard.totalExpense (before ++ after) := by
  have hne : isExpense t = false := by simp [isExpense, ht]
  refine ⟨foldl_add_eq_sum _ _, foldl_add_eq_sum _ _, ?_, ?_⟩
  · simp [Reports.totalExpense, List.filter_append, List.filter_cons, hne]
  · simp [Dashboard.totalExpense, List.filter_append, List.filter_cons, hne]

/-- An instance of C2: an income entry between two expenses does not change the totals. -/
theorem totalExpense_eq_sum_of_expenses_witness :
    Reports.totalExpense
        ([expenseOf (JSVal.num (JSNum.fin 5)) "Food"] ++
          { amount := JSVal.num (JSNum.fin 70), description := none, category := some "Pay",
            type := some "income", date := none } ::
          [expenseOf (JSVal.str "2.5") "Gas"]) =
      Reports.totalExpense
        ([expenseOf (JSVal.num (JSNum.fin 5)) "Food"] ++ [expenseOf (JSVal.str "2.5") "Gas"]) :=
  (totalExpense_eq_sum_of_expenses utcRuntime 0 "all" "" [] _ _ _ (by decide)).2.2.1

/-! ## The scenario of the specification (C7) -/

theorem getFilteredByDate_all (rt : Runtime) (now : Int) (t : Transaction) :
    Dashboard.getFilteredByDate rt now "all" t = true := by
  simp [Dashboard.getFilteredByDate]

theorem matchesSearch_empty (rt : Runtime) (t : Transaction) :
    Dashboard.matchesSearch rt "" t = true := by
  simp [Dashboard.matchesSearch]

theorem filteredTransactions_all_empty (rt : Runtime) (now : Int) (l : List Transaction) :
    Dashboard.filteredTransactions rt now "all" "" l = l := by
  unfold Dashboard.filteredTransactions
  rw [List.filter_eq_self.2 (fun t _ => getFilteredByDate_all rt now t),
    List.filter_eq_self.2 (fun t _ => matchesSearch_empty rt t)]

/-- C7: with the date filter `all`, an empty search and a budget of 2000, the scenario
gives `totalExpense = 1000`, `safeToSpend = 1000`, and the first entry of `categoryList` is
Food with total 800 and average 400. -/
theorem scenario_dashboard (rt : Runtime) (now : Int) :
    Dashboard.totalExpense (Dashboard.filteredTransactions rt now "all" "" scenario) =
      JSNum.fin 1000 ∧
    Dashboard.safeToSpend (JSNum.fin 2000)
      (Dashboard.filteredTransactions rt now "all" "" scenario) = JSNum.fin 1000 ∧
    (Dashboard.categoryList (Dashboard.filteredTransactions rt now "all" "" scenario)).head? =
      some { name := "Food", total := JSNum.fin 800, average := JSNum.fin 400,
             icon := Dashboard.Icon.emoji "🍔" } := by
  rw [filteredTransactions_all_empty]
  refine ⟨by decide!, by decide!, by decide!⟩

/-! ## The date filters (C8, C9) -/

/-- C8, as stated, fails on the Transactions screen: with the filter `all` an entry that
is not an expense is removed from the list. -/
theorem getFilteredTransactions_all_not_identity :
    Transactions.getFilteredTransactions utcRuntime 0 "all" [incomeAtEpoch] ≠ [incomeAtEpoch] := by
  decide!

/-- C8 (amended): on the Dashboard the date filter `all` returns the list itself, alone and
followed by an empty search; on the Transactions screen the filter `all` returns exactly
the entries of type `expense`, in their input order. -/
theorem dateFilter_all (rt : Runtime) (now : Int) (transactions : List Transaction) :
    transactions.filter (Dashboard.getFilteredByDate rt now "all") = transactions ∧
    Dashboard.filteredTransactions rt now "all" "" transactions = transactions ∧
    Transactions.getFilteredTransactions rt now "all" transactions =
      transactions.filter (fun t => decide (t.type = some "expense")) := by
  refine ⟨List.filter_eq_self.2 (fun t _ => getFilteredByDate_all rt now t),
    filteredTransactions_all_empty rt now transactions, ?_⟩
  simp only [Transactions.getFilteredTransactions, if_true]
  rfl

theorem getFilteredByDate_week (rt : Runtime) (now : Int) (t : Transaction) :
    Dashboard.getFilteredByDate rt now "week" t = decide (inRollingWeek now t) := by
  cases h : t.date <;> simp [Dashboard.getFilteredByDate, inRollingWeek, h]

/-- C9, as stated, fails on the Transactions screen: an income entry dated exactly `now`
lies in the rolling week and is not kept by the filter `week`. -/
theorem getFilteredTransactions_week_drops_income :
    inRollingWeek 0 incomeAtEpoch ∧
    incomeAtEpoch ∉ Transactions.getFilteredTransactions utcRuntime 0 "week" [incomeAtEpoch] := by
  decide!

/-- C9 (amended): on the Dashboard the date filter `week` keeps, in input order, exactly
the entries whose date is at or after `now - 7 × 24 h` (the boundary included), whatever
the calendar; on the Transactions screen it keeps, in input order, exactly the entries of
type `expense` with such a date. -/
theorem dateFilter_week (rt : Runtime) (now : Int) (transactions : List Transaction) :
    transactions.filter (Dashboard.getFilteredByDate rt now "week") =
      transactions.filter (fun t => decide (inRollingWeek now t)) ∧
    Transactions.getFilteredTransactions rt now "week" transactions =
      transactions.filter
        (fun t => decide (t.type = some "expense" ∧ inRollingWeek now t)) := by
  constructor
  · exact List.filter_congr (fun t _ => getFilteredByDate_week rt now t)
  · simp only [Transactions.getFilteredTransactions, List.filter_filter]
    rw [if_neg (by decide)]
    apply List.filter_congr
    intro t _
    cases h : t.date <;> simp [inRollingWeek, h, isExpense, and_comm]

/-! ## The search filter (C10) -/

theorem startsWith_iff (s q : List Char) : startsWith s q = true ↔ q <+: s := by
  induction s generalizing q with
  | nil => cases q <;> simp [startsWith]
  | cons c s ih =>
    cases q with
    | nil => simp [startsWith]
    | cons d q =>
      simp only [startsWith, Bool.and_eq_true, decide_eq_true_eq, ih, List.cons_prefix_cons]
      constructor
      · rintro ⟨h, h'⟩
        exact ⟨h.symm, h'⟩
      · rintro ⟨h, h'⟩
        exact ⟨h.symm, h'⟩

theorem includesChars_iff (s q : List Char) : includesChars s q = true ↔ q <:+: s := by
  induction s with
  | nil => cases q <;> simp [includesChars]
  | cons c s ih =>
    simp only [includesChars, Bool.or_eq_true, startsWith_iff, ih, List.infix_cons_iff]

theorem includes_iff (s q : String) : includes s q = true ↔ occursIn q s :=
  includesChars_iff _ _

/-- C10: for a non-empty query the search filter keeps exactly the entries whose
lower-cased description or lower-cased category contains the lower-cased query (a missing
field matches nothing); for the empty query it keeps every entry, also one with neither a
description nor a category. The list may be any list, in particular the date-filtered one
from which `filteredTransactions` is computed. -/
theorem search_filter_spec (rt : Runtime) (now : Int) (dateFilter searchQuery : String)
    (transactions : List Transaction) (hq : searchQuery ≠ "") :
    (∀ t, t ∈ transactions.filter (Dashboard.matchesSearch rt searchQuery) ↔
      t ∈ transactions ∧
        ((∃ d, t.description = some d ∧
            occursIn (rt.toLowerCase searchQuery) (rt.toLowerCase d)) ∨
         (∃ c, t.category = some c ∧
            occursIn (rt.toLowerCase searchQuery) (rt.toLowerCase c)))) ∧
    transactions.filter (Dashboard.matchesSearch rt "") = transactions ∧
    Dashboard.filteredTransactions rt now dateFilter searchQuery transactions =
      (transactions.filter (Dashboard.getFilteredByDate rt now dateFilter)).filter
        (Dashboard.matchesSearch rt searchQuery) ∧
    (transactions.filter (Dashboard.matchesSearch rt searchQuery)).Sublist transactions := by
  refine ⟨fun t => ?_, List.filter_eq_self.2 (fun t _ => matchesSearch_empty rt t), rfl,
    List.filter_sublist _⟩
  rw [List.mem_filter]
  apply and_congr_right
  intro _
  cases hd : t.description <;> cases hc : t.category <;>
    simp [Dashboard.matchesSearch, hq, hd, hc, includes_iff]

/-- An instance of C10: for the query `FOO` and the list `[seafood, unlabelled]`, whether
`seafood` is kept is decided by the occurrence of `foo` in its lower-cased fields. -/
theorem search_filter_spec_witness :
    seafood ∈ List.filter (Dashboard.matchesSearch utcRuntime "FOO") [seafood, unlabelled] ↔
      seafood ∈ [seafood, unlabelled] ∧
        ((∃ d, seafood.description = some d ∧
            occursIn (utcRuntime.toLowerCase "FOO") (utcRuntime.toLowerCase d)) ∨
         (∃ c, seafood.category = some c ∧
            occursIn (utcRuntime.toLowerCase "FOO") (utcRuntime.toLowerCase c))) :=
  (search_filter_spec utcRuntime 0 "all" "FOO" [seafood, unlabelled] (by decide)).1 seafood

/-! ## `Array.prototype.sort` with the comparator `(a, b) => key(b) - key(a)` -/

theorem sortedInsert_perm {α : Type} (cmp : α → α → JSNum) (a : α) (l : List α) :
    (sortedInsert cmp a l).Perm (a :: l) := by
  induction l with
  | nil => exact List.Perm.refl _
  | cons b l ih =>
    unfold sortedInsert
    split
    · exact ((List.Perm.cons b ih).trans (List.Perm.swap a b l))
    · exact List.Perm.refl _

theorem arraySort_perm {α : Type} (cmp : α → α → JSNum) (l : List α) :
    (arraySort cmp l).Perm l := by
  induction l with
  | nil => exact List.Perm.refl _
  | cons a l ih => exact (sortedInsert_perm cmp a _).trans (List.Perm.cons a ih)

theorem mem_arraySort {α : Type} (cmp : α → α → JSNum) (l : List α) (x : α) :
    x ∈ arraySort cmp l ↔ x ∈ l :=
  (arraySort_perm cmp l).mem_iff

theorem sublist_sortedInsert {α : Type} (cmp : α → α → JSNum) (a : α) (l : List α) :
    l.Sublist (sortedInsert cmp a l) := by
  induction l with
  | nil => exact List.nil_sublist _
  | cons b l ih =>
    unfold sortedInsert
    split
    · exact List.Sublist.cons₂ b ih
    · exact List.Sublist.cons a (List.Sublist.refl _)

/-- `>=` is transitive (it holds only between numbers). -/
theorem JSNum.ge_trans {x y z : JSNum} (h₁ : JSNum.ge x y = true) (h₂ : JSNum.ge y z = true) :
    JSNum.ge x z = true := by
  cases x <;> cases y <;> cases z <;> simp_all [JSNum.ge]
  exact le_trans h₂ h₁

/-- When the comparator `y - x` is positive, `y >= x`. -/
theorem JSNum.ge_of_sub_gt {x y : JSNum} (h : JSNum.gt (y - x) 0 = true) :
    JSNum.ge y x = true := by
  cases x <;> cases y <;>
    simp_all [JSNum.ge, JSNum.gt, JSNum.sub_def, JSNum.add, JSNum.neg, JSNum.zero_def]
  linarith

/-- When the comparator `y - x` of two numbers is not positive, `x >= y`. -/
theorem JSNum.ge_of_not_sub_gt {x y : JSNum} (hx : x ≠ JSNum.nan) (hy : y ≠ JSNum.nan)
    (h : JSNum.gt (y - x) 0 = false) : JSNum.ge x y = true := by
  cases x <;> cases y <;>
    simp_all [JSNum.ge, JSNum.gt, JSNum.sub_def, JSNum.add, JSNum.neg, JSNum.zero_def]

theorem sortedInsert_pairwise {α : Type} (f : α → JSNum) (a : α) (l : List α)
    (ha : f a ≠ JSNum.nan) (hl : ∀ x ∈ l, f x ≠ JSNum.nan)
    (hs : l.Pairwise (fun x y => JSNum.ge (f x) (f y) = true)) :
    (sortedInsert (fun x y => f y - f x) a l).Pairwise
      (fun x y => JSNum.ge (f x) (f y) = true) := by
  induction l with
  | nil => simp [sortedInsert]
  | cons b l ih =>
    have hb : f b ≠ JSNum.nan := hl b (List.mem_cons_self _ _)
    have hl' : ∀ x ∈ l, f x ≠ JSNum.nan := fun x hx => hl x (List.mem_cons_of_mem _ hx)
    rw [List.pairwise_cons] at hs
    unfold sortedInsert
    by_cases hgt : JSNum.gt (f b - f a) 0 = true
    · rw [if_pos hgt, List.pairwise_cons]
      refine ⟨fun x hx => ?_, ih hl' hs.2⟩
      rcases List.mem_cons.1 ((sortedInsert_perm _ a l).mem_iff.1 hx) with h | h
      · rw [h]
        exact JSNum.ge_of_sub_gt hgt
      · exact hs.1 x h
    · rw [if_neg hgt, List.pairwise_cons]
      have hab : JSNum.ge (f a) (f b) = true :=
        JSNum.ge_of_not_sub_gt ha hb (by simpa using hgt)
      refine ⟨fun x hx => ?_, List.pairwise_cons.2 hs⟩
      rcases List.mem_cons.1 hx with h | h
      · rw [h]
        exact hab
      · exact JSNum.ge_trans hab (hs.1 x h)

/-- Sorting entries whose keys are all numbers puts them in descending key order. -/
theorem arraySort_pairwise {α : Type} (f : α → JSNum) (l : List α)
    (hl : ∀ x ∈ l, f x ≠ JSNum.nan) :
    (arraySort (fun x y => f y - f x) l).Pairwise
      (fun x y => JSNum.ge (f x) (f y) = true) := by
  induction l with
  | nil => simp [arraySort]
  | cons a l ih =>
    have hl' : ∀ x ∈ l, f x ≠ JSNum.nan := fun x hx => hl x (List.mem_cons_of_mem _ hx)
    exact sortedInsert_pairwise f a _ (hl a (List.mem_cons_self _ _))
      (fun x hx => hl' x ((mem_arraySort _ l x).1 hx)) (ih hl')

/-! ## Descending order of the breakdown (C4) -/

/-- C4, as stated, fails: when a category total is NaN no order of the entries is
descending. On the Dashboard, Food (NaN) is followed by Transport (5), and `NaN >= 5` is
false. -/
theorem categoryList_not_descending :
    (Dashboard.categoryList foodUnparsable).map (fun c => (c.name, c.total)) =
      [("Food", JSNum.nan), ("Transport", JSNum.fin 5)] ∧
    ¬ List.Chain' (fun a b => JSNum.ge a.total b.total = true)
        (Dashboard.categoryList foodUnparsable) := by
  have h : Dashboard.categoryList foodUnparsable =
      [{ name := "Food", total := JSNum.nan, average := JSNum.nan,
         icon := Dashboard.Icon.emoji "🍔" },
       { name := "Transport", total := JSNum.fin 5, average := JSNum.fin 5,
         icon := Dashboard.Icon.emoji "🚗" }] := by decide!
  rw [h]
  refine ⟨rfl, ?_⟩
  simp [JSNum.ge]

/-- C4 (amended): when every category total is a number (none is NaN), the breakdown is in
descending order of total: each entry's total is `>=` the total of every later entry, in
particular of the next one. This holds for the Dashboard list and for the Reports list. -/
theorem breakdown_descending (transactions : List Transaction) :
    ((∀ c ∈ Dashboard.sortedCategories transactions, c.total ≠ JSNum.nan) →
      List.Pairwise (fun a b => JSNum.ge a.total b.total = true)
          (Dashboard.categoryList transactions) ∧
        List.Chain' (fun a b => JSNum.ge a.total b.total = true)
          (Dashboard.categoryList transactions)) ∧
    ((∀ e ∈ Reports.categoryData transactions, e.amount.toNumber ≠ JSNum.nan) →
      List.Pairwise (fun a b => JSNum.ge a.amount.toNumber b.amount.toNumber = true)
          (Reports.categoryData transactions) ∧
        List.Chain' (fun a b => JSNum.ge a.amount.toNumber b.amount.toNumber = true)
          (Reports.categoryData transactions)) := by
  constructor
  · intro h
    have hp : List.Pairwise (fun a b => JSNum.ge a.total b.total = true)
        (Dashboard.sortedCategories transactions) :=
      arraySort_pairwise (fun c : Dashboard.CategoryItem => c.total) _
        (fun x hx => h x ((mem_arraySort _ _ x).2 hx))
    have hp4 := hp.sublist (List.take_sublist 4 _)
    exact ⟨hp4, List.Pairwise.chain' hp4⟩
  · intro h
    have hp : List.Pairwise (fun a b => JSNum.ge a.amount.toNumber b.amount.toNumber = true)
        (Reports.categoryData transactions) :=
      arraySort_pairwise (fun e : Reports.CategoryDatum => e.amount.toNumber) _
        (fun x hx => h x ((mem_arraySort _ _ x).2 hx))
    exact ⟨hp, List.Pairwise.chain' hp⟩

/-- An instance of C4: the scenario has only numeric totals, so both lists are descending. -/
theorem breakdown_descending_witness :
    List.Chain' (fun a b => JSNum.ge a.total b.total = true) (Dashboard.categoryList scenario) ∧
    List.Chain' (fun a b => JSNum.ge a.amount.toNumber b.amount.toNumber = true)
      (Reports.categoryData scenario) :=
  ⟨((breakdown_descending scenario).1 (by decide!)).2,
   ((breakdown_descending scenario).2 (by decide!)).2⟩

/-! ## Own properties of an accumulator object -/

theorem getOwn_eq_none_iff {α : Type} (o : Obj α) (k : String) :
    o.getOwn k = none ↔ k ∉ keysOf o := by
  induction o with
  | nil => simp [Obj.getOwn, keysOf]
  | cons e o ih =>
    obtain ⟨k', v⟩ := e
    by_cases h : k' = k
    · simp [Obj.getOwn, keysOf, h]
    · have h' : ¬ k = k' := fun e => h e.symm
      simpa [Obj.getOwn, keysOf, h, h'] using ih

theorem getOwn_eq_some_mem {α : Type} {o : Obj α} {k : String} {v : α}
    (h : o.getOwn k = some v) : k ∈ keysOf o := by
  by_contra hk
  rw [(getOwn_eq_none_iff o k).2 hk] at h
  cases h

theorem keysOf_replace {α : Type} (o : Obj α) (k : String) (v : α) :
    keysOf (o.replace k v) = keysOf o := by
  induction o with
  | nil => rfl
  | cons e o ih =>
    obtain ⟨k', v'⟩ := e
    by_cases h : k' = k
    · simp [Obj.replace, keysOf, h]
    · simpa [Obj.replace, keysOf, h] using ih

theorem getOwn_replace_self {α : Type} (o : Obj α) (k : String) (v : α)
    (h : k ∈ keysOf o) : (o.replace k v).getOwn k = some v := by
  induction o with
  | nil => simp [keysOf] at h
  | cons e o ih =>
    obtain ⟨k', v'⟩ := e
    by_cases hk : k' = k
    · simp [Obj.replace, Obj.getOwn, hk]
    · have h' : k ∈ keysOf o := by
        rcases List.mem_cons.1 h with h | h
        · exact absurd h.symm hk
        · exact h
      simpa [Obj.replace, Obj.getOwn, hk] using ih h'

theorem getOwn_replace_ne {α : Type} (o : Obj α) (k k' : String) (v : α) (h : k' ≠ k) :
    (o.replace k v).getOwn k' = o.getOwn k' := by
  induction o with
  | nil => rfl
  | cons e o ih =>
    obtain ⟨k'', v'⟩ := e
    by_cases hk : k'' = k
    · have : ¬ k = k' := fun e => h e.symm
      simp [Obj.replace, Obj.getOwn, hk, this]
    · by_cases hk' : k'' = k'
      · subst hk'
        simp [Obj.replace, Obj.getOwn, hk]
      · simpa [Obj.replace, Obj.getOwn, hk, hk'] using ih

theorem getOwn_append_singleton {α : Type} (o : Obj α) (k k' : String) (v : α) :
    (o ++ [(k, v)]).getOwn k' =
      match o.getOwn k' with
      | some w => some w
      | none => if k = k' then some v else none := by
  induction o with
  | nil => simp [Obj.getOwn]
  | cons e o ih =>
    obtain ⟨k'', v'⟩ := e
    by_cases hk : k'' = k'
    · simp [Obj.getOwn, hk]
    · simpa [Obj.getOwn, hk] using ih

theorem keysOf_set {α : Type} (o : Obj α) (k : String) (v : α) :
    keysOf (o.set k v) =
      if k = "__proto__" then keysOf o
      else if k ∈ keysOf o then keysOf o else keysOf o ++ [k] := by
  unfold Obj.set
  by_cases hp : k = "__proto__"
  · simp [hp]
  · rw [if_neg hp, if_neg hp]
    cases h : o.getOwn k with
    | none =>
      have hk : k ∉ List.map Prod.fst o := (getOwn_eq_none_iff o k).1 h
      simp [hk, keysOf]
    | some w =>
      have hk : k ∈ keysOf o := getOwn_eq_some_mem h
      simp [hk, keysOf_replace]

theorem getOwn_set_self {α : Type} (o : Obj α) (k : String) (v : α) (hp : k ≠ "__proto__") :
    (o.set k v).getOwn k = some v := by
  unfold Obj.set
  rw [if_neg hp]
  cases h : o.getOwn k with
  | none => simp [getOwn_append_singleton, h]
  | some w => simpa using getOwn_replace_self o k v (getOwn_eq_some_mem h)

theorem getOwn_set_ne {α : Type} (o : Obj α) (k k' : String) (v : α) (h : k' ≠ k) :
    (o.set k v).getOwn k' = o.getOwn k' := by
  unfold Obj.set
  by_cases hp : k = "__proto__"
  · simp [hp]
  · rw [if_neg hp]
    have hne : ¬ k = k' := fun e => h e.symm
    cases hk : o.getOwn k with
    | none =>
      rw [getOwn_append_singleton]
      cases o.getOwn k' <;> simp [hne]
    | some w => simpa using getOwn_replace_ne o k k' v h

theorem keyStep_foldl_extends (creates : String → Bool) (ks : List String) (l : List String) :
    ∃ rest, l.foldl (keyStep creates) ks = ks ++ rest := by
  induction l generalizing ks with
  | nil => exact ⟨[], by simp⟩
  | cons k l ih =>
    obtain ⟨rest, hrest⟩ := ih (keyStep creates ks k)
    rw [List.foldl_cons, hrest]
    unfold keyStep
    by_cases h : k ∈ ks
    · exact ⟨rest, by simp [h]⟩
    · by_cases hc : creates k = true
      · exact ⟨k :: rest, by simp [h, hc]⟩
      · exact ⟨rest, by simp [h, hc]⟩

theorem mem_keyStep_foldl (creates : String → Bool) (ks : List String) (l : List String)
    (x : String) :
    x ∈ l.foldl (keyStep creates) ks ↔ x ∈ ks ∨ (x ∈ l ∧ creates x = true) := by
  induction l generalizing ks with
  | nil => simp
  | cons k l ih =>
    rw [List.foldl_cons, ih]
    unfold keyStep
    by_cases h : k ∈ ks
    · simp only [h, if_true, List.mem_cons]
      constructor
      · rintro (h' | h')
        · exact Or.inl h'
        · exact Or.inr ⟨Or.inr h'.1, h'.2⟩
      · rintro (h' | ⟨h' | h', hc⟩)
        · exact Or.inl h'
        · rw [h']
          exact Or.inl h
        · exact Or.inr ⟨h', hc⟩
    · by_cases hc : creates k = true
      · simp only [h, hc, if_true, if_false, List.mem_append, List.mem_singleton]
        simp only [List.mem_cons]
        constructor
        · rintro ((h' | h') | h')
          · exact Or.inl h'
          · rw [h']
            exact Or.inr ⟨Or.inl rfl, hc⟩
          · exact Or.inr ⟨Or.inr h'.1, h'.2⟩
        · rintro (h' | ⟨h' | h', hx⟩)
          · exact Or.inl (Or.inl h')
          · exact Or.inl (Or.inr h')
          · exact Or.inr ⟨h', hx⟩
      · simp only [h, hc, if_false, List.mem_cons]
        constructor
        · rintro (h' | h')
          · exact Or.inl h'
          · exact Or.inr ⟨Or.inr h'.1, h'.2⟩
        · rintro (h' | ⟨h' | h', hx⟩)
          · exact Or.inl h'
          · rw [h'] at hx
            exact absurd hx hc
          · exact Or.inr ⟨h', hx⟩

theorem nodup_keyStep_foldl (creates : String → Bool) (ks : List String) (l : List String)
    (h : ks.Nodup) : (l.foldl (keyStep creates) ks).Nodup := by
  induction l generalizing ks with
  | nil => simpa using h
  | cons k l ih =>
    rw [List.foldl_cons]
    apply ih
    unfold keyStep
    by_cases hk : k ∈ ks
    · simpa [hk] using h
    · by_cases hc : creates k = true
      · simp only [hk, hc, if_true, if_false]
        exact List.Nodup.append h (List.nodup_singleton k) (by simpa using hk)
      · simpa [hk, hc] using h

/-- Keys are created in the order of their first occurrence: if `x` first occurs before
`y` does and both end up as own keys, `x` stands before `y`. -/
theorem keyStep_foldl_order (creates : String → Bool) (before after : List String)
    (x y : String) (hxy : x ≠ y) (hx : x ∉ before) (hy : y ∉ before)
    (hx' : x ∈ (before ++ x :: after).foldl (keyStep creates) [])
    (hy' : y ∈ (before ++ x :: after).foldl (keyStep creates) []) :
    [x, y].Sublist ((before ++ x :: after).foldl (keyStep creates) []) := by
  have hcx : creates x = true := by
    rcases (mem_keyStep_foldl creates [] _ x).1 hx' with h | h
    · simp at h
    · exact h.2
  have hx0 : x ∉ before.foldl (keyStep creates) [] := by
    intro h
    rcases (mem_keyStep_foldl creates [] _ x).1 h with h | h
    · simp at h
    · exact hx h.1
  have hy0 : y ∉ before.foldl (keyStep creates) [] := by
    intro h
    rcases (mem_keyStep_foldl creates [] _ y).1 h with h | h
    · simp at h
    · exact hy h.1
  rw [List.foldl_append, List.foldl_cons] at hy' ⊢
  have hstep : keyStep creates (before.foldl (keyStep creates) []) x =
      before.foldl (keyStep creates) [] ++ [x] := by
    simp [keyStep, hx0, hcx]
  rw [hstep] at hy' ⊢
  obtain ⟨rest, hrest⟩ := keyStep_foldl_extends creates
    (before.foldl (keyStep creates) [] ++ [x]) after
  rw [hrest] at hy' ⊢
  have hyr : y ∈ rest := by
    rcases List.mem_append.1 hy' with h | h
    · rcases List.mem_append.1 h with h | h
      · exact absurd h hy0
      · exact absurd (List.mem_singleton.1 h).symm hxy
    · exact h
  rw [List.append_assoc]
  apply List.Sublist.trans _ (List.sublist_append_right _ _)
  exact List.Sublist.cons₂ x (List.singleton_sublist.2 hyr)

/-! ## The accumulators of the two screens -/

theorem keysOf_foldl_step {α : Type} (step : Obj α → Transaction → Obj α)
    (creates : String → Bool)
    (hstep : ∀ acc t, keysOf (step acc t) = keyStep creates (keysOf acc) (propertyKey t.category))
    (l : List Transaction) (acc : Obj α) :
    keysOf (l.foldl step acc) =
      (l.map (fun t => propertyKey t.category)).foldl (keyStep creates) (keysOf acc) := by
  induction l generalizing acc with
  | nil => rfl
  | cons t l ih => rw [List.foldl_cons, ih, hstep, List.map_cons, List.foldl_cons]

theorem proto_mem_objectPrototypeKeys : "__proto__" ∈ objectPrototypeKeys := by decide

/-- The Dashboard reducer creates an own key for every category that is not a property
name of `Object.prototype`, at its first occurrence. -/
theorem Dashboard.keysOf_spendingStep (acc : Obj Dashboard.Cell) (t : Transaction) :
    keysOf (Dashboard.categoryStep acc t) =
      keyStep (fun k => decide (k ∉ objectPrototypeKeys)) (keysOf acc)
        (propertyKey t.category) := by
  unfold Dashboard.categoryStep Obj.get
  cases h : acc.getOwn (propertyKey t.category) with
  | some c =>
    have hk : propertyKey t.category ∈ keysOf acc := getOwn_eq_some_mem h
    simp [h, keysOf_set, keyStep, hk]
  | none =>
    have hk : propertyKey t.category ∉ keysOf acc := (getOwn_eq_none_iff _ _).1 h
    by_cases hp : propertyKey t.category ∈ objectPrototypeKeys
    · simp [h, hp, keyStep, hk]
    · have hne : propertyKey t.category ≠ "__proto__" := fun e =>
        hp (e ▸ proto_mem_objectPrototypeKeys)
      simp [h, hp, keyStep, hk, getOwn_set_self _ _ _ hne, keysOf_set, hne]

/-- The Reports reducer creates an own key for every category but `__proto__`, at its
first occurrence. -/
theorem Reports.keysOf_breakdownStep (acc : Obj Reports.Amount) (t : Transaction) :
    keysOf (Reports.categoryStep acc t) =
      keyStep (fun k => decide (k ≠ "__proto__")) (keysOf acc) (propertyKey t.category) := by
  unfold Reports.categoryStep
  by_cases hp : propertyKey t.category = "__proto__"
  · by_cases ht : Reports.truthy (acc.get "__proto__") = true <;>
      simp [keysOf_set, keyStep, hp, ht]
  · by_cases hk : propertyKey t.category ∈ keysOf acc
    · by_cases ht : Reports.truthy (acc.get (propertyKey t.category)) = true <;>
        simp [keysOf_set, keyStep, hp, hk, ht]
    · by_cases ht : Reports.truthy (acc.get (propertyKey t.category)) = true <;>
        simp [keysOf_set, keyStep, hp, hk, ht]

/-- The own keys of `categorySpending`, in creation order. -/
theorem Dashboard.keysOf_categorySpending (l : List Transaction) :
    keysOf (Dashboard.categorySpending l) =
      ((l.filter isExpense).map (fun t => propertyKey t.category)).foldl
        (keyStep (fun k => decide (k ∉ objectPrototypeKeys))) [] :=
  keysOf_foldl_step _ _ Dashboard.keysOf_spendingStep _ []

/-- The own keys of `categoryBreakdown`, in creation order. -/
theorem Reports.keysOf_categoryBreakdown (l : List Transaction) :
    keysOf (Reports.categoryBreakdown l) =
      ((l.filter isExpense).map (fun t => propertyKey t.category)).foldl
        (keyStep (fun k => decide (k ≠ "__proto__"))) [] :=
  keysOf_foldl_step _ _ Reports.keysOf_breakdownStep _ []

theorem Dashboard.getOwn_categoryStep_self (acc : Obj Dashboard.Cell) (t : Transaction)
    (hp : propertyKey t.category ∉ objectPrototypeKeys) :
    (Dashboard.categoryStep acc t).getOwn (propertyKey t.category) =
      some (Dashboard.bump ((acc.getOwn (propertyKey t.category)).getD (Dashboard.fresh t)) t) := by
  have hne : propertyKey t.category ≠ "__proto__" := fun e =>
    hp (e ▸ proto_mem_objectPrototypeKeys)
  unfold Dashboard.categoryStep Obj.get
  cases h : acc.getOwn (propertyKey t.category) with
  | some c => simp [h, getOwn_set_self _ _ _ hne, Dashboard.bump]
  | none => simp [h, hp, getOwn_set_self _ _ _ hne, Dashboard.bump, Dashboard.fresh]

theorem Dashboard.getOwn_categoryStep_ne (acc : Obj Dashboard.Cell) (t : Transaction)
    (k : String) (hk : k ≠ propertyKey t.category) :
    (Dashboard.categoryStep acc t).getOwn k = acc.getOwn k := by
  unfold Dashboard.categoryStep Obj.get
  cases h : acc.getOwn (propertyKey t.category) with
  | some c => simp [h, getOwn_set_ne _ _ _ _ hk]
  | none =>
    by_cases hp : propertyKey t.category ∈ objectPrototypeKeys
    · simp [h, hp]
    · have hne : propertyKey t.category ≠ "__proto__" := fun e =>
        hp (e ▸ proto_mem_objectPrototypeKeys)
      simp [h, hp, getOwn_set_self _ _ _ hne, getOwn_set_ne _ _ _ _ hk]

theorem Dashboard.getOwn_foldl_categoryStep (k : String) (hp : k ∉ objectPrototypeKeys)
    (l : List Transaction) (acc : Obj Dashboard.Cell) :
    (l.foldl Dashboard.categoryStep acc).getOwn k =
      match l.filter (fun t => decide (propertyKey t.category = k)) with
      | [] => acc.getOwn k
      | t :: es => some ((t :: es).foldl Dashboard.bump ((acc.getOwn k).getD (Dashboard.fresh t))) := by
  induction l generalizing acc with
  | nil => rfl
  | cons t l ih =>
    rw [List.foldl_cons, ih]
    by_cases hk : propertyKey t.category = k
    · subst hk
      rw [Dashboard.getOwn_categoryStep_self acc t hp]
      simp only [List.filter_cons, decide_True, if_true]
      cases l.filter (fun t' => decide (propertyKey t'.category = propertyKey t.category)) with
      | nil => simp
      | cons t' es => simp
    · have hk' : k ≠ propertyKey t.category := fun e => hk e.symm
      rw [Dashboard.getOwn_categoryStep_ne acc t k hk']
      simp [List.filter_cons, hk]

theorem Dashboard.foldl_bump_total (es : List Transaction) (c : Dashboard.Cell) :
    (es.foldl Dashboard.bump c).total = c.total + (es.map (fun t => parseFloat t.amount)).sum ∧
    (es.foldl Dashboard.bump c).count = c.count + JSNum.fin es.length ∧
    (es.foldl Dashboard.bump c).icon = c.icon := by
  induction es generalizing c with
  | nil => exact ⟨(add_zero _).symm, (add_zero c.count).symm, rfl⟩
  | cons t es ih =>
    obtain ⟨h1, h2, h3⟩ := ih (Dashboard.bump c t)
    rw [List.foldl_cons, h1, h2, h3]
    refine ⟨?_, ?_, rfl⟩
    · simp [Dashboard.bump, add_assoc]
    · simp only [Dashboard.bump, add_assoc, List.length_cons]
      congr 1
      simp [JSNum.add_def, JSNum.one_def, JSNum.add, add_comm]

/-- The Dashboard accumulator, category by category: a category that is not a property
name of `Object.prototype` has an own cell exactly when some expense entry carries it, and
the cell holds the sum of the parsed amounts of those entries, their number, and the icon
of the category. -/
theorem Dashboard.categorySpending_getOwn (l : List Transaction) (k : String)
    (hp : k ∉ objectPrototypeKeys) :
    (Dashboard.categorySpending l).getOwn k =
      match (l.filter isExpense).filter (fun t => decide (propertyKey t.category = k)) with
      | [] => none
      | t :: es =>
          some { total := ((t :: es).map (fun t => parseFloat t.amount)).sum
                 count := JSNum.fin (t :: es).length
                 icon := Dashboard.getCategoryIcon t.category } := by
  unfold Dashboard.categorySpending
  rw [Dashboard.getOwn_foldl_categoryStep k hp]
  cases (l.filter isExpense).filter (fun t => decide (propertyKey t.category = k)) with
  | nil => rfl
  | cons t es =>
    obtain ⟨h1, h2, h3⟩ := Dashboard.foldl_bump_total (t :: es) (Dashboard.fresh t)
    simp only [Obj.getOwn, Option.getD_none, Option.some.injEq]
    rw [Dashboard.Cell.mk.injEq]
    refine ⟨?_, ?_, ?_⟩
    · rw [h1]
      exact zero_add _
    · rw [h2]
      exact zero_add _
    · rw [h3]
      rfl

/-! ## Amounts that do not parse (C3) -/

/-- C3, as stated, fails: with the amount `"abc"` on one Food expense and 5 on another, the
sums computed with the unparsable amount taken as 0 are 5, and the code yields NaN for
`totalExpense` on both screens and for the Food total of the Dashboard. -/
theorem totals_nan_not_zero_coerced :
    Reports.totalExpense [expenseOf (JSVal.num 0) "Food",
      expenseOf (JSVal.num (JSNum.fin 5)) "Food"] = JSNum.fin 5 ∧
    Reports.totalExpense foodAbcThenFive = JSNum.nan ∧
    Dashboard.totalExpense foodAbcThenFive = JSNum.nan ∧
    (Dashboard.categorySpending foodAbcThenFive).getOwn "Food" =
      some { total := JSNum.nan, count := JSNum.fin 2, icon := Dashboard.Icon.emoji "🍔" } := by
  decide!

theorem totalExpense_nan_of_mem (l : List Transaction) (t : Transaction) (ht : t ∈ l)
    (he : t.type = some "expense") (hn : parseFloat t.amount = JSNum.nan) :
    (l.filter isExpense).foldl (fun acc t => acc + parseFloat t.amount) 0 = JSNum.nan := by
  rw [foldl_add_eq_sum]
  apply sum_eq_nan_of_mem
  rw [← hn]
  exact List.mem_map_of_mem _ (List.mem_filter.2 ⟨ht, by simp [isExpense, he]⟩)

/-- C3 (amended): an amount that does not parse is not taken as 0, it makes the totals NaN.
For every list (on the Dashboard, the filtered list) with an expense entry whose amount
parses to NaN, `totalExpense` is NaN on both screens, and on the Dashboard the total of
that entry's category is NaN as well, when the category is not a property name of
`Object.prototype`. The functions are total: nothing is raised. -/
theorem unparsable_amount_gives_nan (l : List Transaction) (t : Transaction) (ht : t ∈ l)
    (he : t.type = some "expense") (hn : parseFloat t.amount = JSNum.nan) :
    Reports.totalExpense l = JSNum.nan ∧
    Dashboard.totalExpense l = JSNum.nan ∧
    (propertyKey t.category ∉ objectPrototypeKeys →
      ∃ c, (Dashboard.categorySpending l).getOwn (propertyKey t.category) = some c ∧
        c.total = JSNum.nan) := by
  refine ⟨totalExpense_nan_of_mem l t ht he hn, totalExpense_nan_of_mem l t ht he hn, ?_⟩
  intro hp
  rw [Dashboard.categorySpending_getOwn l _ hp]
  have hmem : t ∈ (l.filter isExpense).filter
      (fun t' => decide (propertyKey t'.category = propertyKey t.category)) :=
    List.mem_filter.2 ⟨List.mem_filter.2 ⟨ht, by simp [isExpense, he]⟩, by simp⟩
  cases hes : (l.filter isExpense).filter
      (fun t' => decide (propertyKey t'.category = propertyKey t.category)) with
  | nil => rw [hes] at hmem; cases hmem
  | cons t' es =>
    refine ⟨_, rfl, ?_⟩
    apply sum_eq_nan_of_mem
    rw [← hn, ← hes]
    exact List.mem_map_of_mem _ hmem

/-- An instance of C3: the totals of `[abc on Food, 5 on Food]` are NaN. -/
theorem unparsable_amount_gives_nan_witness :
    Reports.totalExpense foodAbcThenFive = JSNum.nan ∧
    Dashboard.totalExpense foodAbcThenFive = JSNum.nan ∧
    ∃ c, (Dashboard.categorySpending foodAbcThenFive).getOwn "Food" = some c ∧
      c.total = JSNum.nan :=
  have h := unparsable_amount_gives_nan foodAbcThenFive (expenseOf (JSVal.str "abc") "Food")
    (by decide) (by decide) (by decide)
  ⟨h.1, h.2.1, h.2.2 (by decide)⟩

/-! ## `Object.entries` and the stability of the sort -/

theorem insertByIndex_perm {α : Type} (i : Nat) (e : String × α) (l : List (String × α)) :
    (insertByIndex i e l).Perm (e :: l) := by
  induction l with
  | nil => exact List.Perm.refl _
  | cons e' l ih =>
    unfold insertByIndex
    split
    · exact List.Perm.refl _
    · exact (List.Perm.cons e' ih).trans (List.Perm.swap e e' l)

theorem indexEntries_perm {α : Type} (o : Obj α) :
    (indexEntries o).Perm (o.filter (fun e => (arrayIndex e.1).isSome)) := by
  induction o with
  | nil => exact List.Perm.refl _
  | cons e o ih =>
    unfold indexEntries
    cases h : arrayIndex e.1 with
    | none => simpa [List.filter_cons, h] using ih
    | some i =>
      simp only [List.filter_cons, h, Option.isSome_some, if_true]
      exact (insertByIndex_perm i e _).trans (List.Perm.cons e ih)

/-- `Object.entries` lists every own property once. -/
theorem entries_perm {α : Type} (o : Obj α) : (Object.entries o).Perm o := by
  unfold Object.entries
  refine (List.Perm.append_right _ (indexEntries_perm o)).trans ?_
  have h := List.filter_append_perm (fun e : String × α => (arrayIndex e.1).isSome) o
  have hfun : (fun e : String × α => (arrayIndex e.1).isNone) =
      (fun e : String × α => !(arrayIndex e.1).isSome) := by
    funext e
    cases arrayIndex e.1 <;> rfl
  rw [hfun]
  exact h

/-- Sorting keeps `a` ahead of a later `b` that the comparator does not put first. -/
theorem pair_sublist_sortedInsert {α : Type} (cmp : α → α → JSNum) (a b : α) (l : List α)
    (hb : b ∈ l) (hab : JSNum.gt (cmp a b) 0 = false) :
    [a, b].Sublist (sortedInsert cmp a l) := by
  induction l with
  | nil => cases hb
  | cons c l ih =>
    unfold sortedInsert
    by_cases hc : JSNum.gt (cmp a c) 0 = true
    · rw [if_pos hc]
      rcases List.mem_cons.1 hb with h | h
      · rw [h, hc] at hab
        cases hab
      · exact List.Sublist.cons c (ih h)
    · rw [if_neg hc]
      exact List.Sublist.cons₂ a (List.singleton_sublist.2 hb)

/-- `Array.prototype.sort` is stable: two entries the comparator does not reorder keep
their relative order. -/
theorem pair_sublist_arraySort {α : Type} (cmp : α → α → JSNum) (a b : α) (l : List α)
    (hl : [a, b].Sublist l) (hab : JSNum.gt (cmp a b) 0 = false) :
    [a, b].Sublist (arraySort cmp l) := by
  induction l with
  | nil => cases hl
  | cons c l ih =>
    unfold arraySort
    cases hl with
    | cons _ h => exact (ih h).trans (sublist_sortedInsert cmp c _)
    | cons₂ _ h =>
      exact pair_sublist_sortedInsert cmp a b _
        ((mem_arraySort cmp l b).2 (List.singleton_sublist.1 h)) hab

/-- A pair that is in order in a list without duplicates is in order in every initial
segment that contains its second element. -/
theorem pair_sublist_take {α : Type} (a b : α) (l : List α) (n : Nat) (hnd : l.Nodup)
    (hl : [a, b].Sublist l) (hb : b ∈ l.take n) : [a, b].Sublist (l.take n) := by
  have hsplit : l.take n ++ l.drop n = l := List.take_append_drop n l
  have hdisj : b ∉ l.drop n := by
    intro h
    rw [← hsplit] at hnd
    exact (List.nodup_append.1 hnd).2.2 hb h
  rw [← hsplit] at hl
  obtain ⟨l₁, l₂, h12, h1, h2⟩ := List.sublist_append_iff.1 hl
  cases l₁ with
  | nil =>
    simp only [List.nil_append] at h12
    subst h12
    exact absurd (h2.subset (by simp)) hdisj
  | cons a' l₁ =>
    cases l₁ with
    | nil =>
      simp only [List.singleton_append, List.cons.injEq] at h12
      obtain ⟨_, h12⟩ := h12
      subst h12
      exact absurd (h2.subset (by simp)) hdisj
    | cons b' l₁ =>
      simp only [List.cons_append, List.cons.injEq] at h12
      obtain ⟨ha, hb', hnil⟩ := h12
      have : l₁ = [] := by
        cases l₁ with
        | nil => rfl
        | cons _ _ => simp at hnil
      subst this
      subst ha
      subst hb'
      exact h1

/-- The order of a sorted list of entries, for two keys that are not array indices: when
`x` stands before `y` among the own keys and the comparator does not reorder their
entries, the entry of `x` precedes the entry of `y`. -/
theorem sorted_entries_order {α β : Type} (o : Obj α) (g : String × α → β) (name : β → String)
    (hname : ∀ e, name (g e) = e.1) (cmp : β → β → JSNum) (hnd : (keysOf o).Nodup)
    (a b : β) (ha : a ∈ arraySort cmp ((Object.entries o).map g))
    (hb : b ∈ arraySort cmp ((Object.entries o).map g))
    (hia : arrayIndex (name a) = none) (hib : arrayIndex (name b) = none)
    (hkeys : [name a, name b].Sublist (keysOf o))
    (hab : JSNum.gt (cmp a b) 0 = false) :
    [a, b].Sublist (arraySort cmp ((Object.entries o).map g)) ∧
    (arraySort cmp ((Object.entries o).map g)).Nodup := by
  have hmapname : ((Object.entries o).map g).map name = (Object.entries o).map Prod.fst := by
    rw [List.map_map]
    exact List.map_congr_left (fun e _ => hname e)
  have hndM : (((Object.entries o).map g).map name).Nodup := by
    rw [hmapname]
    exact ((entries_perm o).map Prod.fst).nodup_iff.2 hnd
  have hndM' : ((Object.entries o).map g).Nodup := List.Nodup.of_map name hndM
  refine ⟨?_, (arraySort_perm cmp _).nodup_iff.2 hndM'⟩
  apply pair_sublist_arraySort cmp a b _ _ hab
  have hf : [name a, name b].Sublist
      ((o.filter (fun e => (arrayIndex e.1).isNone)).map Prod.fst) := by
    have h := hkeys.filter (fun k => (arrayIndex k).isNone)
    have hfm : (keysOf o).filter (fun k => (arrayIndex k).isNone) =
        (o.filter (fun e => (arrayIndex e.1).isNone)).map Prod.fst := by
      unfold keysOf
      rw [List.filter_map]
      rfl
    rw [hfm] at h
    simpa [List.filter_cons, hia, hib] using h
  obtain ⟨l', hl', hmap⟩ := List.sublist_map_iff.1 hf
  have hl'e : l'.Sublist (Object.entries o) :=
    hl'.trans (List.sublist_append_right _ _)
  have hM : (l'.map g).Sublist ((Object.entries o).map g) := hl'e.map g
  have hnames : (l'.map g).map name = [name a, name b] := by
    rw [List.map_map, hmap]
    exact List.map_congr_left (fun e _ => hname e)
  have haM : a ∈ (Object.entries o).map g := (mem_arraySort cmp _ a).1 ha
  have hbM : b ∈ (Object.entries o).map g := (mem_arraySort cmp _ b).1 hb
  have hinj := List.inj_on_of_nodup_map hndM
  match hlg : l'.map g, hnames, hM with
  | [a', b'], hn, hM' =>
    simp only [List.map_cons, List.map_nil, List.cons.injEq, and_true] at hn
    have ha' : a' = a := hinj (hM'.subset (by simp)) haM hn.1
    have hb' : b' = b := hinj (hM'.subset (by simp)) hbM hn.2
    rw [← ha', ← hb']
    exact hM'
  | [], hn, _ => simp at hn
  | [_], hn, _ => simp at hn
  | _ :: _ :: _ :: _, hn, _ => simp at hn

/-! ## Ties in the breakdown (C5) -/

theorem name_mem_keysOf {α β : Type} (o : Obj α) (g : String × α → β) (name : β → String)
    (hname : ∀ e, name (g e) = e.1) (cmp : β → β → JSNum) (a : β)
    (ha : a ∈ arraySort cmp ((Object.entries o).map g)) : name a ∈ keysOf o := by
  obtain ⟨e, he, hge⟩ := List.mem_map.1 ((mem_arraySort cmp _ a).1 ha)
  rw [← hge, hname]
  exact List.mem_map_of_mem Prod.fst ((entries_perm o).mem_iff.1 he)

/-- C5, as stated, fails for categories that are array indices: `10` is met first and has
the same total as `2`, and both screens list `2` first, on exact numbers and on doubles
alike. -/
theorem tie_of_index_categories_not_first_encountered :
    (Dashboard.categoryList tenThenTwo).map (fun c => (c.name, c.total)) =
      [("2", JSNum.fin 1), ("10", JSNum.fin 1)] ∧
    (Reports.categoryData tenThenTwo).map (fun e => (e.category, e.amount)) =
      [("2", Reports.Amount.num (JSNum.fin 1)), ("10", Reports.Amount.num (JSNum.fin 1))] ∧
    (Rounded.Dashboard.categoryList binary64 tenThenTwo).map (fun c => (c.name, c.total)) =
      [("2", JSNum.fin 1), ("10", JSNum.fin 1)] ∧
    (Rounded.Reports.categoryData binary64 tenThenTwo).map (fun e => (e.category, e.amount)) =
      [("2", Reports.Amount.num (JSNum.fin 1)), ("10", Reports.Amount.num (JSNum.fin 1))] := by
  decide!

/-! ## Categories named like built-in properties (C1, C6) -/

/-- C1 at its failing inputs. With one expense of 5 in the category `constructor`,
`totalExpense` is 5 while the only entry of `categoryData` holds a text, not a number, so
the amounts add up to NaN; with the category `__proto__`, `totalExpense` is 5 and
`categoryData` is empty, so the amounts add up to 0. The falsy test of the reducer also
resets a total that is NaN: for `abc` then 5 on Food the amounts add up to 5 while
`totalExpense` is NaN. -/
theorem categoryData_sum_differs_from_totalExpense :
    Reports.totalExpense fiveOnConstructor = JSNum.fin 5 ∧
    (Reports.categoryData fiveOnConstructor).map (fun e => (e.category, e.amount)) =
      [("constructor", Reports.Amount.text)] ∧
    ((Reports.categoryData fiveOnConstructor).map (fun e => e.amount.toNumber)).sum =
      JSNum.nan ∧
    Reports.totalExpense fiveOnProto = JSNum.fin 5 ∧
    Reports.categoryData fiveOnProto = [] ∧
    ((Reports.categoryData fiveOnProto).map (fun e => e.amount.toNumber)).sum = 0 ∧
    Reports.totalExpense foodAbcThenFive = JSNum.nan ∧
    ((Reports.categoryData foodAbcThenFive).map (fun e => e.amount.toNumber)).sum =
      JSNum.fin 5 := by
  decide!

/-- C6 at its failing inputs. For the category `constructor` (and likewise `toString`) the
Reports accumulator holds a text instead of the sum of the amounts, and the Dashboard
accumulator has no entry at all; for `__proto__` neither accumulator has an entry. -/
theorem builtin_named_category_breakdown :
    Reports.categoryBreakdown fiveOnConstructor = [("constructor", Reports.Amount.text)] ∧
    Dashboard.categorySpending fiveOnConstructor = [] ∧
    Reports.categoryBreakdown twiceOnToString = [("toString", Reports.Amount.text)] ∧
    Dashboard.categorySpending twiceOnToString = [] ∧
    Reports.categoryBreakdown fiveOnProto = [] ∧
    Dashboard.categorySpending fiveOnProto = [] := by
  decide!

/-! ## The last seven days (C11) -/

theorem JSNum.fin_div_fin (a b : ℚ) (hb : b ≠ 0) :
    JSNum.fin a / JSNum.fin b = JSNum.fin (a / b) := by
  show JSNum.div (JSNum.fin a) (JSNum.fin b) = JSNum.fin (a / b)
  simp [JSNum.div, hb]

theorem daysDiff_valid (now d : Int) (t : Transaction) (h : t.date = some d) :
    Reports.daysDiff now t =
      JSNum.fin ((⌊((now - d : Int) : ℚ) / (24 * 60 * 60 * 1000)⌋ : Int) : ℚ) := by
  unfold Reports.daysDiff dateDifference
  rw [h]
  simp only []
  rw [JSNum.fin_div_fin _ _ (by norm_num)]
  simp only [JSNum.floor]
  norm_num

theorem daysDiff_invalid (now : Int) (t : Transaction) (h : t.date = none) :
    Reports.daysDiff now t = JSNum.nan := by
  unfold Reports.daysDiff dateDifference
  rw [h]
  rfl

theorem last7Days_test (now : Int) (t : Transaction) :
    (JSNum.ge (Reports.daysDiff now t) 0 && JSNum.lt (Reports.daysDiff now t) (JSNum.fin 7) &&
      isExpense t) = decide (inLast7Days now t) := by
  cases h : t.date with
  | none =>
    rw [daysDiff_invalid now t h]
    have : ¬ inLast7Days now t := by
      rintro ⟨_, k, hk, _⟩
      simp [wholeDaysBefore, h] at hk
    simp [JSNum.ge, this]
  | some d =>
    rw [daysDiff_valid now d t h]
    have hiff : inLast7Days now t ↔ t.type = some "expense" ∧
        0 ≤ ⌊((now - d : Int) : ℚ) / (24 * 60 * 60 * 1000)⌋ ∧
        ⌊((now - d : Int) : ℚ) / (24 * 60 * 60 * 1000)⌋ < 7 := by
      simp [inLast7Days, wholeDaysBefore, h]
    rw [Bool.eq_iff_iff, decide_eq_true_eq, hiff]
    simp only [JSNum.ge, JSNum.lt, JSNum.gt, JSNum.zero_def, isExpense, Bool.and_eq_true,
      decide_eq_true_eq]
    constructor
    · rintro ⟨⟨h1, h2⟩, h3⟩
      exact ⟨h3, by exact_mod_cast h1, by exact_mod_cast h2⟩
    · rintro ⟨h3, h1, h2⟩
      exact ⟨⟨by exact_mod_cast h1, by exact_mod_cast h2⟩, h3⟩

/-- The whole-day difference lies in `[0, 7)` exactly for the dates in the half-open window
from `now - 7 × 24 h` (excluded) to `now` (included). -/
theorem inLast7Days_iff_window (now : Int) (t : Transaction) :
    inLast7Days now t ↔
      t.type = some "expense" ∧
        ∃ d, t.date = some d ∧ now - 7 * 24 * 60 * 60 * 1000 < d ∧ d ≤ now := by
  unfold inLast7Days wholeDaysBefore
  apply and_congr_right
  intro _
  cases h : t.date with
  | none => simp
  | some d =>
    simp only [Option.map_some', Option.some.injEq, exists_eq_left']
    rw [Int.le_floor, Int.floor_lt]
    have hD : (0 : ℚ) < 24 * 60 * 60 * 1000 := by norm_num
    rw [le_div_iff₀ hD, div_lt_iff₀ hD]
    constructor
    · rintro ⟨h1, h2⟩
      have h1' : (0 : ℤ) ≤ now - d := by exact_mod_cast (by simpa using h1)
      have h2' : now - d < 7 * (24 * 60 * 60 * 1000) := by exact_mod_cast h2
      exact ⟨by omega, by omega⟩
    · rintro ⟨h1, h2⟩
      have h1' : (0 : ℤ) ≤ now - d := by omega
      have h2' : now - d < 7 * (24 * 60 * 60 * 1000) := by omega
      exact ⟨by simpa using (by exact_mod_cast h1' : (0 : ℚ) ≤ ((now - d : ℤ) : ℚ)),
        by exact_mod_cast h2'⟩

/-- C11: `last7Days` keeps, in input order, exactly the expense entries whose whole-day
difference `floor((now - date) / 24 h)` lies in `[0, 7)` (an invalid date has none),
`last7DaysSpending` is the sum of their parsed amounts, and `weeklyAverage` is that sum
divided by 7, whatever the entries. Such an entry is one dated after `now - 7 × 24 h` and
not after `now`. -/
theorem last7DaysSpending_spec (now : Int) (transactions : List Transaction) :
    Reports.last7Days now transactions =
      transactions.filter (fun t => decide (inLast7Days now t)) ∧
    Reports.last7DaysSpending now transactions =
      ((transactions.filter (fun t => decide (inLast7Days now t))).map
        (fun t => parseFloat t.amount)).sum ∧
    Reports.weeklyAverage now transactions =
      Reports.last7DaysSpending now transactions / JSNum.fin 7 ∧
    (∀ s : ℚ, Reports.last7DaysSpending now transactions = JSNum.fin s →
      Reports.weeklyAverage now transactions = JSNum.fin (s / 7)) ∧
    (∀ t, inLast7Days now t ↔
      t.type = some "expense" ∧
        ∃ d, t.date = some d ∧ now - 7 * 24 * 60 * 60 * 1000 < d ∧ d ≤ now) := by
  have hfilter : Reports.last7Days now transactions =
      transactions.filter (fun t => decide (inLast7Days now t)) :=
    List.filter_congr (fun t _ => last7Days_test now t)
  refine ⟨hfilter, ?_, rfl, ?_, inLast7Days_iff_window now⟩
  · unfold Reports.last7DaysSpending
    rw [hfilter]
    exact foldl_add_eq_sum _ _
  · intro s hs
    unfold Reports.weeklyAverage
    rw [hs]
    exact JSNum.fin_div_fin s 7 (by norm_num)

/-- An instance of C11: seen ten days after the epoch, an expense of 7 dated three days
and one millisecond after the epoch is the only one counted, and the average is 1. -/
theorem last7DaysSpending_spec_witness :
    Reports.weeklyAverage 864000000
        [{ amount := JSVal.num (JSNum.fin 7), description := none, category := some "Food",
           type := some "expense", date := some 259200001 },
         { amount := JSVal.num (JSNum.fin 9), description := none, category := some "Food",
           type := some "expense", date := some 259200000 }] =
      JSNum.fin (7 / 7) :=
  (last7DaysSpending_spec 864000000 _).2.2.2.1 7 (by decide!)

/-! ## The reducers of Reports on finite amounts -/

theorem Reports.categoryStep_eq_addTo (acc : Obj Reports.Amount) (t : Transaction) :
    Reports.categoryStep acc t = Reports.addTo acc (propertyKey t.category) (parseFloat t.amount) :=
  rfl

theorem Reports.getOwn_addTo_ne (acc : Obj Reports.Amount) (k k' : String) (x : JSNum)
    (h : k' ≠ k) : (Reports.addTo acc k x).getOwn k' = acc.getOwn k' := by
  unfold Reports.addTo
  simp only []
  rw [getOwn_set_ne _ _ _ _ h]
  split
  · exact getOwn_set_ne _ _ _ _ h
  · rfl

theorem Reports.getOwn_addTo_self (acc : Obj Reports.Amount) (k : String) (x : JSNum)
    (hp : k ∉ objectPrototypeKeys) (hf : Reports.FiniteAt acc k) :
    (Reports.addTo acc k x).getOwn k =
      some (Reports.Amount.num (Reports.current acc k + x)) := by
  have hne : k ≠ "__proto__" := fun e => hp (e ▸ proto_mem_objectPrototypeKeys)
  unfold Reports.addTo Reports.current
  simp only []
  rw [getOwn_set_self _ _ _ hne]
  rcases hf with h | ⟨a, h⟩
  · simp [Obj.get, h, hp, Reports.truthy, getOwn_set_self _ _ _ hne, Reports.plus]
  · by_cases ha : a = 0
    · subst ha
      simp [Obj.get, h, Reports.truthy, JSNum.truthy, getOwn_set_self _ _ _ hne, Reports.plus,
        JSNum.zero_def]
    · simp [Obj.get, h, Reports.truthy, JSNum.truthy, ha, Reports.plus]

theorem Reports.getOwn_foldl_addTo (key : Transaction → String) (k : String)
    (hp : k ∉ objectPrototypeKeys) (l : List Transaction) (acc : Obj Reports.Amount)
    (hfin : ∀ t ∈ l, key t = k → ∃ q : ℚ, parseFloat t.amount = JSNum.fin q)
    (hf : Reports.FiniteAt acc k) :
    (l.foldl (fun acc t => Reports.addTo acc (key t) (parseFloat t.amount)) acc).getOwn k =
      if l.filter (fun t => decide (key t = k)) = [] then acc.getOwn k
      else some (Reports.Amount.num (Reports.current acc k +
        ((l.filter (fun t => decide (key t = k))).map (fun t => parseFloat t.amount)).sum)) := by
  induction l generalizing acc with
  | nil => simp
  | cons t l ih =>
    have hfin' : ∀ t' ∈ l, key t' = k → ∃ q : ℚ, parseFloat t'.amount = JSNum.fin q :=
      fun t' ht' => hfin t' (List.mem_cons_of_mem _ ht')
    rw [List.foldl_cons]
    by_cases hk : key t = k
    · obtain ⟨q, hq⟩ := hfin t (List.mem_cons_self _ _) hk
      have hown : (Reports.addTo acc (key t) (parseFloat t.amount)).getOwn k =
          some (Reports.Amount.num (Reports.current acc k + JSNum.fin q)) := by
        rw [hk, hq]
        exact Reports.getOwn_addTo_self acc k _ hp hf
      have hcur : ∃ a : ℚ, Reports.current acc k = JSNum.fin a := by
        unfold Reports.current
        rcases hf with h | ⟨a, h⟩
        · exact ⟨0, by rw [h]; rfl⟩
        · exact ⟨a, by rw [h]⟩
      obtain ⟨a, ha⟩ := hcur
      have hsum : Reports.current acc k + JSNum.fin q = JSNum.fin (a + q) := by
        rw [ha]
        rfl
      have hf' : Reports.FiniteAt (Reports.addTo acc (key t) (parseFloat t.amount)) k :=
        Or.inr ⟨a + q, by rw [hown, hsum]⟩
      have hcur' : Reports.current (Reports.addTo acc (key t) (parseFloat t.amount)) k =
          Reports.current acc k + JSNum.fin q := by
        have hval : Reports.current (Reports.addTo acc (key t) (parseFloat t.amount)) k =
            JSNum.fin (a + q) := by
          unfold Reports.current
          rw [hown, hsum]
        rw [hval, hsum]
      rw [ih _ hfin' hf', hcur', hown]
      simp only [List.filter_cons, hk, decide_True, if_true, List.map_cons, List.sum_cons, hq]
      split
      · next hnil => rw [hnil]; simp
      · next hcons => simp [add_assoc]
    · have hk' : k ≠ key t := fun e => hk e.symm
      have hf' : Reports.FiniteAt (Reports.addTo acc (key t) (parseFloat t.amount)) k := by
        unfold Reports.FiniteAt
        rw [Reports.getOwn_addTo_ne _ _ _ _ hk']
        exact hf
      have hcur' : Reports.current (Reports.addTo acc (key t) (parseFloat t.amount)) k =
          Reports.current acc k := by
        unfold Reports.current
        rw [Reports.getOwn_addTo_ne _ _ _ _ hk']
      rw [ih _ hfin' hf', hcur', Reports.getOwn_addTo_ne _ _ _ _ hk']
      simp [List.filter_cons, hk]

theorem getOwn_of_mem {α : Type} (o : Obj α) (k : String) (v : α) (hnd : (keysOf o).Nodup)
    (h : (k, v) ∈ o) : o.getOwn k = some v := by
  induction o with
  | nil => cases h
  | cons e o ih =>
    obtain ⟨k', v'⟩ := e
    have hnd' : k' ∉ keysOf o ∧ (keysOf o).Nodup := by
      simpa [keysOf] using hnd
    rcases List.mem_cons.1 h with h | h
    · cases h
      simp [Obj.getOwn]
    · have hk : k ∈ keysOf o := List.mem_map_of_mem Prod.fst h
      have hne : k' ≠ k := fun e => hnd'.1 (e ▸ hk)
      simp only [Obj.getOwn, hne, if_false]
      exact ih hnd'.2 h

/-! ## The top spending day (C12) -/

theorem weekdayLong_plain (rt : Runtime) (date : Option Int) :
    Reports.weekdayLong rt date ∉ objectPrototypeKeys ∧
    Reports.weekdayLong rt date ≠ "__proto__" ∧
    arrayIndex (Reports.weekdayLong rt date) = none := by
  cases date with
  | none =>
    show "Invalid Date" ∉ objectPrototypeKeys ∧ "Invalid Date" ≠ "__proto__" ∧
      arrayIndex "Invalid Date" = none
    decide
  | some d =>
    simp only [Reports.weekdayLong]
    split <;> decide

theorem firstBefore_total {α : Type} (x y : α) (l : List α) (hx : x ∈ l) :
    FirstBefore x y l ∨ FirstBefore y x l := by
  induction l with
  | nil => cases hx
  | cons a l ih =>
    by_cases hax : a = x
    · exact Or.inl ⟨[], l, by rw [hax]; rfl, List.not_mem_nil _, List.not_mem_nil _⟩
    · by_cases hay : a = y
      · exact Or.inr ⟨[], l, by rw [hay]; rfl, List.not_mem_nil _, List.not_mem_nil _⟩
      · have hx' : x ∈ l := by
          rcases List.mem_cons.1 hx with h | h
          · exact absurd h.symm hax
          · exact h
        rcases ih hx' with ⟨b, c, hl, h1, h2⟩ | ⟨b, c, hl, h1, h2⟩
        · refine Or.inl ⟨a :: b, c, by rw [hl]; rfl, ?_, ?_⟩
          · simp only [List.mem_cons, not_or]
            exact ⟨fun e => hax e.symm, h1⟩
          · simp only [List.mem_cons, not_or]
            exact ⟨fun e => hay e.symm, h2⟩
        · refine Or.inr ⟨a :: b, c, by rw [hl]; rfl, ?_, ?_⟩
          · simp only [List.mem_cons, not_or]
            exact ⟨fun e => hay e.symm, h1⟩
          · simp only [List.mem_cons, not_or]
            exact ⟨fun e => hax e.symm, h2⟩

theorem expensesOn_ne_nil_iff (rt : Runtime) (w : String) (l : List Transaction) :
    expensesOn rt w l ≠ [] ↔
      w ∈ (l.filter isExpense).map (fun t => Reports.weekdayLong rt t.date) := by
  unfold expensesOn
  rw [List.mem_map]
  constructor
  · intro h
    obtain ⟨t, ht⟩ := List.exists_mem_of_ne_nil _ h
    rw [List.mem_filter] at ht
    exact ⟨t, ht.1, by simpa using ht.2⟩
  · rintro ⟨t, ht, hw⟩
    exact List.ne_nil_of_mem (List.mem_filter.2 ⟨ht, by simpa using hw⟩)

theorem weekdayLong_mem_weekdayNames (rt : Runtime) (d : Int) :
    Reports.weekdayLong rt (some d) ∈ weekdayNames := by
  simp only [Reports.weekdayLong]
  split <;> decide

/-- C12, as stated, fails. For the scenario of the specification, whose records carry no
date, `topSpendingDay` is the entry `Invalid Date`, which is no weekday. With an amount
that does not parse on a Thursday and 5 on the Friday, `topSpendingDay` is Thursday with
the total NaN, and `NaN >= 5` is false. The values are the same on exact numbers and on
doubles. -/
theorem topSpendingDay_not_largest_weekday :
    Reports.topSpendingDay utcRuntime scenario =
      some ("Invalid Date", Reports.Amount.num (JSNum.fin 1000)) ∧
    "Invalid Date" ∉ weekdayNames ∧
    Reports.topSpendingDay utcRuntime thursdayUnparsable =
      some ("Thursday", Reports.Amount.num JSNum.nan) ∧
    spentOn utcRuntime "Friday" thursdayUnparsable = JSNum.fin 5 ∧
    JSNum.ge JSNum.nan (JSNum.fin 5) = false ∧
    Rounded.Reports.topSpendingDay binary64 utcRuntime scenario =
      some ("Invalid Date", Reports.Amount.num (JSNum.fin 1000)) ∧
    Rounded.Reports.topSpendingDay binary64 utcRuntime thursdayUnparsable =
      some ("Thursday", Reports.Amount.num JSNum.nan) ∧
    Rounded.spentOn binary64 utcRuntime "Friday" thursdayUnparsable = JSNum.fin 5 := by
  decide!

/-! ## The percentage of a category (C13) -/

theorem JSNum.ne_zero_of_gt_zero {x : JSNum} (h : JSNum.gt x 0 = true) : x ≠ 0 := by
  intro hx
  rw [hx] at h
  simp [JSNum.gt, JSNum.zero_def] at h

/-- The one-decimal rounding of `toFixed(1)` moves a number by at most one twentieth. -/
theorem toFixed1Value_close (q : ℚ) (hq : |q| < (10 : ℚ) ^ 21) :
    ∃ r : ℚ, Reports.toFixed1Value (JSNum.fin q) = JSNum.fin r ∧ |r - q| ≤ 1 / 20 := by
  simp only [Reports.toFixed1Value]
  rw [if_neg (not_le.2 hq)]
  by_cases hneg : q < 0
  · rw [if_pos hneg]
    refine ⟨_, rfl, ?_⟩
    have h1 := Int.floor_le ((-q) * 10 + 1 / 2)
    have h2 := Int.lt_floor_add_one ((-q) * 10 + 1 / 2)
    rw [abs_le]
    constructor <;> linarith
  · rw [if_neg hneg]
    refine ⟨_, rfl, ?_⟩
    have h1 := Int.floor_le (q * 10 + 1 / 2)
    have h2 := Int.lt_floor_add_one (q * 10 + 1 / 2)
    rw [abs_le]
    constructor <;> linarith

/-- C13, as stated, fails. With one expense of -5, `totalExpense` is -5, not 0, and the
percentage of Food is the number 0 where `amount / totalExpense * 100` is 100. With 1 on
Food and 2 on Gas, the percentage of Food is the text `33.3` where
`amount / totalExpense * 100` is `100/3`. -/
theorem percentage_not_plain_ratio :
    Reports.totalExpense minusFiveOnFood = JSNum.fin (-5) ∧
    (Reports.categoryData minusFiveOnFood).map
        (fun e => (e.percentage, e.amount.toNumber / Reports.totalExpense minusFiveOnFood *
          JSNum.fin 100)) =
      [(Reports.Percentage.zero, JSNum.fin 100)] ∧
    (Reports.categoryData oneFoodTwoGas).map
        (fun e => (e.category, e.percentage.toNumber,
          e.amount.toNumber / Reports.totalExpense oneFoodTwoGas * JSNum.fin 100)) =
      [("Gas", JSNum.fin (667 / 10), JSNum.fin (200 / 3)),
       ("Food", JSNum.fin (333 / 10), JSNum.fin (100 / 3))] := by
  decide!

/-- C13 (amended): for every entry of the Reports breakdown, when `totalExpense > 0` the
percentage is the text `(amount / totalExpense * 100).toFixed(1)`, whose value is within
one twentieth of the ratio, and `totalExpense` is not `0` in that division; when
`totalExpense` is not greater than 0 (zero, negative or NaN) the percentage is the number
`0` and nothing is divided. -/
theorem percentage_spec (transactions : List Transaction) (e : Reports.CategoryDatum)
    (he : e ∈ Reports.categoryData transactions) :
    (JSNum.gt (Reports.totalExpense transactions) 0 = true →
      Reports.totalExpense transactions ≠ 0 ∧
      e.percentage = Reports.Percentage.toFixed1
        (e.amount.toNumber / Reports.totalExpense transactions * JSNum.fin 100) ∧
      ∀ q : ℚ, e.amount.toNumber / Reports.totalExpense transactions * JSNum.fin 100 =
          JSNum.fin q → |q| < (10 : ℚ) ^ 21 →
        ∃ r : ℚ, e.percentage.toNumber = JSNum.fin r ∧ |r - q| ≤ 1 / 20) ∧
    (JSNum.gt (Reports.totalExpense transactions) 0 = false →
      e.percentage = Reports.Percentage.zero ∧ e.percentage.toNumber = 0) := by
  unfold Reports.categoryData at he
  rw [mem_arraySort] at he
  obtain ⟨entry, _, hentry⟩ := List.mem_map.1 he
  subst hentry
  constructor
  · intro hpos
    refine ⟨JSNum.ne_zero_of_gt_zero hpos, ?_, ?_⟩
    · show (if JSNum.gt (Reports.totalExpense transactions) 0 = true then _ else _) = _
      rw [if_pos hpos]
    · intro q hq hlt
      show ∃ r : ℚ, Reports.Percentage.toNumber
        (if JSNum.gt (Reports.totalExpense transactions) 0 = true then _ else _) = _ ∧ _
      rw [if_pos hpos]
      simp only [Reports.Percentage.toNumber]
      rw [show entry.2.toNumber / Reports.totalExpense transactions * JSNum.fin 100 =
        JSNum.fin q from hq]
      exact toFixed1Value_close q hlt
  · intro hneg
    have hperc : (if JSNum.gt (Reports.totalExpense transactions) 0 = true then
        Reports.Percentage.toFixed1
          (entry.2.toNumber / Reports.totalExpense transactions * JSNum.fin 100)
        else Reports.Percentage.zero) = Reports.Percentage.zero := by
      rw [if_neg (by rw [hneg]; exact Bool.false_ne_true)]
    exact ⟨hperc, by
      show Reports.Percentage.toNumber
        (if JSNum.gt (Reports.totalExpense transactions) 0 = true then _ else _) = 0
      rw [hperc]
      rfl⟩

/-- An instance of C13: in the scenario `totalExpense` is 1000 and the percentage of Food
is the text `80.0`. -/
theorem percentage_spec_witness :
    Reports.totalExpense scenario ≠ 0 ∧
    (⟨"Food", Reports.Amount.num (JSNum.fin 800),
        Reports.Percentage.toFixed1 (JSNum.fin 80)⟩ : Reports.CategoryDatum).percentage =
      Reports.Percentage.toFixed1
        ((⟨"Food", Reports.Amount.num (JSNum.fin 800),
            Reports.Percentage.toFixed1 (JSNum.fin 80)⟩ :
              Reports.CategoryDatum).amount.toNumber /
          Reports.totalExpense scenario * JSNum.fin 100) :=
  have h := ((percentage_spec scenario
    ⟨"Food", Reports.Amount.num (JSNum.fin 800), Reports.Percentage.toFixed1 (JSNum.fin 80)⟩
    (by decide!)).1 (by decide!))
  ⟨h.1, h.2.1⟩

/-! ## The Dashboard list against the Reports breakdown (C14) -/

/-- C14 at its failing inputs, with the date filter `all` and an empty search. For one
expense in the category `constructor` the Reports breakdown has one entry and the
Dashboard list has none, not `min(4, 1)`. For `abc` then 5 on Food both lists have the
entry Food, with the total NaN on the Dashboard and 5 in Reports. -/
theorem categoryList_differs_from_categoryData (rt : Runtime) (now : Int) :
    (Reports.categoryData fiveOnConstructor).length = 1 ∧
    (Dashboard.categoryList
      (Dashboard.filteredTransactions rt now "all" "" fiveOnConstructor)).length = 0 ∧
    (Reports.categoryData foodAbcThenFive).map (fun e => (e.category, e.amount.toNumber)) =
      [("Food", JSNum.fin 5)] ∧
    (Dashboard.categoryList
      (Dashboard.filteredTransactions rt now "all" "" foodAbcThenFive)).map
        (fun c => (c.name, c.total)) = [("Food", JSNum.nan)] := by
  rw [filteredTransactions_all_empty, filteredTransactions_all_empty]
  decide!

theorem insertByIndex_map {α β : Type} (f : α → β) (i : Nat) (e : String × α)
    (l : List (String × α)) :
    insertByIndex i (e.1, f e.2) (l.map (fun e => (e.1, f e.2))) =
      (insertByIndex i e l).map (fun e => (e.1, f e.2)) := by
  induction l with
  | nil => rfl
  | cons e' l ih =>
    simp only [List.map_cons, insertByIndex]
    split
    · rfl
    · rw [List.map_cons, ih]

theorem indexEntries_map {α β : Type} (f : α → β) (o : Obj α) :
    indexEntries (o.map (fun e => (e.1, f e.2))) =
      (indexEntries o).map (fun e => (e.1, f e.2)) := by
  induction o with
  | nil => rfl
  | cons e o ih =>
    simp only [List.map_cons, indexEntries]
    cases arrayIndex e.1 with
    | none => exact ih
    | some i =>
      simp only []
      rw [ih]
      exact insertByIndex_map f i e _

/-- `Object.entries` looks at the keys only. -/
theorem entries_map {α β : Type} (f : α → β) (o : Obj α) :
    Object.entries (o.map (fun e => (e.1, f e.2))) =
      (Object.entries o).map (fun e => (e.1, f e.2)) := by
  unfold Object.entries
  rw [indexEntries_map, List.map_append, List.filter_map]
  rfl

theorem sortedInsert_map {α β : Type} (h : α → β) (cmp : α → α → JSNum)
    (cmp' : β → β → JSNum) (hc : ∀ a b, cmp' (h a) (h b) = cmp a b) (a : α) (l : List α) :
    sortedInsert cmp' (h a) (l.map h) = (sortedInsert cmp a l).map h := by
  induction l with
  | nil => rfl
  | cons b l ih =>
    simp only [List.map_cons, sortedInsert, hc]
    split
    · rw [List.map_cons, ih]
    · rfl

/-- Sorting commutes with a projection that the comparator respects. -/
theorem arraySort_map {α β : Type} (h : α → β) (cmp : α → α → JSNum)
    (cmp' : β → β → JSNum) (hc : ∀ a b, cmp' (h a) (h b) = cmp a b) (l : List α) :
    arraySort cmp' (l.map h) = (arraySort cmp l).map h := by
  induction l with
  | nil => rfl
  | cons a l ih =>
    simp only [List.map_cons, arraySort]
    rw [ih]
    exact sortedInsert_map h cmp cmp' hc a _

theorem keyStep_foldl_congr (c₁ c₂ : String → Bool) (l : List String)
    (h : ∀ k ∈ l, c₁ k = c₂ k) (ks : List String) :
    l.foldl (keyStep c₁) ks = l.foldl (keyStep c₂) ks := by
  induction l generalizing ks with
  | nil => rfl
  | cons k l ih =>
    rw [List.foldl_cons, List.foldl_cons]
    have hk : keyStep c₁ ks k = keyStep c₂ ks k := by
      unfold keyStep
      rw [h k (List.mem_cons_self _ _)]
    rw [hk]
    exact ih (fun k' hk' => h k' (List.mem_cons_of_mem _ hk')) _

theorem map_values_eq_of_getOwn {α β γ : Type} (f : α → γ) (g : β → γ) (o₁ : Obj α)
    (o₂ : Obj β) (hkeys : keysOf o₁ = keysOf o₂) (hnd : (keysOf o₁).Nodup)
    (hval : ∀ k ∈ keysOf o₁, (o₁.getOwn k).map f = (o₂.getOwn k).map g) :
    o₁.map (fun e => (e.1, f e.2)) = o₂.map (fun e => (e.1, g e.2)) := by
  have h₁ : o₁.map (fun e => (e.1, some (f e.2))) =
      (keysOf o₁).map (fun k => (k, (o₁.getOwn k).map f)) := by
    unfold keysOf
    rw [List.map_map]
    apply List.map_congr_left
    intro e he
    simp only [Function.comp]
    rw [getOwn_of_mem o₁ e.1 e.2 hnd he]
    rfl
  have h₂ : o₂.map (fun e => (e.1, some (g e.2))) =
      (keysOf o₂).map (fun k => (k, (o₂.getOwn k).map g)) := by
    unfold keysOf
    rw [List.map_map]
    apply List.map_congr_left
    intro e he
    simp only [Function.comp]
    rw [getOwn_of_mem o₂ e.1 e.2 (hkeys ▸ hnd) he]
    rfl
  have h₃ : (keysOf o₁).map (fun k => (k, (o₁.getOwn k).map f)) =
      (keysOf o₂).map (fun k => (k, (o₂.getOwn k).map g)) := by
    rw [← hkeys]
    apply List.map_congr_left
    intro k hk
    rw [hval k hk]
  have h₄ : (o₁.map (fun e => (e.1, f e.2))).map (fun p : String × γ => (p.1, some p.2)) =
      (o₂.map (fun e => (e.1, g e.2))).map (fun p : String × γ => (p.1, some p.2)) := by
    rw [List.map_map, List.map_map]
    exact (h₁.trans h₃).trans h₂.symm
  have hinj : Function.Injective (fun p : String × γ => (p.1, some p.2)) := by
    intro p q hpq
    simp only [Prod.mk.injEq, Option.some.injEq] at hpq
    exact Prod.ext hpq.1 hpq.2
  exact List.map_injective_iff.2 hinj h₄

/-- On expense entries with finite amounts and categories that are no property names of
`Object.prototype`, the two accumulators hold the same totals under the same keys in the
same order. -/
theorem accumulators_agree (l : List Transaction)
    (h : ∀ t ∈ l, t.type = some "expense" →
      (∃ q : ℚ, parseFloat t.amount = JSNum.fin q) ∧
        propertyKey t.category ∉ objectPrototypeKeys) :
    (Dashboard.categorySpending l).map (fun e => (e.1, e.2.total)) =
      (Reports.categoryBreakdown l).map (fun e => (e.1, e.2.toNumber)) := by
  have hexp : ∀ t ∈ l.filter isExpense,
      (∃ q : ℚ, parseFloat t.amount = JSNum.fin q) ∧
        propertyKey t.category ∉ objectPrototypeKeys := by
    intro t ht
    rw [List.mem_filter] at ht
    exact h t ht.1 (by simpa [isExpense] using ht.2)
  have hkeys : keysOf (Dashboard.categorySpending l) = keysOf (Reports.categoryBreakdown l) := by
    rw [Dashboard.keysOf_categorySpending, Reports.keysOf_categoryBreakdown]
    apply keyStep_foldl_congr
    intro k hk
    obtain ⟨t, ht, htk⟩ := List.mem_map.1 hk
    have hp := (hexp t ht).2
    rw [htk] at hp
    have hne : k ≠ "__proto__" := fun e => hp (e ▸ proto_mem_objectPrototypeKeys)
    simp [hp, hne]
  have hnd : (keysOf (Dashboard.categorySpending l)).Nodup := by
    rw [Dashboard.keysOf_categorySpending]
    exact nodup_keyStep_foldl _ _ _ List.nodup_nil
  apply map_values_eq_of_getOwn _ _ _ _ hkeys hnd
  intro k hk
  rw [Dashboard.keysOf_categorySpending, mem_keyStep_foldl] at hk
  rcases hk with hk | ⟨hk, hc⟩
  · cases hk
  · have hp : k ∉ objectPrototypeKeys := by simpa using hc
    obtain ⟨t, ht, htk⟩ := List.mem_map.1 hk
    have hne : (l.filter isExpense).filter (fun t => decide (propertyKey t.category = k)) ≠ [] :=
      List.ne_nil_of_mem (List.mem_filter.2 ⟨ht, by simpa using htk⟩)
    rw [Dashboard.categorySpending_getOwn l k hp]
    have hget := Reports.getOwn_foldl_addTo (fun t => propertyKey t.category) k hp
      (l.filter isExpense) [] (fun t ht _ => (hexp t ht).1) (Or.inl rfl)
    beta_reduce at hget
    have hR : (Reports.categoryBreakdown l).getOwn k = some (Reports.Amount.num
        (((l.filter isExpense).filter (fun t => decide (propertyKey t.category = k))).map
          (fun t => parseFloat t.amount)).sum) := by
      unfold Reports.categoryBreakdown
      show (List.foldl (fun acc t => Reports.addTo acc (propertyKey t.category)
        (parseFloat t.amount)) [] (l.filter isExpense)).getOwn k = _
      rw [hget, if_neg hne]
      unfold Reports.current
      simp [Obj.getOwn]
    rw [hR]
    cases hes : (l.filter isExpense).filter (fun t => decide (propertyKey t.category = k)) with
    | nil => exact absurd hes hne
    | cons t' es => rfl

/-- The Dashboard list refines the Reports breakdown on well-formed entries: when every
expense entry has a finite amount and a category that is no property name of
`Object.prototype`, with the date filter `all` and an empty search, the Dashboard list is
the first four entries of the Reports breakdown, category by category and total by
total. -/
theorem categoryList_eq_take_categoryData (rt : Runtime) (now : Int) (l : List Transaction)
    (h : ∀ t ∈ l, t.type = some "expense" →
      (∃ q : ℚ, parseFloat t.amount = JSNum.fin q) ∧
        propertyKey t.category ∉ objectPrototypeKeys) :
    (Dashboard.categoryList (Dashboard.filteredTransactions rt now "all" "" l)).map
        (fun c => (c.name, c.total)) =
      ((Reports.categoryData l).take 4).map (fun e => (e.category, e.amount.toNumber)) ∧
    (Dashboard.categoryList (Dashboard.filteredTransactions rt now "all" "" l)).length =
      min 4 (Reports.categoryData l).length := by
  rw [filteredTransactions_all_empty]
  have hD : (Dashboard.sortedCategories l).map (fun c => (c.name, c.total)) =
      arraySort (fun a b : String × JSNum => b.2 - a.2)
        (Object.entries ((Dashboard.categorySpending l).map (fun e => (e.1, e.2.total)))) := by
    unfold Dashboard.sortedCategories
    rw [← arraySort_map (fun c : Dashboard.CategoryItem => (c.name, c.total)) _
      (fun a b : String × JSNum => b.2 - a.2) (fun _ _ => rfl), List.map_map, entries_map]
    rfl
  have hR : (Reports.categoryData l).map (fun e => (e.category, e.amount.toNumber)) =
      arraySort (fun a b : String × JSNum => b.2 - a.2)
        (Object.entries ((Reports.categoryBreakdown l).map (fun e => (e.1, e.2.toNumber)))) := by
    unfold Reports.categoryData
    rw [← arraySort_map (fun e : Reports.CategoryDatum => (e.category, e.amount.toNumber)) _
      (fun a b : String × JSNum => b.2 - a.2) (fun _ _ => rfl), List.map_map, entries_map]
    rfl
  have hmap : (Dashboard.categoryList l).map (fun c => (c.name, c.total)) =
      ((Reports.categoryData l).take 4).map (fun e => (e.category, e.amount.toNumber)) := by
    unfold Dashboard.categoryList
    rw [List.map_take, List.map_take, hD, hR, accumulators_agree l h]
  refine ⟨hmap, ?_⟩
  have hlen := congrArg List.length hmap
  simpa [List.length_take] using hlen

/-! ## Adding a recurring definition (C15 to C20) -/

open RecurringTransactions

/-- C15 at its failing inputs. With the amount texts `0`, `-5` and `abc` (description and
category filled, a signed-in user, a write that succeeds) `handleAddRecurring` reports
success, calls `setDoc` once and stores a definition whose amount is 0, -5 and NaN. -/
theorem handleAddRecurring_stores_unchecked_amount :
    (handleAddRecurring sampleClock (some "u1") true emptyStore (rentForm "0" "1")).alerts =
      [("Success", "Recurring transaction added")] ∧
    (handleAddRecurring sampleClock (some "u1") true emptyStore (rentForm "0" "1")).setDocCalls
      = 1 ∧
    ((handleAddRecurring sampleClock (some "u1") true emptyStore (rentForm "0" "1")).store
        "u1").map (fun d => (d.transactions.getD []).map (fun r => r.amount)) =
      some [JSNum.fin 0] ∧
    ((handleAddRecurring sampleClock (some "u1") true emptyStore (rentForm "-5" "1")).store
        "u1").map (fun d => (d.transactions.getD []).map (fun r => r.amount)) =
      some [JSNum.fin (-5)] ∧
    ((handleAddRecurring sampleClock (some "u1") true emptyStore (rentForm "abc" "1")).store
        "u1").map (fun d => (d.transactions.getD []).map (fun r => r.amount)) =
      some [JSNum.nan] ∧
    (handleAddRecurring sampleClock (some "u1") true emptyStore
        (rentForm "abc" "1")).screen.recurringTransactions.map (fun r => r.amount) =
      [JSNum.nan] := by
  decide!

/-- C16 at its failing inputs. For a monthly definition with the day texts `45`, `0` and
the empty text, `handleAddRecurring` reports success and stores `dayOfMonth` 45, 0 and
NaN; for a weekly definition it stores `null`. -/
theorem handleAddRecurring_stores_unchecked_day :
    (handleAddRecurring sampleClock (some "u1") true emptyStore (rentForm "100" "45")).alerts =
      [("Success", "Recurring transaction added")] ∧
    ((handleAddRecurring sampleClock (some "u1") true emptyStore (rentForm "100" "45")).store
        "u1").map (fun d => (d.transactions.getD []).map (fun r => (r.frequency, r.dayOfMonth)))
      = some [("monthly", some (JSNum.fin 45))] ∧
    ((handleAddRecurring sampleClock (some "u1") true emptyStore (rentForm "100" "0")).store
        "u1").map (fun d => (d.transactions.getD []).map (fun r => (r.frequency, r.dayOfMonth)))
      = some [("monthly", some (JSNum.fin 0))] ∧
    ((handleAddRecurring sampleClock (some "u1") true emptyStore (rentForm "100" "")).store
        "u1").map (fun d => (d.transactions.getD []).map (fun r => (r.frequency, r.dayOfMonth)))
      = some [("monthly", some JSNum.nan)] ∧
    ((handleAddRecurring sampleClock (some "u1") true emptyStore weeklyForm).store
        "u1").map (fun d => (d.transactions.getD []).map (fun r => (r.frequency, r.dayOfMonth)))
      = some [("weekly", none)] := by
  decide!

/-- C17: with an empty description `handleAddRecurring` shows the error alert and returns
before any write: `setDoc` is called zero times, the store is what it was, `onSuccess` is
not called, and the screen state, with its in-memory collection, is what it was. This
holds whoever is signed in and whatever the write would have done. -/
theorem handleAddRecurring_rejects_empty_description (clock : Clock)
    (currentUser : Option String) (writeSucceeds : Bool) (store : Store) (screen : Screen)
    (h : screen.description = "") :
    (handleAddRecurring clock currentUser writeSucceeds store screen).alerts =
      [("Error", "Please fill in all fields")] ∧
    (handleAddRecurring clock currentUser writeSucceeds store screen).setDocCalls = 0 ∧
    (handleAddRecurring clock currentUser writeSucceeds store screen).store = store ∧
    (handleAddRecurring clock currentUser writeSucceeds store screen).onSuccessCalled = false ∧
    (handleAddRecurring clock currentUser writeSucceeds store screen).screen = screen ∧
    (handleAddRecurring clock currentUser writeSucceeds store
      screen).screen.recurringTransactions = screen.recurringTransactions := by
  unfold handleAddRecurring
  rw [if_pos (Or.inr (Or.inl h))]
  exact ⟨rfl, rfl, rfl, rfl, rfl, rfl⟩

/-- An instance of C17: a form with an amount and a category and no description, on a
screen that holds one definition. -/
theorem handleAddRecurring_rejects_empty_description_witness :
    (handleAddRecurring sampleClock (some "u1") true storeWithRent
        { formWithoutDescription with recurringTransactions := [storedRent] }).setDocCalls = 0 ∧
    (handleAddRecurring sampleClock (some "u1") true storeWithRent
        { formWithoutDescription with recurringTransactions := [storedRent]
          }).screen.recurringTransactions = [storedRent] :=
  have h := handleAddRecurring_rejects_empty_description sampleClock (some "u1") true
    storeWithRent { formWithoutDescription with recurringTransactions := [storedRent] } rfl
  ⟨h.2.1, h.2.2.2.2.2⟩

/-- C18: after a successful `handleAddRecurring` (the success alert is shown), a user is
signed in, and loading the collection of that user from the resulting store, from any
screen state, gives a list that contains a definition with the amount parsed from the
form, the description, category and frequency of the form, and `isActive = true`. -/
theorem add_then_load_contains_definition (clock : Clock) (currentUser : Option String)
    (writeSucceeds : Bool) (store : Store) (screen mounted : Screen)
    (hsuccess : (handleAddRecurring clock currentUser writeSucceeds store screen).alerts =
      [("Success", "Recurring transaction added")]) :
    currentUser ≠ none ∧
    ∃ r ∈ (loadRecurringTransactions currentUser true
        (handleAddRecurring clock currentUser writeSucceeds store screen).store
        mounted).recurringTransactions,
      r.amount = parseFloatString screen.amount ∧ r.description = screen.description ∧
      r.category = screen.category ∧ r.frequency = screen.frequency ∧ r.isActive = true := by
  unfold handleAddRecurring at hsuccess ⊢
  by_cases hv : screen.amount = "" ∨ screen.description = "" ∨ screen.category = ""
  · rw [if_pos hv] at hsuccess
    simp at hsuccess
  · rw [if_neg hv] at hsuccess ⊢
    cases currentUser with
    | none => simp at hsuccess
    | some userId =>
      cases writeSucceeds with
      | false => simp at hsuccess
      | true =>
        refine ⟨by simp, newRecurring clock screen, ?_, rfl, rfl, rfl, rfl, rfl⟩
        simp [loadRecurringTransactions]

/-- An instance of C18: adding a monthly rent of 100 to an empty store and loading it on a
fresh screen. -/
theorem add_then_load_contains_definition_witness :
    ∃ r ∈ (loadRecurringTransactions (some "u1") true
        (handleAddRecurring sampleClock (some "u1") true emptyStore (rentForm "100" "1")).store
        {}).recurringTransactions,
      r.amount = parseFloatString "100" ∧ r.description = "Rent" ∧ r.category = "Rent" ∧
      r.frequency = "monthly" ∧ r.isActive = true :=
  (add_then_load_contains_definition sampleClock (some "u1") true emptyStore
    (rentForm "100" "1") {} (by decide!)).2

/-- C19 at its failing input. Two additions that both succeed, the second made on the
state left by the first with the same reading of `Date.now()`, leave a collection of two
definitions with the same id, on the screen and in the store. -/
theorem two_adds_same_millisecond_share_id :
    (handleAddRecurring sampleClock (some "u1") true
        (handleAddRecurring sampleClock (some "u1") true emptyStore (rentForm "100" "1")).store
        { (handleAddRecurring sampleClock (some "u1") true emptyStore
            (rentForm "100" "1")).screen with
          amount := "9.99", description := "Music", category := "Subscriptions"
          }).screen.recurringTransactions.map (fun r => r.id) =
      ["1700000000000", "1700000000000"] ∧
    ((handleAddRecurring sampleClock (some "u1") true
        (handleAddRecurring sampleClock (some "u1") true emptyStore (rentForm "100" "1")).store
        { (handleAddRecurring sampleClock (some "u1") true emptyStore
            (rentForm "100" "1")).screen with
          amount := "9.99", description := "Music", category := "Subscriptions"
          }).store "u1").map (fun d => (d.transactions.getD []).map (fun r => r.id)) =
      some ["1700000000000", "1700000000000"] ∧
    ¬ (["1700000000000", "1700000000000"] : List String).Nodup := by
  decide!

/-- C20 at its failing input. The store holds one definition for the user; the initial
load fails, so the screen still holds the empty collection; a successful addition then
leaves in the store the new definition alone, not the stored collection with the new
definition appended. -/
theorem add_after_failed_load_overwrites_collection :
    (loadRecurringTransactions (some "u1") false storeWithRent
      (rentForm "100" "1")).recurringTransactions = [] ∧
    (storeWithRent "u1").map (fun d => d.transactions) = some (some [storedRent]) ∧
    (handleAddRecurring sampleClock (some "u1") true storeWithRent
        (loadRecurringTransactions (some "u1") false storeWithRent (rentForm "100" "1"))).alerts =
      [("Success", "Recurring transaction added")] ∧
    ((handleAddRecurring sampleClock (some "u1") true storeWithRent
        (loadRecurringTransactions (some "u1") false storeWithRent (rentForm "100" "1"))).store
        "u1").map (fun d => d.transactions) =
      some (some [newRecurring sampleClock (rentForm "100" "1")]) ∧
    [newRecurring sampleClock (rentForm "100" "1")] ≠
      [storedRent] ++ [newRecurring sampleClock (rentForm "100" "1")] := by
  decide!
/-! ## Toggling and removing a recurring definition (C21 to C23) -/

/-- The collection `toggleRecurring` leaves on the screen is either the mapped collection
(a signed-in user and a write that succeeds) or the collection it found. -/
theorem toggleRecurring_collection (clockUpdatedAt : Int) (currentUser : Option String)
    (writeSucceeds : Bool) (id : String) (isActive : Bool) (store : Store) (screen : Screen) :
    (toggleRecurring clockUpdatedAt currentUser writeSucceeds id isActive store
        screen).screen.recurringTransactions =
      (if currentUser.isSome ∧ writeSucceeds = true then
        screen.recurringTransactions.map
          (fun r => if r.id = id then { r with isActive := !isActive } else r)
      else screen.recurringTransactions) := by
  cases currentUser <;> cases writeSucceeds <;> simp [toggleRecurring]

/-- Position by position, the mapped collection differs from the original in nothing but
`isActive`, and only at the definitions with the given id. -/
theorem toggle_map_frame (id : String) (isActive : Bool) (l : List Recurring) :
    List.Forall₂ (fun r r' => { r' with isActive := r.isActive } = r ∧ (r.id ≠ id → r' = r) ∧
        (r.id = id → r'.isActive = !isActive))
      l (l.map (fun r => if r.id = id then { r with isActive := !isActive } else r)) := by
  induction l with
  | nil => exact List.Forall₂.nil
  | cons r l ih =>
    refine List.Forall₂.cons ?_ ih
    by_cases h : r.id = id
    · subst h
      simp
    · simp [h]

theorem forall₂_self {α : Type} (R : α → α → Prop) (l : List α) (h : ∀ a ∈ l, R a a) :
    List.Forall₂ R l l := by
  induction l with
  | nil => exact List.Forall₂.nil
  | cons a l ih =>
    exact List.Forall₂.cons (h a (List.mem_cons_self a l))
      (ih (fun b hb => h b (List.mem_cons_of_mem a hb)))

/-- C21: `toggleRecurring(id, isActive)` changes nothing but `isActive` of the definitions
with that id. Whoever is signed in and whatever the write does, the collection on the
screen corresponds position by position to the one before (same length, same order): each
definition keeps every field other than `isActive`, and a definition with another id is
unchanged; when no definition has the id the collection is unchanged. With a signed-in
user and a write that succeeds, every definition with the id ends with the negation of the
argument, so it is flipped when the argument is its current value, and the document of the
user holds that collection while the documents of other users are untouched. -/
theorem toggleRecurring_flips_and_frames (clockUpdatedAt : Int) (userId id : String)
    (isActive : Bool) (store : Store) (screen : Screen) :
    (∀ (currentUser : Option String) (writeSucceeds : Bool),
      List.Forall₂ (fun r r' => { r' with isActive := r.isActive } = r ∧ (r.id ≠ id → r' = r))
        screen.recurringTransactions
        (toggleRecurring clockUpdatedAt currentUser writeSucceeds id isActive store
          screen).screen.recurringTransactions ∧
      (toggleRecurring clockUpdatedAt currentUser writeSucceeds id isActive store
          screen).screen.recurringTransactions.length = screen.recurringTransactions.length ∧
      (toggleRecurring clockUpdatedAt currentUser writeSucceeds id isActive store
          screen).screen.recurringTransactions.map (fun r => r.id) =
        screen.recurringTransactions.map (fun r => r.id) ∧
      ((∀ r ∈ screen.recurringTransactions, r.id ≠ id) →
        (toggleRecurring clockUpdatedAt currentUser writeSucceeds id isActive store
          screen).screen.recurringTransactions = screen.recurringTransactions)) ∧
    List.Forall₂
      (fun r r' => r.id = id →
        r'.isActive = (!isActive) ∧ (r.isActive = isActive → r'.isActive = !r.isActive))
      screen.recurringTransactions
      (toggleRecurring clockUpdatedAt (some userId) true id isActive store
        screen).screen.recurringTransactions ∧
    (toggleRecurring clockUpdatedAt (some userId) true id isActive store screen).store userId =
      some { transactions := some (toggleRecurring clockUpdatedAt (some userId) true id isActive
               store screen).screen.recurringTransactions,
             updatedAt := clockUpdatedAt } ∧
    (∀ other, other ≠ userId →
      (toggleRecurring clockUpdatedAt (some userId) true id isActive store screen).store other =
        store other) ∧
    { (toggleRecurring clockUpdatedAt (some userId) true id isActive store screen).screen with
        recurringTransactions := screen.recurringTransactions } = screen := by
  have hframe := toggle_map_frame id isActive screen.recurringTransactions
  refine ⟨?_, ?_, ?_, ?_, ?_⟩
  · intro currentUser writeSucceeds
    rw [toggleRecurring_collection]
    by_cases hc : currentUser.isSome ∧ writeSucceeds = true
    · rw [if_pos hc]
      refine ⟨List.Forall₂.imp (fun _ _ h => ⟨h.1, h.2.1⟩) hframe, by simp, ?_, ?_⟩
      · rw [List.map_map]
        apply List.map_congr_left
        intro r _
        by_cases h : r.id = id <;> simp [h]
      · intro hno
        conv_rhs => rw [← List.map_id screen.recurringTransactions]
        apply List.map_congr_left
        intro r hr
        simp [hno r hr]
    · rw [if_neg hc]
      exact ⟨forall₂_self _ _ (fun r _ => ⟨rfl, fun _ => rfl⟩), rfl, rfl, fun _ => rfl⟩
  · rw [toggleRecurring_collection]
    rw [if_pos ⟨rfl, rfl⟩]
    refine List.Forall₂.imp (fun r r' h hid => ⟨h.2.2 hid, fun hcur => ?_⟩) hframe
    rw [h.2.2 hid, hcur]
  · simp [toggleRecurring]
  · intro other hne
    simp [toggleRecurring, Function.update, hne]
  · simp [toggleRecurring]

/-- An instance of C21: on the screen that holds an active rent and an inactive
subscription, toggling the rent with its current value `true` switches it off and leaves
the subscription as it is, on the screen and in the store. -/
theorem toggleRecurring_flips_and_frames_witness :
    (toggleRecurring 1700000000000 (some "u1") true "1600000000000" true storeWithBoth
        screenWithBoth).screen.recurringTransactions =
      [{ storedRent with isActive := false }, storedMusic] ∧
    ((toggleRecurring 1700000000000 (some "u1") true "1600000000000" true storeWithBoth
        screenWithBoth).store "u1").map (fun d => d.transactions) =
      some (some [{ storedRent with isActive := false }, storedMusic]) ∧
    (toggleRecurring 1700000000000 (some "u1") true "1600000000000" true storeWithBoth
        screenWithBoth).screen.recurringTransactions.length = 2 :=
  ⟨by decide!, by decide!,
    ((toggleRecurring_flips_and_frames 1700000000000 "u1" "1600000000000" true storeWithBoth
      screenWithBoth).1 (some "u1") true).2.1⟩

/-- The collection `deleteRecurring` leaves on the screen is either the filtered collection
(a signed-in user and a write that succeeds) or the collection it found. -/
theorem deleteRecurring_collection (clockUpdatedAt : Int) (currentUser : Option String)
    (writeSucceeds : Bool) (id : String) (store : Store) (screen : Screen) :
    (deleteRecurring clockUpdatedAt currentUser writeSucceeds id store
        screen).screen.recurringTransactions =
      (if currentUser.isSome ∧ writeSucceeds = true then
        screen.recurringTransactions.filter (fun r => decide (r.id ≠ id))
      else screen.recurringTransactions) := by
  cases currentUser <;> cases writeSucceeds <;> simp [deleteRecurring]

/-- C22: once the deletion is confirmed, with a signed-in user and a write that succeeds,
the resulting collection holds no definition with the id, is a sublist of the collection
before (nothing new, same relative order), holds every definition with another id as often
as before, and is the collection written to the document of the user (one `setDoc` call,
the success alert, other users untouched); when no definition has the id the collection is
unchanged. -/
theorem deleteRecurring_removes_and_persists (clockUpdatedAt : Int) (userId id : String)
    (store : Store) (screen : Screen) :
    (∀ r ∈ (deleteRecurring clockUpdatedAt (some userId) true id store
        screen).screen.recurringTransactions, r.id ≠ id) ∧
    List.Sublist
      (deleteRecurring clockUpdatedAt (some userId) true id store
        screen).screen.recurringTransactions
      screen.recurringTransactions ∧
    (∀ r : Recurring, r.id ≠ id →
      (deleteRecurring clockUpdatedAt (some userId) true id store
        screen).screen.recurringTransactions.count r = screen.recurringTransactions.count r) ∧
    (∀ r ∈ screen.recurringTransactions, r.id ≠ id →
      r ∈ (deleteRecurring clockUpdatedAt (some userId) true id store
        screen).screen.recurringTransactions) ∧
    (deleteRecurring clockUpdatedAt (some userId) true id store screen).store userId =
      some { transactions := some (deleteRecurring clockUpdatedAt (some userId) true id store
               screen).screen.recurringTransactions,
             updatedAt := clockUpdatedAt } ∧
    (∀ other, other ≠ userId →
      (deleteRecurring clockUpdatedAt (some userId) true id store screen).store other =
        store other) ∧
    (deleteRecurring clockUpdatedAt (some userId) true id store screen).setDocCalls = 1 ∧
    (deleteRecurring clockUpdatedAt (some userId) true id store screen).alerts =
      [("Success", "Recurring transaction deleted")] ∧
    ((∀ r ∈ screen.recurringTransactions, r.id ≠ id) →
      (deleteRecurring clockUpdatedAt (some userId) true id store
        screen).screen.recurringTransactions = screen.recurringTransactions) := by
  rw [deleteRecurring_collection, if_pos ⟨rfl, rfl⟩]
  refine ⟨?_, List.filter_sublist _, ?_, ?_, ?_, ?_, rfl, rfl, ?_⟩
  · intro r hr
    simpa using (List.mem_filter.1 hr).2
  · intro r hr
    rw [List.count_filter]
    simpa using hr
  · intro r hr hne
    exact List.mem_filter.2 ⟨hr, by simpa using hne⟩
  · simp [deleteRecurring]
  · intro other hne
    simp [deleteRecurring, Function.update, hne]
  · intro hno
    apply List.filter_eq_self.2
    intro r hr
    simpa using hno r hr

/-- An instance of C22: deleting the rent from the screen that holds the rent and the
subscription leaves the subscription alone, on the screen and in the store. -/
theorem deleteRecurring_removes_and_persists_witness :
    (deleteRecurring 1700000000000 (some "u1") true "1600000000000" storeWithBoth
        screenWithBoth).screen.recurringTransactions = [storedMusic] ∧
    ((deleteRecurring 1700000000000 (some "u1") true "1600000000000" storeWithBoth
        screenWithBoth).store "u1").map (fun d => d.transactions) = some (some [storedMusic]) ∧
    storedMusic ∈ (deleteRecurring 1700000000000 (some "u1") true "1600000000000" storeWithBoth
        screenWithBoth).screen.recurringTransactions :=
  ⟨by decide!, by decide!,
    (deleteRecurring_removes_and_persists 1700000000000 "u1" "1600000000000" storeWithBoth
      screenWithBoth).2.2.2.1 storedMusic (by decide!) (by decide!)⟩

/-- C23: when `setDoc` fails, each of `handleAddRecurring`, `toggleRecurring` and
`deleteRecurring` leaves the in-memory collection, and the store, as they were, whoever is
signed in; with a signed-in user (and, for the addition, a form that passes the emptiness
test) the write was attempted once and the error alert of the handler is shown. -/
theorem failed_write_keeps_snapshot (clock : Clock) (currentUser : Option String)
    (id : String) (isActive : Bool) (store : Store) (screen : Screen) :
    ((handleAddRecurring clock currentUser false store screen).screen.recurringTransactions =
        screen.recurringTransactions ∧
      (handleAddRecurring clock currentUser false store screen).store = store) ∧
    ((toggleRecurring clock.updatedAt currentUser false id isActive store
          screen).screen.recurringTransactions = screen.recurringTransactions ∧
      (toggleRecurring clock.updatedAt currentUser false id isActive store screen).store =
        store) ∧
    ((deleteRecurring clock.updatedAt currentUser false id store
          screen).screen.recurringTransactions = screen.recurringTransactions ∧
      (deleteRecurring clock.updatedAt currentUser false id store screen).store = store) ∧
    (∀ userId : String,
      (¬ (screen.amount = "" ∨ screen.description = "" ∨ screen.category = "") →
        (handleAddRecurring clock (some userId) false store screen).setDocCalls = 1 ∧
        (handleAddRecurring clock (some userId) false store screen).alerts =
          [("Error", "Failed to add recurring transaction")]) ∧
      (toggleRecurring clock.updatedAt (some userId) false id isActive store
          screen).setDocCalls = 1 ∧
      (toggleRecurring clock.updatedAt (some userId) false id isActive store screen).alerts =
        [("Error", "Failed to update recurring transaction")] ∧
      (deleteRecurring clock.updatedAt (some userId) false id store screen).setDocCalls = 1 ∧
      (deleteRecurring clock.updatedAt (some userId) false id store screen).alerts =
        [("Error", "Failed to delete recurring transaction")]) := by
  refine ⟨?_, ?_, ?_, ?_⟩
  · unfold handleAddRecurring
    by_cases hv : screen.amount = "" ∨ screen.description = "" ∨ screen.category = ""
    · rw [if_pos hv]
      exact ⟨rfl, rfl⟩
    · rw [if_neg hv]
      cases currentUser <;> exact ⟨rfl, rfl⟩
  · cases currentUser <;> exact ⟨rfl, rfl⟩
  · cases currentUser <;> exact ⟨rfl, rfl⟩
  · intro userId
    refine ⟨?_, rfl, rfl, rfl, rfl⟩
    intro hv
    unfold handleAddRecurring
    rw [if_neg hv]
    exact ⟨rfl, rfl⟩

/-- An instance of C23: on the screen that holds the rent and the subscription, a rent
form whose write fails leaves the two definitions, after one attempted write. -/
theorem failed_write_keeps_snapshot_witness :
    (handleAddRecurring sampleClock (some "u1") false storeWithBoth
        { rentForm "100" "1" with recurringTransactions := [storedRent, storedMusic]
          }).screen.recurringTransactions = [storedRent, storedMusic] ∧
    (handleAddRecurring sampleClock (some "u1") false storeWithBoth
        { rentForm "100" "1" with recurringTransactions := [storedRent, storedMusic]
          }).setDocCalls = 1 :=
  ⟨(failed_write_keeps_snapshot sampleClock (some "u1") "" true storeWithBoth
      { rentForm "100" "1" with recurringTransactions := [storedRent, storedMusic] }).1.1,
   ((failed_write_keeps_snapshot sampleClock (some "u1") "" true storeWithBoth
      { rentForm "100" "1" with recurringTransactions := [storedRent, storedMusic] }).2.2.2
      "u1").1 (by decide!) |>.1⟩
/-! ## The transaction service without a signed-in user, and ownership (C24 to C26) -/

/-- C24: with no authenticated user `getTransactions` returns the empty list without a
call on Firestore, and `addTransaction` throws `User not authenticated` without a call on
Firestore; the collection is what it was. -/
theorem no_user_get_empty_add_fails (env : TransactionService.Env)
    (transaction : TransactionService.Data) (c : TransactionService.Collection)
    (h : env.currentUser = none) :
    (TransactionService.getTransactions env c).value = Except.ok [] ∧
    (TransactionService.getTransactions env c).calls = [] ∧
    (TransactionService.getTransactions env c).collection = c ∧
    (TransactionService.addTransaction env transaction c).value =
      Except.error TransactionService.Failure.userNotAuthenticated ∧
    (TransactionService.addTransaction env transaction c).calls = [] ∧
    (TransactionService.addTransaction env transaction c).collection = c := by
  have hu : env.userId = none := by
    unfold TransactionService.Env.userId
    rw [h]
  unfold TransactionService.getTransactions TransactionService.addTransaction
  rw [hu]
  exact ⟨rfl, rfl, rfl, rfl, rfl, rfl⟩

/-- An instance of C24: signed out, over a collection that holds a document of `alice`. -/
theorem no_user_get_empty_add_fails_witness :
    (TransactionService.getTransactions TransactionService.signedOut
      TransactionService.aliceCollection).value = Except.ok [] ∧
    (TransactionService.addTransaction TransactionService.signedOut
      TransactionService.aliceLunch TransactionService.aliceCollection).collection =
        TransactionService.aliceCollection :=
  have h := no_user_get_empty_add_fails TransactionService.signedOut
    TransactionService.aliceLunch TransactionService.aliceCollection rfl
  ⟨h.1, h.2.2.2.2.2⟩

/-- C25 at its failing input. With no signed-in user and a store that carries out what it
receives, `deleteTransaction` makes the `deleteDoc` call and returns normally, and the
document is gone; at the same input `addTransaction` and `updateTransaction` throw
`User not authenticated` without a call and leave the collection as it was. -/
theorem deleteTransaction_without_user_deletes :
    (TransactionService.deleteTransaction TransactionService.signedOut "t1"
      TransactionService.aliceCollection).calls = [TransactionService.Call.deleteDoc "t1"] ∧
    (TransactionService.deleteTransaction TransactionService.signedOut "t1"
      TransactionService.aliceCollection).value = Except.ok () ∧
    (TransactionService.deleteTransaction TransactionService.signedOut "t1"
      TransactionService.aliceCollection).collection = [] ∧
    (TransactionService.addTransaction TransactionService.signedOut
      TransactionService.aliceLunch TransactionService.aliceCollection).value =
        Except.error TransactionService.Failure.userNotAuthenticated ∧
    (TransactionService.addTransaction TransactionService.signedOut
      TransactionService.aliceLunch TransactionService.aliceCollection).collection =
        TransactionService.aliceCollection ∧
    (TransactionService.updateTransaction TransactionService.signedOut "t1"
      [("amount", TransactionService.Field.num (JSNum.fin 1))]
      TransactionService.aliceCollection).value =
        Except.error TransactionService.Failure.userNotAuthenticated ∧
    (TransactionService.updateTransaction TransactionService.signedOut "t1"
      [("amount", TransactionService.Field.num (JSNum.fin 1))]
      TransactionService.aliceCollection).collection = TransactionService.aliceCollection := by
  decide!

/-- C26 at its failing inputs. The document `t1` belongs to `alice` and `bob` is signed
in. `updateTransaction` changes its amount; `updateTransaction` with a field `userId`
makes `bob` its owner; `deleteTransaction` removes it. -/
theorem other_user_updates_and_deletes :
    TransactionService.ownerOf "t1" TransactionService.aliceCollection =
      some (TransactionService.Field.str "alice") ∧
    (TransactionService.updateTransaction TransactionService.bobSignedIn "t1"
      [("amount", TransactionService.Field.num (JSNum.fin 1))]
      TransactionService.aliceCollection).value = Except.ok () ∧
    (TransactionService.updateTransaction TransactionService.bobSignedIn "t1"
      [("amount", TransactionService.Field.num (JSNum.fin 1))]
      TransactionService.aliceCollection).collection.map
        (fun d => (d.1, d.2.getOwn "amount", d.2.getOwn "userId")) =
      [("t1", some (TransactionService.Field.num (JSNum.fin 1)),
        some (TransactionService.Field.str "alice"))] ∧
    TransactionService.ownerOf "t1"
      (TransactionService.updateTransaction TransactionService.bobSignedIn "t1"
        [("userId", TransactionService.Field.str "bob")]
        TransactionService.aliceCollection).collection =
      some (TransactionService.Field.str "bob") ∧
    (TransactionService.deleteTransaction TransactionService.bobSignedIn "t1"
      TransactionService.aliceCollection).value = Except.ok () ∧
    (TransactionService.deleteTransaction TransactionService.bobSignedIn "t1"
      TransactionService.aliceCollection).collection = [] := by
  decide!

/-! ## The amount of a submitted transaction (C27) -/

/-- C27 at its failing inputs. With the amount texts `abc`, `-5` and `0` (description and
category filled, a signed-in user, a store that carries out the call) `handleSubmit` calls
`addTransaction` with the amounts NaN, -5 and 0, shows the success alert, and the
collection gains a document with that amount; for a record being edited it calls
`updateTransaction` with the amount NaN. -/
theorem handleSubmit_stores_unchecked_amount :
    (AddTransaction.handleSubmit 1700000400000 AddTransaction.aliceSignedIn none
      (AddTransaction.lunchForm "abc") []).serviceCalls.map AddTransaction.ServiceCall.amount =
      [some (TransactionService.Field.num JSNum.nan)] ∧
    (AddTransaction.handleSubmit 1700000400000 AddTransaction.aliceSignedIn none
      (AddTransaction.lunchForm "abc") []).alerts = [("Success", "Expense added successfully")] ∧
    (AddTransaction.handleSubmit 1700000400000 AddTransaction.aliceSignedIn none
      (AddTransaction.lunchForm "abc") []).collection.map
        (fun d => (d.1, d.2.getOwn "amount")) =
      [("t2", some (TransactionService.Field.num JSNum.nan))] ∧
    (AddTransaction.handleSubmit 1700000400000 AddTransaction.aliceSignedIn none
      (AddTransaction.lunchForm "-5") []).collection.map
        (fun d => (d.1, d.2.getOwn "amount")) =
      [("t2", some (TransactionService.Field.num (JSNum.fin (-5))))] ∧
    (AddTransaction.handleSubmit 1700000400000 AddTransaction.aliceSignedIn none
      (AddTransaction.lunchForm "0") []).collection.map
        (fun d => (d.1, d.2.getOwn "amount")) =
      [("t2", some (TransactionService.Field.num (JSNum.fin 0)))] ∧
    (AddTransaction.handleSubmit 1700000400000 AddTransaction.aliceSignedIn
      (some AddTransaction.editingLunch) (AddTransaction.lunchForm "abc")
      TransactionService.aliceCollection).serviceCalls.map
        AddTransaction.ServiceCall.amount =
      [some (TransactionService.Field.num JSNum.nan)] ∧
    (AddTransaction.handleSubmit 1700000400000 AddTransaction.aliceSignedIn
      (some AddTransaction.editingLunch) (AddTransaction.lunchForm "abc")
      TransactionService.aliceCollection).collection.map
        (fun d => (d.1, d.2.getOwn "amount")) =
      [("t1", some (TransactionService.Field.num JSNum.nan))] := by
  decide!
/-! ## Recurring definitions and the collection of transactions (C28) -/

theorem step_transactions (currentUser : Option String) (s : Session) (e : Event) :
    (step currentUser s e).transactions = s.transactions := by
  cases e <;> rfl

/-- C28 at its failing input. The store holds the active monthly rent due on day 1 and no
transaction. Mounting the recurring screen shows the definition, active, and whatever
happens on the screen afterwards, signed in or not, the collection of transactions stays
what it was: no handler of the screen creates a transaction from a definition, active or
inactive, and the signed-in user still reads an empty list of transactions. -/
theorem recurring_definition_never_materialized :
    (step (some "u1") sessionWithRent (Event.mount true)).screen.recurringTransactions.map
        (fun r => (r.frequency, r.dayOfMonth, r.isActive)) =
      [("monthly", some (JSNum.fin 1), true)] ∧
    (∀ (currentUser : Option String) (s : Session) (events : List Event),
      (run currentUser s events).transactions = s.transactions) ∧
    (∀ events : List Event,
      (TransactionService.getTransactions
        { currentUser := some "u1", now := 1701388800000, storeAccepts := true, autoId := "t1" }
        (run (some "u1") sessionWithRent (Event.mount true :: events)).transactions).value =
      Except.ok []) := by
  have hrun : ∀ (currentUser : Option String) (events : List Event) (s : Session),
      (run currentUser s events).transactions = s.transactions := by
    intro currentUser events
    induction events with
    | nil => intro s; rfl
    | cons e events ih =>
      intro s
      show (run currentUser (step currentUser s e) events).transactions = s.transactions
      rw [ih, step_transactions]
  refine ⟨by decide!, fun currentUser s events => hrun currentUser events s, ?_⟩
  intro events
  rw [hrun]
  decide!
/-! ## The two seven-day windows (C29) -/

/-- C29: an expense entry with a valid date is kept by `last7Days` of Reports exactly when
it passes the Dashboard filter `week` at the same `now`, its date is not after `now`, and
its date is not exactly `now - 7 × 24 h`. So every entry counted in the last seven days is
kept by the filter `week`; the converse fails for the expense dated one millisecond after
`now`. -/
theorem last7Days_iff_week_filter (rt : Runtime) (now d : Int) (t : Transaction)
    (l : List Transaction) (hexpense : t.type = some "expense") (hdate : t.date = some d) :
    (t ∈ Reports.last7Days now l ↔
      t ∈ l.filter (Dashboard.getFilteredByDate rt now "week") ∧ d ≤ now ∧
        d ≠ now - 7 * 24 * 60 * 60 * 1000) ∧
    (t ∈ Reports.last7Days now l → t ∈ l.filter (Dashboard.getFilteredByDate rt now "week")) ∧
    ({ t with date := some (now + 1) } ∈
        [{ t with date := some (now + 1) }].filter (Dashboard.getFilteredByDate rt now "week") ∧
      { t with date := some (now + 1) } ∉
        Reports.last7Days now [{ t with date := some (now + 1) }]) := by
  have hmem : ∀ (t' : Transaction) (d' : Int) (l' : List Transaction),
      t'.type = some "expense" → t'.date = some d' →
      ((t' ∈ Reports.last7Days now l' ↔
          t' ∈ l' ∧ now - 7 * 24 * 60 * 60 * 1000 < d' ∧ d' ≤ now) ∧
       (t' ∈ l'.filter (Dashboard.getFilteredByDate rt now "week") ↔
          t' ∈ l' ∧ now - 7 * 24 * 60 * 60 * 1000 ≤ d')) := by
    intro t' d' l' he hd
    constructor
    · unfold Reports.last7Days
      rw [List.mem_filter, last7Days_test, decide_eq_true_eq, inLast7Days_iff_window]
      simp [he, hd]
    · rw [List.mem_filter, getFilteredByDate_week, decide_eq_true_eq]
      simp [inRollingWeek, hd]
  have h := hmem t d l hexpense hdate
  have hiff : t ∈ Reports.last7Days now l ↔
      t ∈ l.filter (Dashboard.getFilteredByDate rt now "week") ∧ d ≤ now ∧
        d ≠ now - 7 * 24 * 60 * 60 * 1000 := by
    rw [h.1, h.2]
    constructor
    · rintro ⟨hl, h1, h2⟩
      exact ⟨⟨hl, by omega⟩, h2, by omega⟩
    · rintro ⟨⟨hl, h1⟩, h2, h3⟩
      exact ⟨hl, by omega, h2⟩
  refine ⟨hiff, fun hin => (hiff.1 hin).1, ?_, ?_⟩
  · rw [(hmem { t with date := some (now + 1) } (now + 1) _ hexpense rfl).2]
    exact ⟨List.mem_singleton.2 rfl, by omega⟩
  · rw [(hmem { t with date := some (now + 1) } (now + 1) _ hexpense rfl).1]
    rintro ⟨_, _, h2⟩
    omega

/-- An instance of C29: seen at the epoch, the expense dated one millisecond after it
passes the filter `week` and is not counted in the last seven days; seen one millisecond
later it is counted. -/
theorem last7Days_iff_week_filter_witness :
    expenseJustAfterEpoch ∈
      [expenseJustAfterEpoch].filter (Dashboard.getFilteredByDate utcRuntime 0 "week") ∧
    expenseJustAfterEpoch ∉ Reports.last7Days 0 [expenseJustAfterEpoch] ∧
    expenseJustAfterEpoch ∈ Reports.last7Days 1 [expenseJustAfterEpoch] :=
  ⟨by decide!, by decide!,
    (last7Days_iff_week_filter utcRuntime 1 1 expenseJustAfterEpoch [expenseJustAfterEpoch]
      rfl rfl).1.2 ⟨by decide!, by decide, by decide⟩⟩
/-! ## The ordinal suffix of the day of the month (C30) -/

/-- C30: for every integer day from 1 to 31, `getDaySuffix(day)` is the English ordinal
suffix: `st` exactly for 1, 21 and 31, `nd` exactly for 2 and 22, `rd` exactly for 3 and
23, and `th` for every other day, 11, 12 and 13 among them. -/
theorem getDaySuffix_spec (day : Nat) (h₁ : 1 ≤ day) (h₃₁ : day ≤ 31) :
    getDaySuffix (JSNum.fin day) = ordinalSuffix day ∧
    (getDaySuffix (JSNum.fin day) = "st" ↔ day = 1 ∨ day = 21 ∨ day = 31) ∧
    (getDaySuffix (JSNum.fin day) = "nd" ↔ day = 2 ∨ day = 22) ∧
    (getDaySuffix (JSNum.fin day) = "rd" ↔ day = 3 ∨ day = 23) ∧
    (getDaySuffix (JSNum.fin day) = "th" ↔
      ¬ (day = 1 ∨ day = 21 ∨ day = 31 ∨ day = 2 ∨ day = 22 ∨ day = 3 ∨ day = 23)) := by
  interval_cases day <;> decide!

/-- Instances of C30: the suffixes of the days 11, 12, 13, 21, 22 and 23. -/
theorem getDaySuffix_spec_witness :
    getDaySuffix (JSNum.fin 11) = "th" ∧ getDaySuffix (JSNum.fin 12) = "th" ∧
    getDaySuffix (JSNum.fin 13) = "th" ∧ getDaySuffix (JSNum.fin 21) = "st" ∧
    getDaySuffix (JSNum.fin 22) = "nd" ∧ getDaySuffix (JSNum.fin 23) = "rd" :=
  ⟨(getDaySuffix_spec 11 (by decide) (by decide)).1,
   (getDaySuffix_spec 12 (by decide) (by decide)).1,
   (getDaySuffix_spec 13 (by decide) (by decide)).1,
   (getDaySuffix_spec 21 (by decide) (by decide)).1,
   (getDaySuffix_spec 22 (by decide) (by decide)).1,
   (getDaySuffix_spec 23 (by decide) (by decide)).1⟩
/-! ## The rounding of doubles -/

theorem log2Fuel_spec (fuel n : ℕ) (h1 : 1 ≤ n) (hf : n ≤ fuel) :
    2 ^ log2Fuel fuel n ≤ n ∧ n < 2 ^ (log2Fuel fuel n + 1) := by
  induction fuel generalizing n with
  | zero => omega
  | succ fuel ih =>
    unfold log2Fuel
    by_cases h2 : n < 2
    · rw [if_pos h2]
      simp only [pow_zero, zero_add, pow_one]
      omega
    · rw [if_neg h2]
      have hn : 1 ≤ n / 2 := by omega
      have hf' : n / 2 ≤ fuel := by omega
      obtain ⟨hlo, hhi⟩ := ih (n / 2) hn hf'
      constructor
      · rw [pow_succ]
        omega
      · rw [pow_succ]
        omega

theorem log2Floor_spec (n : ℕ) (h1 : 1 ≤ n) :
    2 ^ log2Floor n ≤ n ∧ n < 2 ^ (log2Floor n + 1) :=
  log2Fuel_spec n n h1 (le_refl n)

/-- The binary exponent is a lower bound: `2 ^ binade q ≤ |q|` for `q ≠ 0`. -/
theorem binade_le (q : ℚ) (hq : q ≠ 0) : (2 : ℚ) ^ binade q ≤ |q| := by
  unfold binade
  split
  · next h => exact h
  · have hnum : 1 ≤ q.num.natAbs := by
      have : q.num ≠ 0 := Rat.num_ne_zero.2 hq
      omega
    have hden : 1 ≤ q.den := q.den_pos
    obtain ⟨hlo, -⟩ := log2Floor_spec q.num.natAbs hnum
    obtain ⟨-, hhi⟩ := log2Floor_spec q.den hden
    have habs : |q| = (q.num.natAbs : ℚ) / (q.den : ℚ) := by
      calc |q| = |(q.num : ℚ) / (q.den : ℚ)| := by rw [Rat.num_div_den]
        _ = (q.num.natAbs : ℚ) / (q.den : ℚ) := by
          rw [abs_div, Nat.abs_cast, Nat.cast_natAbs, Int.cast_abs]
    rw [habs]
    have h2 : (2 : ℚ) ^ ((log2Floor q.num.natAbs : ℤ) - (log2Floor q.den : ℤ) - 1) =
        (2 : ℚ) ^ log2Floor q.num.natAbs / (2 : ℚ) ^ (log2Floor q.den + 1) := by
      rw [show ((log2Floor q.num.natAbs : ℤ) - (log2Floor q.den : ℤ) - 1) =
        (log2Floor q.num.natAbs : ℤ) - ((log2Floor q.den + 1 : ℕ) : ℤ) by push_cast; ring]
      rw [zpow_sub₀ (by norm_num : (2 : ℚ) ≠ 0), zpow_natCast, zpow_natCast]
    rw [h2]
    have hlo' : (2 : ℚ) ^ log2Floor q.num.natAbs ≤ (q.num.natAbs : ℚ) := by exact_mod_cast hlo
    have hhi' : (q.den : ℚ) ≤ (2 : ℚ) ^ (log2Floor q.den + 1) := by exact_mod_cast hhi.le
    have hdpos : (0 : ℚ) < (q.den : ℚ) := by exact_mod_cast q.den_pos
    exact div_le_div₀ (by positivity) hlo' hdpos hhi'

theorem ulp_pos (q : ℚ) : 0 < ulp q := by
  unfold ulp
  positivity

theorem roundHalfEven_floor_or (x : ℚ) :
    roundHalfEven x = ⌊x⌋ ∨ roundHalfEven x = ⌊x⌋ + 1 := by
  unfold roundHalfEven
  split
  · exact Or.inl rfl
  · split
    · exact Or.inr rfl
    · split
      · exact Or.inl rfl
      · exact Or.inr rfl

theorem roundHalfEven_intCast (n : ℤ) : roundHalfEven (n : ℚ) = n := by
  unfold roundHalfEven
  simp

theorem roundHalfEven_nonneg (x : ℚ) (h : 0 ≤ x) : 0 ≤ roundHalfEven x := by
  have hf : 0 ≤ ⌊x⌋ := Int.floor_nonneg.2 h
  rcases roundHalfEven_floor_or x with h' | h' <;> omega

theorem roundHalfEven_pos (x : ℚ) (h : 1 ≤ x) : 1 ≤ roundHalfEven x := by
  have hf : 1 ≤ ⌊x⌋ := Int.le_floor.2 (by exact_mod_cast h)
  rcases roundHalfEven_floor_or x with h' | h' <;> omega

theorem roundHalfEven_neg (x : ℚ) (h : x ≤ -1) : roundHalfEven x ≤ -1 := by
  by_cases hx : x = -1
  · rw [hx]
    have := roundHalfEven_intCast (-1)
    simpa using this.le
  · have hlt : x < -1 := lt_of_le_of_ne h hx
    have hf : ⌊x⌋ < -1 := Int.floor_lt.2 (by exact_mod_cast hlt)
    rcases roundHalfEven_floor_or x with h' | h' <;> omega

theorem binary64_ne_nan (q : ℚ) : binary64 q ≠ JSNum.nan := by
  unfold binary64
  split
  · simp
  · split
    · split <;> simp
    · simp

/-- Every finite value of `binary64` is a multiple of `2 ^ (-1074)`. -/
theorem onGrid_binary64 (q : ℚ) : OnGrid (binary64 q) := by
  intro v hv
  unfold binary64 at hv
  split at hv
  · cases hv
    exact ⟨0, by simp⟩
  · split at hv
    · split at hv <;> cases hv
    · cases hv
      obtain ⟨k, hk⟩ : ∃ k : ℕ, max (binade q - 52) (-1074) = (k : ℤ) - 1074 :=
        ⟨(max (binade q - 52) (-1074) + 1074).toNat, by
          have : -1074 ≤ max (binade q - 52) (-1074) := le_max_right _ _
          omega⟩
      refine ⟨roundHalfEven (q / ulp q) * 2 ^ k, ?_⟩
      generalize roundHalfEven (q / ulp q) = r
      unfold ulp
      rw [hk, sub_eq_add_neg, zpow_add₀ (by norm_num : (2 : ℚ) ≠ 0), zpow_natCast]
      push_cast
      ring

/-- On a nonzero multiple of `2 ^ (-1074)` the scaled value `q / ulp q` has magnitude at
least 1. -/
theorem one_le_abs_div_ulp (q : ℚ) (hq : q ≠ 0)
    (hg : ∃ n : ℤ, q = (n : ℚ) * (2 : ℚ) ^ (-1074 : ℤ)) : 1 ≤ |q / ulp q| := by
  have hu := ulp_pos q
  rw [abs_div, abs_of_pos hu, le_div_iff₀ hu, one_mul]
  unfold ulp
  by_cases hcase : -1074 ≤ binade q - 52
  · rw [max_eq_left hcase]
    have h1 : (2 : ℚ) ^ (binade q - 52) ≤ (2 : ℚ) ^ binade q :=
      zpow_le_zpow_right₀ (by norm_num) (by omega)
    exact h1.trans (binade_le q hq)
  · rw [max_eq_right (by omega)]
    obtain ⟨n, hn⟩ := hg
    have hn0 : n ≠ 0 := by
      rintro rfl
      exact hq (by simpa using hn)
    rw [hn, abs_mul, abs_of_pos (by positivity : (0 : ℚ) < (2 : ℚ) ^ (-1074 : ℤ))]
    have : (1 : ℚ) ≤ |(n : ℚ)| := by
      have : (1 : ℤ) ≤ |n| := Int.one_le_abs hn0
      exact_mod_cast this
    nlinarith [(by positivity : (0 : ℚ) < (2 : ℚ) ^ (-1074 : ℤ))]

/-- Rounding a multiple of `2 ^ (-1074)`, such as the difference of two doubles, keeps its
sign: the result is positive exactly when the argument is. -/
theorem binary64_sign (q : ℚ) (hg : ∃ n : ℤ, q = (n : ℚ) * (2 : ℚ) ^ (-1074 : ℤ)) :
    JSNum.gt (binary64 q) 0 = decide (0 < q) := by
  by_cases hq : q = 0
  · subst hq
    simp [binary64, JSNum.gt, JSNum.zero_def]
  · have hu := ulp_pos q
    have h1 := one_le_abs_div_ulp q hq hg
    unfold binary64
    rw [if_neg hq]
    split
    · split
      · next hpos => simp [JSNum.gt, JSNum.zero_def, hpos]
      · next hneg => simp [JSNum.gt, JSNum.zero_def, hneg]
    · simp only [JSNum.gt, JSNum.zero_def]
      congr 1
      apply propext
      rcases lt_or_gt_of_ne hq with hneg | hpos
      · have hx : q / ulp q ≤ -1 := by
          have : q / ulp q < 0 := div_neg_of_neg_of_pos hneg hu
          rw [abs_of_neg this] at h1
          linarith
        have hr := roundHalfEven_neg _ hx
        have hr' : (roundHalfEven (q / ulp q) : ℚ) ≤ -1 := by exact_mod_cast hr
        constructor
        · intro h
          nlinarith
        · intro h
          exact absurd h (not_lt.2 hneg.le)
      · have hx : 1 ≤ q / ulp q := by
          have : 0 < q / ulp q := div_pos hpos hu
          rw [abs_of_pos this] at h1
          exact h1
        have hr := roundHalfEven_pos _ hx
        have hr' : (1 : ℚ) ≤ (roundHalfEven (q / ulp q) : ℚ) := by exact_mod_cast hr
        constructor
        · intro _
          exact hpos
        · intro _
          nlinarith

/-- Rounding a number that is not negative gives a number that is not negative. -/
theorem binary64_nonneg (q : ℚ) (h : 0 ≤ q) : JSNum.ge (binary64 q) 0 = true := by
  by_cases hq : q = 0
  · subst hq
    simp [binary64, JSNum.ge, JSNum.zero_def]
  · have hpos : 0 < q := lt_of_le_of_ne h (Ne.symm hq)
    unfold binary64
    rw [if_neg hq]
    by_cases hbig : (2 : ℚ) ^ (1024 : ℕ) ≤ |(roundHalfEven (q / ulp q) : ℚ) * ulp q|
    · rw [if_pos hbig, if_pos hpos]
      rfl
    · rw [if_neg hbig]
      simp only [JSNum.ge, JSNum.zero_def, decide_eq_true_eq]
      have hu := ulp_pos q
      have hr := roundHalfEven_nonneg (q / ulp q) (div_nonneg h hu.le)
      have hr' : (0 : ℚ) ≤ (roundHalfEven (q / ulp q) : ℚ) := by exact_mod_cast hr
      positivity

theorem onGrid_zero : OnGrid 0 := by
  intro q hq
  cases hq
  exact ⟨0, by simp⟩

/-- Every sum the engine computes is a double. -/
theorem onGrid_addR (x y : JSNum) : OnGrid (JSNum.addR binary64 x y) := by
  cases x <;> cases y <;>
    first
    | exact onGrid_binary64 _
    | (intro q hq; simp [JSNum.addR, JSNum.add] at hq)

/-- Adding a finite number to a number gives a number (not NaN). -/
theorem addR_fin_ne_nan (x : JSNum) (q : ℚ) (hx : x ≠ JSNum.nan) :
    JSNum.addR binary64 x (JSNum.fin q) ≠ JSNum.nan := by
  cases x with
  | fin a => exact binary64_ne_nan _
  | posInf => simp [JSNum.addR, JSNum.add]
  | negInf => simp [JSNum.addR, JSNum.add]
  | nan => exact absurd rfl hx

/-- The comparator `y - x` computed on doubles is positive exactly when `y > x`. -/
theorem subR_sign (x y : JSNum) (hx : x ≠ JSNum.nan) (hy : y ≠ JSNum.nan)
    (gx : OnGrid x) (gy : OnGrid y) :
    JSNum.gt (JSNum.subR binary64 y x) 0 = JSNum.gt y x := by
  cases x with
  | nan => exact absurd rfl hx
  | fin a =>
    cases y with
    | nan => exact absurd rfl hy
    | fin b =>
      obtain ⟨na, hna⟩ := gx a rfl
      obtain ⟨nb, hnb⟩ := gy b rfl
      show JSNum.gt (binary64 (b - a)) 0 = decide (a < b)
      rw [binary64_sign (b - a) ⟨nb - na, by rw [hna, hnb]; push_cast; ring⟩]
      simp
    | posInf => rfl
    | negInf => rfl
  | posInf => cases y <;> first | exact absurd rfl hy | rfl
  | negInf => cases y <;> first | exact absurd rfl hy | rfl

theorem JSNum.ge_of_gt {x y : JSNum} (h : JSNum.gt y x = true) : JSNum.ge y x = true := by
  cases x <;> cases y <;> simp_all [JSNum.ge, JSNum.gt]
  exact h.le

theorem JSNum.ge_of_not_gt {x y : JSNum} (hx : x ≠ JSNum.nan) (hy : y ≠ JSNum.nan)
    (h : JSNum.gt y x = false) : JSNum.ge x y = true := by
  cases x <;> cases y <;> simp_all [JSNum.ge, JSNum.gt]

theorem JSNum.ge_self {x : JSNum} (hx : x ≠ JSNum.nan) : JSNum.ge x x = true := by
  cases x <;> simp_all [JSNum.ge]

/-! ## `Array.prototype.sort` with a comparator that follows the order of the keys -/

theorem sortedInsert_pairwise_of_sign {α : Type} (cmp : α → α → JSNum) (f : α → JSNum)
    (a : α) (l : List α)
    (hcmp : ∀ x ∈ a :: l, ∀ y ∈ a :: l, JSNum.gt (cmp x y) 0 = JSNum.gt (f y) (f x))
    (hnan : ∀ x ∈ a :: l, f x ≠ JSNum.nan)
    (hs : l.Pairwise (fun x y => JSNum.ge (f x) (f y) = true)) :
    (sortedInsert cmp a l).Pairwise (fun x y => JSNum.ge (f x) (f y) = true) := by
  induction l with
  | nil => simp [sortedInsert]
  | cons b l ih =>
    have ha : a ∈ a :: b :: l := List.mem_cons_self _ _
    have hb : b ∈ a :: b :: l := List.mem_cons_of_mem _ (List.mem_cons_self _ _)
    have hsub : ∀ x, x ∈ a :: l → x ∈ a :: b :: l := by
      intro x hx
      rcases List.mem_cons.1 hx with h | h
      · rw [h]; exact ha
      · exact List.mem_cons_of_mem _ (List.mem_cons_of_mem _ h)
    rw [List.pairwise_cons] at hs
    unfold sortedInsert
    by_cases hgt : JSNum.gt (cmp a b) 0 = true
    · rw [if_pos hgt, List.pairwise_cons]
      refine ⟨fun x hx => ?_,
        ih (fun x hx y hy => hcmp x (hsub x hx) y (hsub y hy)) (fun x hx => hnan x (hsub x hx))
          hs.2⟩
      rcases List.mem_cons.1 ((sortedInsert_perm _ a l).mem_iff.1 hx) with h | h
      · rw [h]
        rw [hcmp a ha b hb] at hgt
        exact JSNum.ge_of_gt hgt
      · exact hs.1 x h
    · rw [if_neg hgt, List.pairwise_cons]
      have hab : JSNum.ge (f a) (f b) = true := by
        have hgt' : JSNum.gt (cmp a b) 0 = false := by simpa using hgt
        rw [hcmp a ha b hb] at hgt'
        exact JSNum.ge_of_not_gt (hnan a ha) (hnan b hb) hgt'
      refine ⟨fun x hx => ?_, List.pairwise_cons.2 hs⟩
      rcases List.mem_cons.1 hx with h | h
      · rw [h]
        exact hab
      · exact JSNum.ge_trans hab (hs.1 x h)

/-- When the comparator is positive exactly for a larger key of the second argument and
no key is NaN, the sorted list is in descending order of the keys. -/
theorem arraySort_pairwise_of_sign {α : Type} (cmp : α → α → JSNum) (f : α → JSNum)
    (l : List α)
    (hcmp : ∀ x ∈ l, ∀ y ∈ l, JSNum.gt (cmp x y) 0 = JSNum.gt (f y) (f x))
    (hnan : ∀ x ∈ l, f x ≠ JSNum.nan) :
    (arraySort cmp l).Pairwise (fun x y => JSNum.ge (f x) (f y) = true) := by
  induction l with
  | nil => simp [arraySort]
  | cons a l ih =>
    have hl : ∀ x, x ∈ arraySort cmp l → x ∈ l := fun x hx => (mem_arraySort cmp l x).1 hx
    have hmem : ∀ x, x ∈ a :: arraySort cmp l → x ∈ a :: l := by
      intro x hx
      rcases List.mem_cons.1 hx with h | h
      · rw [h]; exact List.mem_cons_self _ _
      · exact List.mem_cons_of_mem _ (hl x h)
    exact sortedInsert_pairwise_of_sign cmp f a _
      (fun x hx y hy => hcmp x (hmem x hx) y (hmem y hy))
      (fun x hx => hnan x (hmem x hx))
      (ih (fun x hx y hy => hcmp x (List.mem_cons_of_mem _ hx) y (List.mem_cons_of_mem _ hy))
        (fun x hx => hnan x (List.mem_cons_of_mem _ hx)))

/-! ## The rounded reducers without rounding -/

theorem addR_fin_eq (x y : JSNum) : JSNum.addR JSNum.fin x y = x + y := by
  cases x <;> cases y <;> rfl

theorem subR_fin_eq (x y : JSNum) : JSNum.subR JSNum.fin x y = x - y := by
  cases x <;> cases y <;> first | rfl | simp [JSNum.subR, JSNum.sub_def, JSNum.add, JSNum.neg, sub_eq_add_neg]

theorem mulR_fin_eq (x y : JSNum) : JSNum.mulR JSNum.fin x y = x * y := by
  cases x <;> cases y <;> rfl

theorem divR_fin_eq (x y : JSNum) : JSNum.divR JSNum.fin x y = x / y := by
  cases x <;> cases y <;> first | rfl | (show JSNum.divR JSNum.fin _ _ = JSNum.div _ _; simp only [JSNum.divR, JSNum.div]; split <;> simp_all)

theorem parseFloatR_fin_eq (v : JSVal) : parseFloatR JSNum.fin v = parseFloat v := by
  unfold parseFloatR
  cases parseFloat v <;> rfl

/-- With no rounding the rounded functions are the exact functions: they differ from them
in the rounding alone. -/
theorem rounded_fin_eq_exact (rt : Runtime) (l : List Transaction) :
    Rounded.Reports.categoryData JSNum.fin l = Reports.categoryData l ∧
    Rounded.Reports.topSpendingDay JSNum.fin rt l = Reports.topSpendingDay rt l ∧
    Rounded.Dashboard.categoryList JSNum.fin l = Dashboard.categoryList l := by
  have hplus : Rounded.Reports.plus JSNum.fin = Reports.plus := by
    funext a x
    unfold Rounded.Reports.plus Reports.plus
    split <;> simp [addR_fin_eq]
  have hcat : Rounded.Reports.categoryStep JSNum.fin = Reports.categoryStep := by
    funext acc t
    unfold Rounded.Reports.categoryStep Reports.categoryStep
    rw [hplus, parseFloatR_fin_eq]
  have hspend : Rounded.Reports.spendingStep JSNum.fin rt = Reports.spendingStep rt := by
    funext acc t
    unfold Rounded.Reports.spendingStep Reports.spendingStep
    rw [hplus, parseFloatR_fin_eq]
  have htotal : Rounded.Reports.totalExpense JSNum.fin l = Reports.totalExpense l := by
    unfold Rounded.Reports.totalExpense Reports.totalExpense
    simp only [addR_fin_eq, parseFloatR_fin_eq]
  have hdash : Rounded.Dashboard.categoryStep JSNum.fin = Dashboard.categoryStep := by
    funext acc t
    unfold Rounded.Dashboard.categoryStep Dashboard.categoryStep
    simp only [addR_fin_eq, parseFloatR_fin_eq]
  refine ⟨?_, ?_, ?_⟩
  · unfold Rounded.Reports.categoryData Reports.categoryData Rounded.Reports.categoryBreakdown
      Reports.categoryBreakdown
    simp only [hcat, htotal, subR_fin_eq, mulR_fin_eq, divR_fin_eq]
  · unfold Rounded.Reports.topSpendingDay Reports.topSpendingDay Rounded.Reports.spendingByDay
      Reports.spendingByDay
    simp only [hspend, subR_fin_eq]
  · unfold Rounded.Dashboard.categoryList Dashboard.categoryList
      Rounded.Dashboard.sortedCategories Dashboard.sortedCategories
      Rounded.Dashboard.categorySpending Dashboard.categorySpending
    simp only [hdash, subR_fin_eq, divR_fin_eq]

/-! ## The accumulators of Reports on doubles -/

theorem categoryStep_eq_addTo_rounded (rnd : ℚ → JSNum) (acc : Obj Reports.Amount)
    (t : Transaction) :
    Rounded.Reports.categoryStep rnd acc t =
      Rounded.Reports.addTo rnd acc (propertyKey t.category) (parseFloatR rnd t.amount) :=
  rfl

theorem spendingStep_eq_addTo_rounded (rnd : ℚ → JSNum) (rt : Runtime)
    (acc : Obj Reports.Amount) (t : Transaction) :
    Rounded.Reports.spendingStep rnd rt acc t =
      Rounded.Reports.addTo rnd acc (Reports.weekdayLong rt t.date) (parseFloatR rnd t.amount) :=
  rfl

/-- The rounded reducer step creates an own key for every key but `__proto__`, at its
first occurrence, whatever the numbers are. -/
theorem keysOf_addTo_rounded (rnd : ℚ → JSNum) (acc : Obj Reports.Amount) (k : String)
    (x : JSNum) :
    keysOf (Rounded.Reports.addTo rnd acc k x) =
      keyStep (fun k => decide (k ≠ "__proto__")) (keysOf acc) k := by
  unfold Rounded.Reports.addTo
  by_cases hp : k = "__proto__"
  · by_cases ht : Reports.truthy (acc.get "__proto__") = true <;>
      simp [keysOf_set, keyStep, hp, ht]
  · by_cases hk : k ∈ keysOf acc
    · by_cases ht : Reports.truthy (acc.get k) = true <;>
        simp [keysOf_set, keyStep, hp, hk, ht]
    · by_cases ht : Reports.truthy (acc.get k) = true <;>
        simp [keysOf_set, keyStep, hp, hk, ht]

theorem keysOf_foldl_addTo_rounded (rnd : ℚ → JSNum) (key : Transaction → String)
    (l : List Transaction) (acc : Obj Reports.Amount) :
    keysOf (l.foldl (fun acc t => Rounded.Reports.addTo rnd acc (key t)
      (parseFloatR rnd t.amount)) acc) =
      (l.map key).foldl (keyStep (fun k => decide (k ≠ "__proto__"))) (keysOf acc) := by
  induction l generalizing acc with
  | nil => rfl
  | cons t l ih =>
    rw [List.foldl_cons, ih, keysOf_addTo_rounded, List.map_cons, List.foldl_cons]

theorem getOwn_addTo_ne_rounded (rnd : ℚ → JSNum) (acc : Obj Reports.Amount)
    (k k' : String) (x : JSNum) (h : k' ≠ k) :
    (Rounded.Reports.addTo rnd acc k x).getOwn k' = acc.getOwn k' := by
  unfold Rounded.Reports.addTo
  simp only []
  rw [getOwn_set_ne _ _ _ _ h]
  split
  · exact getOwn_set_ne _ _ _ _ h
  · rfl

theorem Reports.current_ne_nan (acc : Obj Reports.Amount) (k : String)
    (hf : Reports.NumberAt acc k) : Reports.current acc k ≠ JSNum.nan := by
  unfold Reports.current
  rcases hf with h | ⟨v, hv, h⟩
  · rw [h]
    simp [JSNum.zero_def]
  · rw [h]
    exact hv

/-- On a key that holds a number or is absent, the rounded reducer step leaves the rounded
sum of the number held (0 when absent) and the amount. -/
theorem getOwn_addTo_self_rounded (rnd : ℚ → JSNum) (acc : Obj Reports.Amount)
    (k : String) (x : JSNum) (hp : k ∉ objectPrototypeKeys) (hf : Reports.NumberAt acc k) :
    (Rounded.Reports.addTo rnd acc k x).getOwn k =
      some (Reports.Amount.num (JSNum.addR rnd (Reports.current acc k) x)) := by
  have hne : k ≠ "__proto__" := fun e => hp (e ▸ proto_mem_objectPrototypeKeys)
  unfold Rounded.Reports.addTo Reports.current
  simp only []
  rw [getOwn_set_self _ _ _ hne]
  rcases hf with h | ⟨v, hv, h⟩
  · simp [Obj.get, h, hp, Reports.truthy, getOwn_set_self _ _ _ hne, Rounded.Reports.plus]
  · by_cases ht : v.truthy = true
    · simp [Obj.get, h, Reports.truthy, ht, Rounded.Reports.plus]
    · have hv0 : v = JSNum.fin 0 := by
        cases v with
        | fin a =>
          have : a = 0 := by simpa [JSNum.truthy] using ht
          rw [this]
        | posInf => simp [JSNum.truthy] at ht
        | negInf => simp [JSNum.truthy] at ht
        | nan => exact absurd rfl hv
      subst hv0
      simp [Obj.get, h, Reports.truthy, JSNum.truthy, getOwn_set_self _ _ _ hne,
        Rounded.Reports.plus, JSNum.zero_def]

/-- Adding finite amounts one by one on doubles never gives NaN, and gives a double. -/
theorem foldl_addR_number (l : List Transaction) (s : JSNum) (hs : s ≠ JSNum.nan)
    (gs : OnGrid s)
    (hfin : ∀ t ∈ l, ∃ q : ℚ, parseFloatR binary64 t.amount = JSNum.fin q) :
    l.foldl (fun s t => JSNum.addR binary64 s (parseFloatR binary64 t.amount)) s ≠ JSNum.nan ∧
    OnGrid (l.foldl (fun s t => JSNum.addR binary64 s (parseFloatR binary64 t.amount)) s) := by
  induction l generalizing s with
  | nil => exact ⟨hs, gs⟩
  | cons t l ih =>
    obtain ⟨q, hq⟩ := hfin t (List.mem_cons_self _ _)
    rw [List.foldl_cons]
    apply ih _ _ (onGrid_addR _ _) (fun t' ht' => hfin t' (List.mem_cons_of_mem _ ht'))
    rw [hq]
    exact addR_fin_ne_nan s q hs

/-- The value the rounded reducer leaves under a key: the amounts of the entries of that
key added one by one, in the order of the list, to the number held before. -/
theorem getOwn_foldl_addTo_rounded (key : Transaction → String) (k : String)
    (hp : k ∉ objectPrototypeKeys) (l : List Transaction) (acc : Obj Reports.Amount)
    (hfin : ∀ t ∈ l, key t = k → ∃ q : ℚ, parseFloatR binary64 t.amount = JSNum.fin q)
    (hf : Reports.NumberAt acc k) :
    (l.foldl (fun acc t => Rounded.Reports.addTo binary64 acc (key t)
      (parseFloatR binary64 t.amount)) acc).getOwn k =
      if l.filter (fun t => decide (key t = k)) = [] then acc.getOwn k
      else some (Reports.Amount.num ((l.filter (fun t => decide (key t = k))).foldl
        (fun s t => JSNum.addR binary64 s (parseFloatR binary64 t.amount))
        (Reports.current acc k))) := by
  induction l generalizing acc with
  | nil => simp
  | cons t l ih =>
    have hfin' : ∀ t' ∈ l, key t' = k → ∃ q : ℚ, parseFloatR binary64 t'.amount = JSNum.fin q :=
      fun t' ht' => hfin t' (List.mem_cons_of_mem _ ht')
    rw [List.foldl_cons]
    by_cases hk : key t = k
    · obtain ⟨q, hq⟩ := hfin t (List.mem_cons_self _ _) hk
      have hown : (Rounded.Reports.addTo binary64 acc (key t)
          (parseFloatR binary64 t.amount)).getOwn k =
          some (Reports.Amount.num (JSNum.addR binary64 (Reports.current acc k)
            (parseFloatR binary64 t.amount))) := by
        rw [hk]
        exact getOwn_addTo_self_rounded binary64 acc k _ hp hf
      have hne : JSNum.addR binary64 (Reports.current acc k) (parseFloatR binary64 t.amount) ≠
          JSNum.nan := by
        rw [hq]
        exact addR_fin_ne_nan _ q (Reports.current_ne_nan acc k hf)
      have hf' : Reports.NumberAt (Rounded.Reports.addTo binary64 acc (key t)
          (parseFloatR binary64 t.amount)) k := Or.inr ⟨_, hne, hown⟩
      have hcur' : Reports.current (Rounded.Reports.addTo binary64 acc (key t)
          (parseFloatR binary64 t.amount)) k =
          JSNum.addR binary64 (Reports.current acc k) (parseFloatR binary64 t.amount) := by
        conv_lhs => unfold Reports.current
        rw [hown]
      rw [ih _ hfin' hf', hcur', hown]
      simp only [List.filter_cons, hk, decide_True, if_true, List.foldl_cons]
      split
      · next hnil => rw [hnil]; simp
      · next hcons => simp
    · have hk' : k ≠ key t := fun e => hk e.symm
      have hf' : Reports.NumberAt (Rounded.Reports.addTo binary64 acc (key t)
          (parseFloatR binary64 t.amount)) k := by
        unfold Reports.NumberAt
        rw [getOwn_addTo_ne_rounded _ _ _ _ _ hk']
        exact hf
      have hcur' : Reports.current (Rounded.Reports.addTo binary64 acc (key t)
          (parseFloatR binary64 t.amount)) k = Reports.current acc k := by
        unfold Reports.current
        rw [getOwn_addTo_ne_rounded _ _ _ _ _ hk']
      rw [ih _ hfin' hf', hcur', getOwn_addTo_ne_rounded _ _ _ _ _ hk']
      simp [List.filter_cons, hk]

/-! ## The top spending day on doubles (C12) -/

theorem subR_self_not_gt (x : JSNum) : JSNum.gt (JSNum.subR binary64 x x) 0 = false := by
  cases x with
  | fin a =>
    show JSNum.gt (binary64 (a - a)) 0 = false
    rw [sub_self]
    simp [binary64, JSNum.gt, JSNum.zero_def]
  | posInf => rfl
  | negInf => rfl
  | nan => rfl

theorem keysOf_spendingByDay_rounded (rnd : ℚ → JSNum) (rt : Runtime) (l : List Transaction) :
    keysOf (Rounded.Reports.spendingByDay rnd rt l) =
      ((l.filter isExpense).map (fun t => Reports.weekdayLong rt t.date)).foldl
        (keyStep (fun k => decide (k ≠ "__proto__"))) [] :=
  keysOf_foldl_addTo_rounded rnd (fun t => Reports.weekdayLong rt t.date) _ []

theorem mem_keysOf_spendingByDay_rounded (rnd : ℚ → JSNum) (rt : Runtime) (w : String)
    (l : List Transaction) :
    w ∈ keysOf (Rounded.Reports.spendingByDay rnd rt l) ↔ expensesOn rt w l ≠ [] := by
  rw [keysOf_spendingByDay_rounded, mem_keyStep_foldl, expensesOn_ne_nil_iff]
  constructor
  · rintro (h | h)
    · cases h
    · exact h.1
  · intro h
    refine Or.inr ⟨h, ?_⟩
    obtain ⟨t, _, hw⟩ := List.mem_map.1 h
    rw [← hw]
    simpa using (weekdayLong_plain rt t.date).2.1

theorem nodup_keysOf_spendingByDay_rounded (rnd : ℚ → JSNum) (rt : Runtime)
    (l : List Transaction) : (keysOf (Rounded.Reports.spendingByDay rnd rt l)).Nodup := by
  rw [keysOf_spendingByDay_rounded]
  exact nodup_keyStep_foldl _ _ _ List.nodup_nil

theorem spentOn_number_rounded (rt : Runtime) (l : List Transaction) (w : String)
    (hfin : ∀ t ∈ l, t.type = some "expense" →
      ∃ q : ℚ, parseFloatR binary64 t.amount = JSNum.fin q) :
    Rounded.spentOn binary64 rt w l ≠ JSNum.nan ∧ OnGrid (Rounded.spentOn binary64 rt w l) := by
  unfold Rounded.spentOn
  apply foldl_addR_number _ _ (by simp [JSNum.zero_def]) onGrid_zero
  intro t ht
  have ht' := List.mem_filter.1 (List.mem_filter.1 ht).1
  exact hfin t ht'.1 (by simpa [isExpense] using ht'.2)

/-- On finite amounts every entry of `spendingByDay` holds the amounts of the expense
entries of its weekday added one by one on doubles. -/
theorem spendingByDay_entry_rounded (rt : Runtime) (l : List Transaction)
    (hfin : ∀ t ∈ l, t.type = some "expense" →
      ∃ q : ℚ, parseFloatR binary64 t.amount = JSNum.fin q)
    (w : String) (v : Reports.Amount) (h : (w, v) ∈ Rounded.Reports.spendingByDay binary64 rt l) :
    v = Reports.Amount.num (Rounded.spentOn binary64 rt w l) := by
  have hkey : w ∈ keysOf (Rounded.Reports.spendingByDay binary64 rt l) :=
    List.mem_map_of_mem Prod.fst h
  have hne : expensesOn rt w l ≠ [] := (mem_keysOf_spendingByDay_rounded binary64 rt w l).1 hkey
  have hexp : ∀ t ∈ l.filter isExpense, ∃ q : ℚ, parseFloatR binary64 t.amount = JSNum.fin q := by
    intro t ht
    rw [List.mem_filter] at ht
    exact hfin t ht.1 (by simpa [isExpense] using ht.2)
  have hw : w ∉ objectPrototypeKeys := by
    obtain ⟨t, _, htw⟩ := List.mem_map.1 ((expensesOn_ne_nil_iff rt w l).1 hne)
    rw [← htw]
    exact (weekdayLong_plain rt t.date).1
  have hget := getOwn_foldl_addTo_rounded (fun t => Reports.weekdayLong rt t.date) w hw
    (l.filter isExpense) [] (fun t ht _ => hexp t ht) (Or.inl rfl)
  beta_reduce at hget
  have hown := getOwn_of_mem _ w v (nodup_keysOf_spendingByDay_rounded binary64 rt l) h
  have hown' : (Rounded.Reports.spendingByDay binary64 rt l).getOwn w =
      some (Reports.Amount.num (Rounded.spentOn binary64 rt w l)) := by
    unfold Rounded.Reports.spendingByDay
    show (List.foldl (fun acc t => Rounded.Reports.addTo binary64 acc
      (Reports.weekdayLong rt t.date) (parseFloatR binary64 t.amount)) []
      (l.filter isExpense)).getOwn w = _
    rw [hget]
    have hne' : List.filter (fun t => decide (Reports.weekdayLong rt t.date = w))
        (List.filter isExpense l) ≠ [] := hne
    rw [if_neg hne']
    rfl
  rw [hown] at hown'
  simpa using hown'

theorem spendingByDay_eq_nil_iff_rounded (rnd : ℚ → JSNum) (rt : Runtime)
    (l : List Transaction) :
    Rounded.Reports.spendingByDay rnd rt l = [] ↔ ∀ t ∈ l, t.type ≠ some "expense" := by
  constructor
  · intro h t ht he
    have hexp : t ∈ l.filter isExpense := List.mem_filter.2 ⟨ht, by simp [isExpense, he]⟩
    have hne : expensesOn rt (Reports.weekdayLong rt t.date) l ≠ [] :=
      (expensesOn_ne_nil_iff rt _ l).2 (List.mem_map_of_mem _ hexp)
    have hk := (mem_keysOf_spendingByDay_rounded rnd rt _ l).2 hne
    rw [h] at hk
    cases hk
  · intro h
    have hnil : l.filter isExpense = [] := by
      rw [List.filter_eq_nil_iff]
      intro t ht
      simpa [isExpense] using h t ht
    unfold Rounded.Reports.spendingByDay
    rw [hnil]
    rfl

theorem topSpendingDay_eq_none_iff_rounded (rnd : ℚ → JSNum) (rt : Runtime)
    (l : List Transaction) :
    Rounded.Reports.topSpendingDay rnd rt l = none ↔ ∀ t ∈ l, t.type ≠ some "expense" := by
  rw [← spendingByDay_eq_nil_iff_rounded rnd rt l]
  unfold Rounded.Reports.topSpendingDay
  have hlen : (Object.entries (Rounded.Reports.spendingByDay rnd rt l)).length =
      (Rounded.Reports.spendingByDay rnd rt l).length := (entries_perm _).length_eq
  constructor
  · intro h
    by_contra hne
    have hpos : 0 < (Rounded.Reports.spendingByDay rnd rt l).length := List.length_pos.2 hne
    rw [if_pos (by rw [hlen]; exact hpos)] at h
    rw [List.head?_eq_none_iff] at h
    have := (arraySort_perm (fun a b : String × Reports.Amount =>
      JSNum.subR rnd b.2.toNumber a.2.toNumber)
      (Object.entries (Rounded.Reports.spendingByDay rnd rt l))).length_eq
    rw [h, hlen] at this
    simp only [List.length_nil] at this
    omega
  · intro h
    rw [if_neg (by rw [hlen, h]; simp)]

theorem topSpendingDay_head_rounded (rnd : ℚ → JSNum) (rt : Runtime) (l : List Transaction)
    (e : String × Reports.Amount) (h : Rounded.Reports.topSpendingDay rnd rt l = some e) :
    ∃ rest, arraySort (fun a b : String × Reports.Amount =>
        JSNum.subR rnd b.2.toNumber a.2.toNumber)
      (Object.entries (Rounded.Reports.spendingByDay rnd rt l)) = e :: rest := by
  unfold Rounded.Reports.topSpendingDay at h
  split at h
  · cases hs : arraySort (fun a b : String × Reports.Amount =>
        JSNum.subR rnd b.2.toNumber a.2.toNumber)
      (Object.entries (Rounded.Reports.spendingByDay rnd rt l)) with
    | nil => rw [hs] at h; cases h
    | cons a rest =>
      rw [hs] at h
      simp only [List.head?_cons, Option.some.injEq] at h
      exact ⟨rest, by rw [h]⟩
  · cases h

theorem mem_sorted_spending_iff_rounded (rnd : ℚ → JSNum) (rt : Runtime)
    (l : List Transaction) (e : String × Reports.Amount) :
    e ∈ arraySort (fun a b : String × Reports.Amount =>
        JSNum.subR rnd b.2.toNumber a.2.toNumber)
      (Object.entries (Rounded.Reports.spendingByDay rnd rt l)) ↔
      e ∈ Rounded.Reports.spendingByDay rnd rt l := by
  rw [mem_arraySort]
  exact (entries_perm _).mem_iff

/-- On finite amounts, the amount of the top spending day is `>=` the amount of every
weekday that has an expense entry. -/
theorem topSpendingDay_max_rounded (rt : Runtime) (l : List Transaction)
    (hfin : ∀ t ∈ l, t.type = some "expense" →
      ∃ q : ℚ, parseFloatR binary64 t.amount = JSNum.fin q)
    (day : String) (v : Reports.Amount)
    (h : Rounded.Reports.topSpendingDay binary64 rt l = some (day, v))
    (w : String) (hw : expensesOn rt w l ≠ []) :
    JSNum.ge (Rounded.spentOn binary64 rt day l) (Rounded.spentOn binary64 rt w l) = true := by
  obtain ⟨rest, hsorted⟩ := topSpendingDay_head_rounded binary64 rt l _ h
  have hday : (day, v) ∈ Rounded.Reports.spendingByDay binary64 rt l :=
    (mem_sorted_spending_iff_rounded binary64 rt l _).1
      (by rw [hsorted]; exact List.mem_cons_self _ _)
  have hv := spendingByDay_entry_rounded rt l hfin day v hday
  obtain ⟨e, he, hew⟩ := List.mem_map.1 ((mem_keysOf_spendingByDay_rounded binary64 rt w l).2 hw)
  obtain ⟨w', v'⟩ := e
  simp only at hew
  subst hew
  have hv' := spendingByDay_entry_rounded rt l hfin w' v' he
  have hnum : ∀ x ∈ Object.entries (Rounded.Reports.spendingByDay binary64 rt l),
      x.2.toNumber ≠ JSNum.nan ∧ OnGrid x.2.toNumber := by
    intro x hx
    have hx' : (x.1, x.2) ∈ Rounded.Reports.spendingByDay binary64 rt l :=
      (entries_perm _).mem_iff.1 hx
    have hxv := spendingByDay_entry_rounded rt l hfin x.1 x.2 hx'
    rw [hxv]
    exact spentOn_number_rounded rt l x.1 hfin
  have hpw := arraySort_pairwise_of_sign
    (fun a b : String × Reports.Amount => JSNum.subR binary64 b.2.toNumber a.2.toNumber)
    (fun e : String × Reports.Amount => e.2.toNumber)
    (Object.entries (Rounded.Reports.spendingByDay binary64 rt l))
    (fun x hx y hy => subR_sign x.2.toNumber y.2.toNumber (hnum x hx).1 (hnum y hy).1
      (hnum x hx).2 (hnum y hy).2)
    (fun x hx => (hnum x hx).1)
  rw [hsorted, List.pairwise_cons] at hpw
  have hmem : (w', v') ∈ (day, v) :: rest := by
    rw [← hsorted]
    exact (mem_sorted_spending_iff_rounded binary64 rt l _).2 he
  rcases List.mem_cons.1 hmem with heq | hin
  · cases heq
    exact JSNum.ge_self (spentOn_number_rounded rt l _ hfin).1
  · have := hpw.1 _ hin
    simpa [hv, hv', Reports.Amount.toNumber] using this

/-- On finite amounts, a weekday with the same amount as the top spending day is first
encountered later in the list. -/
theorem topSpendingDay_tie_rounded (rt : Runtime) (l : List Transaction)
    (hfin : ∀ t ∈ l, t.type = some "expense" →
      ∃ q : ℚ, parseFloatR binary64 t.amount = JSNum.fin q)
    (day : String) (v : Reports.Amount)
    (h : Rounded.Reports.topSpendingDay binary64 rt l = some (day, v))
    (w : String) (hne : w ≠ day) (hw : expensesOn rt w l ≠ [])
    (htie : Rounded.spentOn binary64 rt w l = Rounded.spentOn binary64 rt day l) :
    FirstBefore day w ((l.filter isExpense).map (fun t => Reports.weekdayLong rt t.date)) := by
  obtain ⟨rest, hsorted⟩ := topSpendingDay_head_rounded binary64 rt l _ h
  have hday : (day, v) ∈ Rounded.Reports.spendingByDay binary64 rt l :=
    (mem_sorted_spending_iff_rounded binary64 rt l _).1
      (by rw [hsorted]; exact List.mem_cons_self _ _)
  have hv := spendingByDay_entry_rounded rt l hfin day v hday
  have hdaykey : day ∈ keysOf (Rounded.Reports.spendingByDay binary64 rt l) :=
    List.mem_map_of_mem Prod.fst hday
  have hwkey : w ∈ keysOf (Rounded.Reports.spendingByDay binary64 rt l) :=
    (mem_keysOf_spendingByDay_rounded binary64 rt w l).2 hw
  have hdayne : expensesOn rt day l ≠ [] :=
    (mem_keysOf_spendingByDay_rounded binary64 rt day l).1 hdaykey
  obtain ⟨e, he, hew⟩ := List.mem_map.1 hwkey
  obtain ⟨w', v'⟩ := e
  simp only at hew
  subst hew
  have hv' := spendingByDay_entry_rounded rt l hfin w' v' he
  rcases firstBefore_total day w' _ ((expensesOn_ne_nil_iff rt day l).1 hdayne) with hfb | hfb
  · exact hfb
  · exfalso
    obtain ⟨before, after, hks, hw1, hd1⟩ := hfb
    have hord : [w', day].Sublist (keysOf (Rounded.Reports.spendingByDay binary64 rt l)) := by
      rw [keysOf_spendingByDay_rounded, hks] at hdaykey hwkey ⊢
      exact keyStep_foldl_order _ before after w' day hne hw1 hd1 hwkey hdaykey
    obtain ⟨t₁, _, ht₁⟩ := List.mem_map.1 ((expensesOn_ne_nil_iff rt w' l).1 hw)
    obtain ⟨t₂, _, ht₂⟩ := List.mem_map.1 ((expensesOn_ne_nil_iff rt day l).1 hdayne)
    have hsub := sorted_entries_order (Rounded.Reports.spendingByDay binary64 rt l) id Prod.fst
      (fun _ => rfl)
      (fun a b : String × Reports.Amount => JSNum.subR binary64 b.2.toNumber a.2.toNumber)
      (nodup_keysOf_spendingByDay_rounded binary64 rt l) (w', v') (day, v)
      (by rw [List.map_id]; exact (mem_sorted_spending_iff_rounded binary64 rt l _).2 he)
      (by rw [List.map_id]; exact (mem_sorted_spending_iff_rounded binary64 rt l _).2 hday)
      (by rw [← ht₁]; exact (weekdayLong_plain rt t₁.date).2.2)
      (by rw [← ht₂]; exact (weekdayLong_plain rt t₂.date).2.2)
      hord
      (by
        simp only [hv, hv', Reports.Amount.toNumber, htie]
        exact subR_self_not_gt _)
    rw [List.map_id, hsorted] at hsub
    obtain ⟨hsl, hnd⟩ := hsub
    have hnotin : (day, v) ∉ rest := (List.nodup_cons.1 hnd).1
    cases hsl with
    | cons _ h' => exact hnotin (h'.subset (by simp))
    | cons₂ _ _ => exact hne rfl

theorem foldl_addR_nonneg (l : List Transaction) (s : JSNum) (hs : JSNum.ge s 0 = true)
    (hpos : ∀ t ∈ l, ∃ q : ℚ, 0 ≤ q ∧ parseFloatR binary64 t.amount = JSNum.fin q) :
    JSNum.ge (l.foldl (fun s t => JSNum.addR binary64 s (parseFloatR binary64 t.amount)) s) 0 =
      true := by
  induction l generalizing s with
  | nil => exact hs
  | cons t l ih =>
    obtain ⟨q, hq0, hq⟩ := hpos t (List.mem_cons_self _ _)
    rw [List.foldl_cons]
    apply ih _ _ (fun t' ht' => hpos t' (List.mem_cons_of_mem _ ht'))
    rw [hq]
    cases s with
    | fin a =>
      have ha : 0 ≤ a := by simpa [JSNum.ge, JSNum.zero_def] using hs
      exact binary64_nonneg (a + q) (add_nonneg ha hq0)
    | posInf => rfl
    | negInf => simp [JSNum.ge, JSNum.zero_def] at hs
    | nan => simp [JSNum.ge] at hs

theorem spentOn_nonneg_rounded (rt : Runtime) (l : List Transaction) (w : String)
    (hpos : ∀ t ∈ l, t.type = some "expense" →
      ∃ q : ℚ, 0 ≤ q ∧ parseFloatR binary64 t.amount = JSNum.fin q) :
    JSNum.ge (Rounded.spentOn binary64 rt w l) 0 = true := by
  unfold Rounded.spentOn
  apply foldl_addR_nonneg _ _ (by simp [JSNum.ge, JSNum.zero_def])
  intro t ht
  have ht' := List.mem_filter.1 (List.mem_filter.1 ht).1
  exact hpos t ht'.1 (by simpa [isExpense] using ht'.2)

/-- C12 (amended), on doubles: for every list whose expense entries all have a valid date
and an amount that parses to a finite number, `topSpendingDay` is `null` exactly when the
list has no expense entry; otherwise it is the name of the weekday of some expense entry,
paired with the amounts of the expense entries of that weekday added one by one in the
order of the list, each sum rounded to a double as `+=` does; that amount is `>=` the
amount of every weekday that has an expense entry (of every weekday at all when no amount
is negative), and a weekday with the same amount is first encountered later in the
list. -/
theorem topSpendingDay_spec (rt : Runtime) (l : List Transaction)
    (hdate : ∀ t ∈ l, t.type = some "expense" → t.date ≠ none)
    (hfin : ∀ t ∈ l, t.type = some "expense" →
      ∃ q : ℚ, parseFloatR binary64 t.amount = JSNum.fin q) :
    (Rounded.Reports.topSpendingDay binary64 rt l = none ↔
      ∀ t ∈ l, t.type ≠ some "expense") ∧
    ∀ day v, Rounded.Reports.topSpendingDay binary64 rt l = some (day, v) →
      day ∈ weekdayNames ∧
      expensesOn rt day l ≠ [] ∧
      v = Reports.Amount.num (Rounded.spentOn binary64 rt day l) ∧
      (∀ w, expensesOn rt w l ≠ [] →
        JSNum.ge (Rounded.spentOn binary64 rt day l) (Rounded.spentOn binary64 rt w l) = true) ∧
      ((∀ t ∈ l, t.type = some "expense" →
          ∃ q : ℚ, 0 ≤ q ∧ parseFloatR binary64 t.amount = JSNum.fin q) →
        ∀ w, JSNum.ge (Rounded.spentOn binary64 rt day l)
          (Rounded.spentOn binary64 rt w l) = true) ∧
      (∀ w, w ≠ day → expensesOn rt w l ≠ [] →
        Rounded.spentOn binary64 rt w l = Rounded.spentOn binary64 rt day l →
        FirstBefore day w
          ((l.filter isExpense).map (fun t => Reports.weekdayLong rt t.date))) := by
  refine ⟨topSpendingDay_eq_none_iff_rounded binary64 rt l, ?_⟩
  intro day v h
  obtain ⟨rest, hsorted⟩ := topSpendingDay_head_rounded binary64 rt l _ h
  have hday : (day, v) ∈ Rounded.Reports.spendingByDay binary64 rt l :=
    (mem_sorted_spending_iff_rounded binary64 rt l _).1
      (by rw [hsorted]; exact List.mem_cons_self _ _)
  have hne : expensesOn rt day l ≠ [] :=
    (mem_keysOf_spendingByDay_rounded binary64 rt day l).1 (List.mem_map_of_mem Prod.fst hday)
  refine ⟨?_, hne, spendingByDay_entry_rounded rt l hfin day v hday,
    topSpendingDay_max_rounded rt l hfin day v h, ?_, ?_⟩
  · obtain ⟨t, ht, htd⟩ := List.mem_map.1 ((expensesOn_ne_nil_iff rt day l).1 hne)
    have ht' := List.mem_filter.1 ht
    cases hd : t.date with
    | none => exact absurd hd (hdate t ht'.1 (by simpa [isExpense] using ht'.2))
    | some d =>
      rw [← htd, hd]
      exact weekdayLong_mem_weekdayNames rt d
  · intro hpos w
    by_cases hw : expensesOn rt w l = []
    · have hzero : Rounded.spentOn binary64 rt w l = 0 := by
        unfold Rounded.spentOn
        rw [hw]
        rfl
      rw [hzero]
      exact spentOn_nonneg_rounded rt l day hpos
    · exact topSpendingDay_max_rounded rt l hfin day v h w hw
  · intro w hwd hw htie
    exact topSpendingDay_tie_rounded rt l hfin day v h w hwd hw htie

/-- Instances of C12. With 0.3 on a Friday and 0.1 and 0.2 on a Thursday, `topSpendingDay`
is Thursday with 0.30000000000000004, the double that `0.1 + 0.2` gives, which is `>=` the
0.3 of Friday. With 1 on a Thursday, 2 on the Friday and 1 on the next Thursday, it is
Thursday, first encountered before Friday, which has the same amount 2. -/
theorem topSpendingDay_spec_witness :
    (Reports.Amount.num (JSNum.fin (1351079888211149 / 4503599627370496)) =
        Reports.Amount.num (Rounded.spentOn binary64 utcRuntime "Thursday"
          fridayThenTwoThursdays) ∧
      JSNum.ge (Rounded.spentOn binary64 utcRuntime "Thursday" fridayThenTwoThursdays)
        (Rounded.spentOn binary64 utcRuntime "Friday" fridayThenTwoThursdays) = true) ∧
    "Thursday" ∈ weekdayNames ∧
    FirstBefore "Thursday" "Friday"
      ((thursdayFridayThursday.filter isExpense).map
        (fun t => Reports.weekdayLong utcRuntime t.date)) :=
  have h₁ := (topSpendingDay_spec utcRuntime fridayThenTwoThursdays (by decide)
    (by
      intro t ht _
      simp only [fridayThenTwoThursdays, List.mem_cons, List.mem_singleton,
        List.not_mem_nil, or_false] at ht
      rcases ht with rfl | rfl | rfl
      · exact ⟨5404319552844595 / 18014398509481984, by decide!⟩
      · exact ⟨3602879701896397 / 36028797018963968, by decide!⟩
      · exact ⟨3602879701896397 / 18014398509481984, by decide!⟩)).2
    "Thursday" (Reports.Amount.num (JSNum.fin (1351079888211149 / 4503599627370496)))
    (by decide!)
  have h₂ := (topSpendingDay_spec utcRuntime thursdayFridayThursday (by decide)
    (by
      intro t ht _
      simp only [thursdayFridayThursday, List.mem_cons, List.mem_singleton,
        List.not_mem_nil, or_false] at ht
      rcases ht with rfl | rfl | rfl
      · exact ⟨1, by decide!⟩
      · exact ⟨2, by decide!⟩
      · exact ⟨1, by decide!⟩)).2
    "Thursday" (Reports.Amount.num (JSNum.fin 2)) (by decide!)
  ⟨⟨h₁.2.2.1, h₁.2.2.2.1 "Friday" (by decide)⟩, h₂.1,
    h₂.2.2.2.2.2 "Friday" (by decide) (by decide) (by decide!)⟩

/-! ## The breakdown on doubles (C5) -/

theorem mem_replace_imp {α : Type} (o : Obj α) (k : String) (v : α) (e : String × α)
    (h : e ∈ o.replace k v) : e ∈ o ∨ e = (k, v) := by
  induction o with
  | nil => cases h
  | cons e' o ih =>
    obtain ⟨k', v'⟩ := e'
    unfold Obj.replace at h
    split at h
    · next hk =>
      rcases List.mem_cons.1 h with h | h
      · exact Or.inr (by rw [h, hk])
      · exact Or.inl (List.mem_cons_of_mem _ h)
    · rcases List.mem_cons.1 h with h | h
      · exact Or.inl (by rw [h]; exact List.mem_cons_self _ _)
      · rcases ih h with h' | h'
        · exact Or.inl (List.mem_cons_of_mem _ h')
        · exact Or.inr h'

/-- An assignment `o[k] = v` leaves the properties of `o` or the pair `(k, v)`. -/
theorem mem_set_imp {α : Type} (o : Obj α) (k : String) (v : α) (e : String × α)
    (h : e ∈ o.set k v) : e ∈ o ∨ e = (k, v) := by
  unfold Obj.set at h
  split at h
  · exact Or.inl h
  · split at h
    · exact mem_replace_imp o k v e h
    · rcases List.mem_append.1 h with h | h
      · exact Or.inl h
      · exact Or.inr (List.mem_singleton.1 h)

theorem onGrid_nan : OnGrid JSNum.nan := by
  intro q hq
  cases hq

theorem onGrid_plus (a : Lookup Reports.Amount) (x : JSNum) :
    OnGrid (Rounded.Reports.plus binary64 a x).toNumber := by
  unfold Rounded.Reports.plus
  split
  · exact onGrid_addR _ _
  · exact onGrid_nan
  · exact onGrid_nan
  · exact onGrid_nan

theorem onGrid_addTo (acc : Obj Reports.Amount) (k : String) (x : JSNum)
    (h : ∀ e ∈ acc, OnGrid e.2.toNumber) :
    ∀ e ∈ Rounded.Reports.addTo binary64 acc k x, OnGrid e.2.toNumber := by
  intro e he
  unfold Rounded.Reports.addTo at he
  rcases mem_set_imp _ _ _ _ he with he | he
  · split at he
    · rcases mem_set_imp _ _ _ _ he with he | he
      · exact h e he
      · rw [he]
        exact onGrid_zero
    · exact h e he
  · rw [he]
    exact onGrid_plus _ _

/-- Every number held by `categoryBreakdown` on doubles is a double. -/
theorem onGrid_categoryBreakdown (l : List Transaction) :
    ∀ e ∈ Rounded.Reports.categoryBreakdown binary64 l, OnGrid e.2.toNumber := by
  unfold Rounded.Reports.categoryBreakdown
  generalize l.filter isExpense = es
  have key : ∀ (es : List Transaction) (acc : Obj Reports.Amount),
      (∀ e ∈ acc, OnGrid e.2.toNumber) →
      ∀ e ∈ es.foldl (Rounded.Reports.categoryStep binary64) acc, OnGrid e.2.toNumber := by
    intro es
    induction es with
    | nil => intro acc h; exact h
    | cons t es ih =>
      intro acc h
      rw [List.foldl_cons]
      exact ih _ (onGrid_addTo acc _ _ h)
  exact key es [] (fun e he => by cases he)

theorem onGrid_categoryStep (acc : Obj Dashboard.Cell) (t : Transaction)
    (h : ∀ e ∈ acc, OnGrid e.2.total) :
    ∀ e ∈ Rounded.Dashboard.categoryStep binary64 acc t, OnGrid e.2.total := by
  have h1 : ∀ e ∈ (match acc.get (propertyKey t.category) with
      | Lookup.undefined =>
          acc.set (propertyKey t.category)
            { total := 0, count := 0, icon := Dashboard.getCategoryIcon t.category }
      | _ => acc), OnGrid e.2.total := by
    intro e he
    split at he
    · rcases mem_set_imp _ _ _ _ he with he | he
      · exact h e he
      · rw [he]
        exact onGrid_zero
    · exact h e he
  intro e he
  unfold Rounded.Dashboard.categoryStep at he
  simp only [] at he
  split at he
  · rcases mem_set_imp _ _ _ _ he with he | he
    · exact h1 e he
    · rw [he]
      exact onGrid_addR _ _
  · exact h1 e he

/-- Every total held by `categorySpending` on doubles is a double. -/
theorem onGrid_categorySpending (l : List Transaction) :
    ∀ e ∈ Rounded.Dashboard.categorySpending binary64 l, OnGrid e.2.total := by
  unfold Rounded.Dashboard.categorySpending
  generalize l.filter isExpense = es
  have key : ∀ (es : List Transaction) (acc : Obj Dashboard.Cell),
      (∀ e ∈ acc, OnGrid e.2.total) →
      ∀ e ∈ es.foldl (Rounded.Dashboard.categoryStep binary64) acc, OnGrid e.2.total := by
    intro es
    induction es with
    | nil => intro acc h; exact h
    | cons t es ih =>
      intro acc h
      rw [List.foldl_cons]
      exact ih _ (onGrid_categoryStep acc t h)
  exact key es [] (fun e he => by cases he)

/-- The rounded Dashboard reducer creates an own key for every category that is not a
property name of `Object.prototype`, at its first occurrence. -/
theorem keysOf_categoryStep_rounded (rnd : ℚ → JSNum) (acc : Obj Dashboard.Cell)
    (t : Transaction) :
    keysOf (Rounded.Dashboard.categoryStep rnd acc t) =
      keyStep (fun k => decide (k ∉ objectPrototypeKeys)) (keysOf acc)
        (propertyKey t.category) := by
  unfold Rounded.Dashboard.categoryStep Obj.get
  cases h : acc.getOwn (propertyKey t.category) with
  | some c =>
    have hk : propertyKey t.category ∈ keysOf acc := getOwn_eq_some_mem h
    simp [h, keysOf_set, keyStep, hk]
  | none =>
    have hk : propertyKey t.category ∉ keysOf acc := (getOwn_eq_none_iff _ _).1 h
    by_cases hp : propertyKey t.category ∈ objectPrototypeKeys
    · simp [h, hp, keyStep, hk]
    · have hne : propertyKey t.category ≠ "__proto__" := fun e =>
        hp (e ▸ proto_mem_objectPrototypeKeys)
      simp [h, hp, keyStep, hk, getOwn_set_self _ _ _ hne, keysOf_set, hne]

theorem keysOf_categorySpending_rounded (rnd : ℚ → JSNum) (l : List Transaction) :
    keysOf (Rounded.Dashboard.categorySpending rnd l) =
      ((l.filter isExpense).map (fun t => propertyKey t.category)).foldl
        (keyStep (fun k => decide (k ∉ objectPrototypeKeys))) [] :=
  keysOf_foldl_step _ _ (keysOf_categoryStep_rounded rnd) _ []

theorem keysOf_categoryBreakdown_rounded (rnd : ℚ → JSNum) (l : List Transaction) :
    keysOf (Rounded.Reports.categoryBreakdown rnd l) =
      ((l.filter isExpense).map (fun t => propertyKey t.category)).foldl
        (keyStep (fun k => decide (k ≠ "__proto__"))) [] :=
  keysOf_foldl_addTo_rounded rnd (fun t => propertyKey t.category) _ []

/-- C5 (amended), on doubles: when no category total is NaN, the breakdown is in descending
order of total, and ties between categories that are not array indices are broken by
first-encountered order. If the category `x` first occurs on an expense entry before the
category `y` does, neither is an array index, and their entries in the breakdown have the
same total (as the reducer adds it up, each sum rounded to a double), then the entry of
`x` comes before the entry of `y`: in the four-entry list of the Dashboard when both are
in it, and in the full list of Reports. -/
theorem ties_keep_first_encountered_order (l : List Transaction) (before after : List String)
    (x y : String)
    (hkeys : (l.filter isExpense).map (fun t => propertyKey t.category) = before ++ x :: after)
    (hx : x ∉ before) (hy : y ∉ before) (hxy : x ≠ y)
    (hix : arrayIndex x = none) (hiy : arrayIndex y = none) :
    ((∀ c ∈ Rounded.Dashboard.sortedCategories binary64 l, c.total ≠ JSNum.nan) →
      List.Pairwise (fun a b => JSNum.ge a.total b.total = true)
        (Rounded.Dashboard.categoryList binary64 l) ∧
      ∀ a b, a ∈ Rounded.Dashboard.categoryList binary64 l →
        b ∈ Rounded.Dashboard.categoryList binary64 l →
        a.name = x → b.name = y → a.total = b.total →
        [a, b].Sublist (Rounded.Dashboard.categoryList binary64 l)) ∧
    ((∀ e ∈ Rounded.Reports.categoryData binary64 l, e.amount.toNumber ≠ JSNum.nan) →
      List.Pairwise (fun a b => JSNum.ge a.amount.toNumber b.amount.toNumber = true)
        (Rounded.Reports.categoryData binary64 l) ∧
      ∀ a b, a ∈ Rounded.Reports.categoryData binary64 l →
        b ∈ Rounded.Reports.categoryData binary64 l →
        a.category = x → b.category = y → a.amount = b.amount →
        [a, b].Sublist (Rounded.Reports.categoryData binary64 l)) := by
  constructor
  · intro hnan
    constructor
    · have hg : ∀ c ∈ (Object.entries (Rounded.Dashboard.categorySpending binary64 l)).map
          (fun e => ({ name := e.1, total := e.2.total,
                       average := JSNum.divR binary64 e.2.total e.2.count,
                       icon := e.2.icon } : Dashboard.CategoryItem)),
          c.total ≠ JSNum.nan ∧ OnGrid c.total := by
        intro c hc
        refine ⟨hnan c ((mem_arraySort _ _ c).2 hc), ?_⟩
        obtain ⟨e, he, hec⟩ := List.mem_map.1 hc
        rw [← hec]
        exact onGrid_categorySpending l e ((entries_perm _).mem_iff.1 he)
      have hp := arraySort_pairwise_of_sign
        (fun a b : Dashboard.CategoryItem => JSNum.subR binary64 b.total a.total)
        (fun c : Dashboard.CategoryItem => c.total) _
        (fun a ha b hb => subR_sign a.total b.total (hg a ha).1 (hg b hb).1 (hg a ha).2
          (hg b hb).2)
        (fun a ha => (hg a ha).1)
      exact hp.sublist (List.take_sublist 4 _)
    · intro a b ha hb hax hby htot
      have ha' : a ∈ Rounded.Dashboard.sortedCategories binary64 l := List.mem_of_mem_take ha
      have hb' : b ∈ Rounded.Dashboard.sortedCategories binary64 l := List.mem_of_mem_take hb
      have hka : a.name ∈ keysOf (Rounded.Dashboard.categorySpending binary64 l) :=
        name_mem_keysOf (Rounded.Dashboard.categorySpending binary64 l) _
          (fun c : Dashboard.CategoryItem => c.name) (fun _ => rfl) _ a ha'
      have hkb : b.name ∈ keysOf (Rounded.Dashboard.categorySpending binary64 l) :=
        name_mem_keysOf (Rounded.Dashboard.categorySpending binary64 l) _
          (fun c : Dashboard.CategoryItem => c.name) (fun _ => rfl) _ b hb'
      have hnd : (keysOf (Rounded.Dashboard.categorySpending binary64 l)).Nodup := by
        rw [keysOf_categorySpending_rounded]
        exact nodup_keyStep_foldl _ _ _ List.nodup_nil
      have hord : [a.name, b.name].Sublist
          (keysOf (Rounded.Dashboard.categorySpending binary64 l)) := by
        rw [keysOf_categorySpending_rounded, hkeys] at hka hkb ⊢
        rw [hax] at hka ⊢
        rw [hby] at hkb ⊢
        exact keyStep_foldl_order _ before after x y hxy hx hy hka hkb
      have h := sorted_entries_order (Rounded.Dashboard.categorySpending binary64 l) _
        (fun c : Dashboard.CategoryItem => c.name) (fun _ => rfl)
        (fun a b : Dashboard.CategoryItem => JSNum.subR binary64 b.total a.total) hnd a b ha' hb'
        (by simpa [hax] using hix) (by simpa [hby] using hiy) hord
        (by simp only [htot]; exact subR_self_not_gt _)
      exact pair_sublist_take a b _ 4 h.2 h.1 hb
  · intro hnan
    constructor
    · have hg : ∀ c ∈ (Object.entries (Rounded.Reports.categoryBreakdown binary64 l)).map
          (fun e => ({ category := e.1, amount := e.2,
                       percentage :=
                         if JSNum.gt (Rounded.Reports.totalExpense binary64 l) 0 then
                           Reports.Percentage.toFixed1
                             (JSNum.mulR binary64
                               (JSNum.divR binary64 e.2.toNumber
                                 (Rounded.Reports.totalExpense binary64 l))
                               (JSNum.fin 100))
                         else Reports.Percentage.zero } : Reports.CategoryDatum)),
          c.amount.toNumber ≠ JSNum.nan ∧ OnGrid c.amount.toNumber := by
        intro c hc
        refine ⟨hnan c ((mem_arraySort _ _ c).2 hc), ?_⟩
        obtain ⟨e, he, hec⟩ := List.mem_map.1 hc
        rw [← hec]
        exact onGrid_categoryBreakdown l e ((entries_perm _).mem_iff.1 he)
      exact arraySort_pairwise_of_sign
        (fun a b : Reports.CategoryDatum =>
          JSNum.subR binary64 b.amount.toNumber a.amount.toNumber)
        (fun c : Reports.CategoryDatum => c.amount.toNumber) _
        (fun a ha b hb => subR_sign a.amount.toNumber b.amount.toNumber (hg a ha).1 (hg b hb).1
          (hg a ha).2 (hg b hb).2)
        (fun a ha => (hg a ha).1)
    · intro a b ha hb hax hby htot
      have hka : a.category ∈ keysOf (Rounded.Reports.categoryBreakdown binary64 l) :=
        name_mem_keysOf (Rounded.Reports.categoryBreakdown binary64 l) _
          (fun e : Reports.CategoryDatum => e.category) (fun _ => rfl) _ a ha
      have hkb : b.category ∈ keysOf (Rounded.Reports.categoryBreakdown binary64 l) :=
        name_mem_keysOf (Rounded.Reports.categoryBreakdown binary64 l) _
          (fun e : Reports.CategoryDatum => e.category) (fun _ => rfl) _ b hb
      have hnd : (keysOf (Rounded.Reports.categoryBreakdown binary64 l)).Nodup := by
        rw [keysOf_categoryBreakdown_rounded]
        exact nodup_keyStep_foldl _ _ _ List.nodup_nil
      have hord : [a.category, b.category].Sublist
          (keysOf (Rounded.Reports.categoryBreakdown binary64 l)) := by
        rw [keysOf_categoryBreakdown_rounded, hkeys] at hka hkb ⊢
        rw [hax] at hka ⊢
        rw [hby] at hkb ⊢
        exact keyStep_foldl_order _ before after x y hxy hx hy hka hkb
      exact (sorted_entries_order (Rounded.Reports.categoryBreakdown binary64 l) _
        (fun e : Reports.CategoryDatum => e.category) (fun _ => rfl)
        (fun a b : Reports.CategoryDatum =>
          JSNum.subR binary64 b.amount.toNumber a.amount.toNumber) hnd a b ha hb
        (by simpa [hax] using hix) (by simpa [hby] using hiy) hord
        (by simp only [htot]; exact subR_self_not_gt _)).1

/-- Instances of C5. With 0.75 on Gas, 3 on Bills, then 0.5 and 0.25 on Food, Gas is met
before Food with the same total 0.75, and its entry comes first on both screens. With 0.3
on Gas, then 0.1 and 0.2 on Food, the total of Food is the double 0.30000000000000004,
which is larger than 0.3: there is no tie, and Food comes first on both screens. -/
theorem ties_keep_first_encountered_order_witness :
    ([({ name := "Gas", total := JSNum.fin (3 / 4), average := JSNum.fin (3 / 4),
         icon := Dashboard.Icon.emoji "⛽" } : Dashboard.CategoryItem),
      { name := "Food", total := JSNum.fin (3 / 4), average := JSNum.fin (3 / 8),
        icon := Dashboard.Icon.emoji "🍔" }].Sublist
        (Rounded.Dashboard.categoryList binary64 gasThenFoodQuarters) ∧
     [({ category := "Gas", amount := Reports.Amount.num (JSNum.fin (3 / 4)),
         percentage := Reports.Percentage.toFixed1
           (JSNum.fin (2345624805922133 / 140737488355328)) } : Reports.CategoryDatum),
      { category := "Food", amount := Reports.Amount.num (JSNum.fin (3 / 4)),
        percentage := Reports.Percentage.toFixed1
          (JSNum.fin (2345624805922133 / 140737488355328)) }].Sublist
       (Rounded.Reports.categoryData binary64 gasThenFoodQuarters)) ∧
    (List.Pairwise (fun a b => JSNum.ge a.total b.total = true)
        (Rounded.Dashboard.categoryList binary64 gasThenTwoFood) ∧
     (Rounded.Dashboard.categoryList binary64 gasThenTwoFood).map (fun c => (c.name, c.total)) =
       [("Food", JSNum.fin (1351079888211149 / 4503599627370496)),
        ("Gas", JSNum.fin (5404319552844595 / 18014398509481984))] ∧
     (Rounded.Reports.categoryData binary64 gasThenTwoFood).map (fun e => e.category) =
       ["Food", "Gas"]) :=
  have h := ties_keep_first_encountered_order gasThenFoodQuarters [] ["Bills", "Food", "Food"]
    "Gas" "Food" (by decide) (by decide) (by decide) (by decide) (by decide) (by decide)
  have h' := ties_keep_first_encountered_order gasThenTwoFood [] ["Food", "Food"]
    "Gas" "Food" (by decide) (by decide) (by decide) (by decide) (by decide) (by decide)
  ⟨⟨(h.1 (by decide!)).2 _ _ (by decide!) (by decide!) rfl rfl rfl,
    (h.2 (by decide!)).2 _ _ (by decide!) (by decide!) rfl rfl rfl⟩,
   (h'.1 (by decide!)).1, by decide!, by decide!⟩

end Fintrack
